import Mathlib

/-!
# Morning attendance: the API module (`src/js/api.js`)

A shallow embedding of the `AttendanceAPI` class: the local record store
(`localStorage` under the key `attendanceData`), the remote gateway (Google Apps
Script), the hybrid query that reconciles both, the daily and weekly statistics,
the backfill of missing events, the student lookup and the sync pass.

Modelling conventions.

* A timestamp is stored as the time value `new Date(timestamp).getTime()` in
  milliseconds since the epoch; `none` stands for an Invalid Date (a missing or
  unparseable `timestamp`), on which `toISOString()` throws a `RangeError`.
* A JavaScript exception is a `none` result of the embedded function; every
  `try ... catch` of the source is a `match` on that result.
* The asynchronous collaborators (the `fetch` calls) are inputs: the outcome of a
  request is a value handed to the embedded function.
* `Date.now()`, `Math.random()`, the host time zone and the `Date` parser are
  fields of `Host`.
-/

namespace MorningAttendance

/-! ## Data model -/

/-- An attendance record as it is passed around and stored: the four submitted
fields plus the bookkeeping fields the store and the sync pass add. -/
structure AttendanceRecord where
  studentId : String
  studentName : String
  status : String
  timestamp : Option Int
  id : Option String
  submittedAt : Option Int
  source : Option String
  syncedAt : Option Int
deriving DecidableEq, Repr

/-- What the host environment supplies to one call. -/
structure Host where
  /-- The value of `Date.now()`, milliseconds since the epoch. -/
  now : Int
  /-- The string `Math.random().toString(36)`. -/
  random36 : String
  /-- Minutes east of UTC of the local time zone at an instant. -/
  tzOffset : Int → Int
  /-- The time value of `new Date(text)`, `none` for an Invalid Date. -/
  parseDate : String → Option Int

/-- The value stored under the `attendanceData` key. -/
inductive StoredValue where
  | absent
  | json (records : List AttendanceRecord)
  | corrupt
deriving DecidableEq, Repr

/-- The browser store: the value under `attendanceData`, and which values
`setItem` accepts (it throws on the others, as when the quota is exceeded). -/
structure LocalStorage where
  attendanceData : StoredValue
  quotaOk : List AttendanceRecord → Bool

/-- The fields of the `AttendanceAPI` object. -/
structure AttendanceAPI where
  webAppUrl : Option String
  isOnlineMode : Bool
deriving DecidableEq, Repr

/-- The `filters` argument of the query functions. -/
structure Filters where
  date : Option String
  studentId : Option String
deriving DecidableEq, Repr

/-- JavaScript truthiness of an optional string: present and not empty. -/
def truthy (s : Option String) : Bool :=
  match s with
  | some v => decide (v ≠ "")
  | none => false

/-- The result object of the submit functions. -/
structure SubmitResult where
  success : Bool
  message : String
  data : Option AttendanceRecord
  timestamp : Option Int
  mode : Option String
deriving DecidableEq, Repr

/-- The result object of the query functions. -/
structure QueryResult where
  success : Bool
  data : List AttendanceRecord
  source : Option String
  total : Option Nat
  message : Option String
  fallbackMode : Bool
  googleCount : Option Nat
  localCount : Option Nat
deriving DecidableEq, Repr

/-- Outcome of the `no-cors` POST of `_submitToGoogleScript`: the promise
resolves (the request was dispatched) or rejects with a transport error. -/
inductive DispatchOutcome where
  | dispatched
  | transportError
deriving DecidableEq, Repr

/-- The `date` cell of a remote row: a string, or another JSON value given by
the time value of `new Date(date)`. -/
inductive RowDate where
  | text (s : String)
  | value (instant : Option Int)
deriving DecidableEq, Repr

/-- One row of the remote payload. -/
structure GoogleRow where
  id : String
  studentId : String
  studentName : String
  date : RowDate
  checkInTime : Option String
  checkOutTime : Option String
deriving DecidableEq, Repr

/-- The JSON body of the `getAllAttendance` response. -/
structure GooglePayload where
  success : Bool
  data : Option (List GoogleRow)
  error : Option String
deriving DecidableEq, Repr

/-- Outcome of the GET of `_getFromGoogleScript`. -/
inductive FetchOutcome where
  | transportError
  | httpError (status : Nat)
  | badJson
  | ok (payload : GooglePayload)
deriving DecidableEq, Repr

/-! ## Dates -/

/-- Decimal digits of a natural number, left-padded with zeros to a width. -/
def pad (width n : Nat) : String :=
  let s := toString n
  String.mk (List.replicate (width - s.length) '0') ++ s

/-- Proleptic Gregorian (year, month, day) of a day number counted from
1970-01-01. -/
def civilFromDays (days : Int) : Int × Nat × Nat :=
  let z := days + 719468
  let era := z / 146097
  let doe := (z - era * 146097).toNat
  let yoe := (doe - doe / 1460 + doe / 36524 - doe / 146096) / 365
  let doy := doe - (365 * yoe + yoe / 4 - yoe / 100)
  let mp := (5 * doy + 2) / 153
  let d := doy - (153 * mp + 2) / 5 + 1
  let m := if mp < 10 then mp + 3 else mp - 9
  let y := (yoe : Int) + era * 400
  (if m ≤ 2 then y + 1 else y, m, d)

/-- The year part of `toISOString()`: four digits, or a sign and six digits
outside 0..9999. -/
def isoYear (y : Int) : String :=
  if 0 ≤ y ∧ y ≤ 9999 then pad 4 y.toNat
  else if y < 0 then "-" ++ pad 6 (-y).toNat
  else "+" ++ pad 6 y.toNat

/-- The string `new Date(t).toISOString().split('T')[0]` of a valid instant: the
UTC calendar day. -/
def isoDate (t : Int) : String :=
  let c := civilFromDays (t / 86400000)
  isoYear c.1 ++ "-" ++ pad 2 c.2.1 ++ "-" ++ pad 2 c.2.2

/-- The string `new Date(t).toTimeString().split(' ')[0].substring(0, 5)` of a
valid instant: hours and minutes of the local wall clock. -/
def localHHMM (host : Host) (t : Int) : String :=
  let minutes := ((t + host.tzOffset t * 60000) / 60000) % 1440
  pad 2 (minutes / 60).toNat ++ ":" ++ pad 2 (minutes % 60).toNat

/-- The calendar day of a record, `none` when `toISOString()` throws. -/
def recordDate (r : AttendanceRecord) : Option String :=
  r.timestamp.map isoDate

/-! ## Record store -/

/-- The digit of `toString(36)` for a value below 36. -/
def digit36 (d : Nat) : Char :=
  if d < 10 then Char.ofNat (48 + d) else Char.ofNat (87 + d)

/-- The digits of `n.toString(36)` in front of an accumulator; `fuel` bounds the
number of digits. -/
def toDigits36 : Nat → Nat → List Char → List Char
  | 0, _, acc => acc
  | fuel + 1, n, acc =>
    if n < 36 then digit36 n :: acc
    else toDigits36 fuel (n / 36) (digit36 (n % 36) :: acc)

/-- The string `n.toString(36)` of a natural number. -/
def toString36 (n : Nat) : String :=
  String.mk (toDigits36 (n + 1) n [])

/-- The expression `Date.now().toString(36) + Math.random().toString(36).substr(2, 5)`. -/
def _generateId (host : Host) : String :=
  toString36 host.now.toNat ++ (host.random36.drop 2).take 5

/-- The expression `JSON.parse(localStorage.getItem('attendanceData') || '[]')`,
`none` when `JSON.parse` throws. -/
def readAttendanceData (store : LocalStorage) : Option (List AttendanceRecord) :=
  match store.attendanceData with
  | .absent => some []
  | .json records => some records
  | .corrupt => none

/-- The record `_submitToLocalStorage` builds from the submitted data. -/
def recordData (host : Host) (api : AttendanceAPI) (data : AttendanceRecord) :
    AttendanceRecord :=
  { data with
    id := some (_generateId host)
    submittedAt := some host.now
    source := some (if api.isOnlineMode then "online_backup" else "offline") }

/-- The failure result of `_submitToLocalStorage`. -/
def storageFailure : SubmitResult :=
  { success := false, message := "데이터 저장 중 오류가 발생했습니다.", data := none,
    timestamp := none, mode := none }

/-- The method `_submitToLocalStorage(data)`: its result and the store afterwards. -/
def _submitToLocalStorage (host : Host) (api : AttendanceAPI) (store : LocalStorage)
    (data : AttendanceRecord) : SubmitResult × LocalStorage :=
  match readAttendanceData store with
  | none => (storageFailure, store)
  | some attendanceData =>
    let attendanceData := attendanceData ++ [recordData host api data]
    if store.quotaOk attendanceData then
      ({ success := true, message := "출결이 성공적으로 기록되었습니다!",
         data := some (recordData host api data), timestamp := none, mode := none },
       { store with attendanceData := .json attendanceData })
    else (storageFailure, store)

/-- The date filter of the query functions: `none` when `toISOString()` throws on
some record. -/
def filterByDate (targetDate : String) :
    List AttendanceRecord → Option (List AttendanceRecord)
  | [] => some []
  | r :: rs =>
    match recordDate r with
    | none => none
    | some d =>
      match filterByDate targetDate rs with
      | none => none
      | some rest => some (if d = targetDate then r :: rest else rest)

/-- The failure result of `_getFromLocalStorage`. -/
def queryFailure : QueryResult :=
  { success := false, data := [], source := none, total := none,
    message := some "데이터 조회 중 오류가 발생했습니다.", fallbackMode := false,
    googleCount := none, localCount := none }

/-- The method `_getFromLocalStorage(filters)`. -/
def _getFromLocalStorage (store : LocalStorage) (filters : Filters) : QueryResult :=
  match readAttendanceData store with
  | none => queryFailure
  | some attendanceData =>
    let byDate :=
      if truthy filters.date then filterByDate (filters.date.getD "") attendanceData
      else some attendanceData
    match byDate with
    | none => queryFailure
    | some filteredData =>
      let filteredData :=
        if truthy filters.studentId then
          filteredData.filter (fun record => record.studentId = filters.studentId.getD "")
        else filteredData
      { success := true, data := filteredData, source := some "localStorage",
        total := some filteredData.length, message := none, fallbackMode := false,
        googleCount := none, localCount := none }

/-! ## Remote gateway -/

/-- The method `_submitToGoogleScript(data)`: its result and the store afterwards. -/
def _submitToGoogleScript (host : Host) (api : AttendanceAPI) (store : LocalStorage)
    (outcome : DispatchOutcome) (data : AttendanceRecord) : SubmitResult × LocalStorage :=
  match outcome with
  | .dispatched =>
    let backup := _submitToLocalStorage host api store data
    ({ success := true,
       message := "📡 " ++ data.studentName ++ "님의 " ++ data.status ++
         " 기록이 구글 시스템으로 전송되었습니다!",
       data := none, timestamp := some host.now, mode := some "google_script_v8" },
     backup.2)
  | .transportError =>
    let result := _submitToLocalStorage host api store data
    ({ result.1 with
       message := "⚠️ 온라인 연결 실패로 로컬에 저장되었습니다. 나중에 자동 동기화됩니다." },
     result.2)

/-- The method `submitAttendance(data)`. -/
def submitAttendance (host : Host) (api : AttendanceAPI) (store : LocalStorage)
    (outcome : DispatchOutcome) (data : AttendanceRecord) : SubmitResult × LocalStorage :=
  if api.isOnlineMode && truthy api.webAppUrl then
    _submitToGoogleScript host api store outcome data
  else
    _submitToLocalStorage host api store data

/-- The `baseDate` of a remote row, `none` when `toISOString()` throws. -/
def baseDate (row : GoogleRow) : Option String :=
  match row.date with
  | .text s => some s
  | .value instant => instant.map isoDate

/-- One of the two events of a remote row: nothing when the time cell is falsy or
the combined date and time is an Invalid Date; `none` when building `baseDate`
throws. -/
def convertCell (host : Host) (row : GoogleRow) (time : Option String) (suffix status : String) :
    Option (List AttendanceRecord) :=
  if truthy time then
    match baseDate row with
    | none => none
    | some base =>
      match host.parseDate (base ++ "T" ++ time.getD "") with
      | none => some []
      | some instant =>
        some [{ id := some (row.id ++ suffix), studentId := row.studentId,
                studentName := row.studentName, status := status,
                timestamp := some instant, source := some "google_sheets",
                submittedAt := none, syncedAt := none }]
  else some []

/-- The body of the `googleResult.data.forEach` callback for one row. -/
def convertRow (host : Host) (row : GoogleRow) : Option (List AttendanceRecord) :=
  match convertCell host row row.checkInTime "-checkin" "입실" with
  | none => none
  | some checkIn =>
    match convertCell host row row.checkOutTime "-checkout" "퇴실" with
    | none => none
    | some checkOut => some (checkIn ++ checkOut)

/-- The `forEach` over the remote rows that fills `convertedData`. -/
def convertRows (host : Host) : List GoogleRow → Option (List AttendanceRecord)
  | [] => some []
  | row :: rows =>
    match convertRow host row with
    | none => none
    | some events =>
      match convertRows host rows with
      | none => none
      | some rest => some (events ++ rest)

/-- The `try` block of `_getFromGoogleScript`, `none` when it throws. -/
def fetchAndConvert (host : Host) (outcome : FetchOutcome) (filters : Filters) :
    Option QueryResult :=
  match outcome with
  | .transportError => none
  | .httpError _ => none
  | .badJson => none
  | .ok googleResult =>
    if !googleResult.success then none
    else
      match googleResult.data with
      | none => none
      | some rows =>
        match convertRows host rows with
        | none => none
        | some convertedData =>
          let byDate :=
            if truthy filters.date then filterByDate (filters.date.getD "") convertedData
            else some convertedData
          match byDate with
          | none => none
          | some filteredData =>
            some { success := true, data := filteredData, source := some "google_sheets_v8",
                   total := some filteredData.length, message := none, fallbackMode := false,
                   googleCount := none, localCount := none }

/-- The method `_getFromGoogleScript(filters)`. -/
def _getFromGoogleScript (host : Host) (store : LocalStorage) (outcome : FetchOutcome)
    (filters : Filters) : QueryResult :=
  match fetchAndConvert host outcome filters with
  | some result => result
  | none => { _getFromLocalStorage store filters with fallbackMode := true }

/-! ## Reconciler -/

/-- The dedup tuple of a record: calendar date, student id, status and
minute-truncated local time; `none` on an Invalid Date. -/
def dedupTuple (host : Host) (record : AttendanceRecord) :
    Option (String × String × String × String) :=
  record.timestamp.map fun t => (isoDate t, record.studentId, record.status, localHHMM host t)

/-- The arrow function `generateUniqueKey` of `getAttendanceData`, `none` when
`toISOString()` throws. -/
def generateUniqueKey (host : Host) (record : AttendanceRecord) : Option String :=
  match record.timestamp with
  | none => none
  | some t =>
    let date := isoDate t
    let time := localHHMM host t
    some (date ++ "_" ++ record.studentId ++ "_" ++ record.status ++ "_" ++ time)

/-- One of the two `forEach` merge loops of `getAttendanceData`, run on the
current `mergedData` and `seenKeys`; `none` when `generateUniqueKey` throws. -/
def mergeLoop (host : Host) :
    List AttendanceRecord → List AttendanceRecord × List String →
      Option (List AttendanceRecord × List String)
  | [], state => some state
  | record :: rest, (mergedData, seenKeys) =>
    match generateUniqueKey host record with
    | none => none
    | some key =>
      if key ∈ seenKeys then mergeLoop host rest (mergedData, seenKeys)
      else mergeLoop host rest (mergedData ++ [record], key :: seenKeys)

/-- The comparator `(a, b) => new Date(b.timestamp) - new Date(a.timestamp)`; a
`NaN` difference counts as zero, as `Array.prototype.sort` takes it. -/
def compareFn (a b : AttendanceRecord) : Int :=
  match a.timestamp, b.timestamp with
  | some ta, some tb => tb - ta
  | _, _ => 0

/-- Insertion of a record in front of the first one it does not have to follow. -/
def insertSorted (a : AttendanceRecord) : List AttendanceRecord → List AttendanceRecord
  | [] => [a]
  | b :: rest => if compareFn a b ≤ 0 then a :: b :: rest else b :: insertSorted a rest

/-- The call `mergedData.sort(compareFn)`: a stable sort. -/
def sortRecords : List AttendanceRecord → List AttendanceRecord
  | [] => []
  | a :: rest => insertSorted a (sortRecords rest)

/-- The two merge loops and the sort of `getAttendanceData`: the sorted
`mergedData`, `none` when `generateUniqueKey` throws. -/
def mergeRecords (host : Host) (googleData localData : List AttendanceRecord) :
    Option (List AttendanceRecord) :=
  match mergeLoop host googleData ([], []) with
  | none => none
  | some afterGoogle =>
    match mergeLoop host localData afterGoogle with
    | none => none
    | some afterLocal => some (sortRecords afterLocal.1)

/-- The part of `getAttendanceData` that follows the two reads: merge, sort and
result, with the `catch` that falls back to the local store. -/
def reconcile (host : Host) (store : LocalStorage) (filters : Filters)
    (googleData localData : List AttendanceRecord) : QueryResult :=
  match mergeRecords host googleData localData with
  | some mergedData =>
    { success := true, data := mergedData, source := some "hybrid",
      googleCount := some googleData.length, localCount := some localData.length,
      total := some mergedData.length, message := none, fallbackMode := false }
  | none => { _getFromLocalStorage store filters with source := some "fallback_local" }

/-- The `localData` of `getAttendanceData`. -/
def localDataOf (store : LocalStorage) (filters : Filters) : List AttendanceRecord :=
  let localResult := _getFromLocalStorage store filters
  if localResult.success then localResult.data else []

/-- The `googleData` of `getAttendanceData`. -/
def googleDataOf (host : Host) (store : LocalStorage) (outcome : FetchOutcome)
    (filters : Filters) : List AttendanceRecord :=
  let googleResult := _getFromGoogleScript host store outcome filters
  if googleResult.success then googleResult.data else []

/-- The method `getAttendanceData(filters)`. -/
def getAttendanceData (host : Host) (store : LocalStorage) (outcome : FetchOutcome)
    (filters : Filters) : QueryResult :=
  reconcile host store filters (googleDataOf host store outcome filters)
    (localDataOf store filters)

/-! ## Specification-level notions -/

/-- The query filter in the words of the specification: the record falls on the
given calendar day (when a date is given) and belongs to the given student (when
a student id is given). -/
def matchesFilters (filters : Filters) (r : AttendanceRecord) : Bool :=
  (!truthy filters.date || decide (recordDate r = filters.date)) &&
    (!truthy filters.studentId || decide (some r.studentId = filters.studentId))

/-- The elements of a list that are the first with their key, among those whose
key is not in `seen`, in list order. -/
def firstPerKey {α κ : Type} [DecidableEq κ] (key : α → κ) : List κ → List α → List α
  | _, [] => []
  | seen, a :: rest =>
    if key a ∈ seen then firstPerKey key seen rest
    else a :: firstPerKey key (key a :: seen) rest

/-- The merge in the words of the specification: the remote events that are the
first with their key, then the local events that are the first with their key
among those whose key no remote event has. -/
def remoteFirst (host : Host) (remoteEvents localEvents : List AttendanceRecord) :
    List AttendanceRecord :=
  firstPerKey (generateUniqueKey host) [] remoteEvents ++
    firstPerKey (generateUniqueKey host) (remoteEvents.map (generateUniqueKey host)) localEvents

/-- The first element of a list that has the same dedup key as `x`. -/
def firstWithKeyOf (host : Host) (x : AttendanceRecord) (l : List AttendanceRecord) :
    Option AttendanceRecord :=
  l.find? (fun r => decide (generateUniqueKey host r = generateUniqueKey host x))

/-- The relation that the sorted view keeps between a record and every later
one: both instants are valid and the earlier-listed one is not older. -/
def notOlder (a b : AttendanceRecord) : Prop :=
  ∃ ta tb, a.timestamp = some ta ∧ b.timestamp = some tb ∧ tb ≤ ta

/-! ## Concrete inputs -/

/-- A host in the Korean time zone. -/
def sampleHost : Host :=
  { now := 1705273800000, random36 := "0.4fzyo82mvyr", tzOffset := fun _ => 540,
    parseDate := fun text =>
      if text = "2024-01-15T07:10:00" then some 1705270200000 else none }

/-- The same machine a minute later, with another random draw. -/
def laterHost : Host :=
  { sampleHost with now := 1705273860000, random36 := "0.k3j9x1w0q2" }

/-- The API object as the constructor of `src/js/api.js` builds it. -/
def onlineAPI : AttendanceAPI :=
  { webAppUrl := some "https://script.google.com/macros/s/x/exec", isOnlineMode := true }

/-- A store with nothing under `attendanceData` that accepts every write. -/
def emptyStore : LocalStorage :=
  { attendanceData := .absent, quotaOk := fun _ => true }

/-- A store whose `setItem` always throws. -/
def fullStore : LocalStorage :=
  { attendanceData := .absent, quotaOk := fun _ => false }

/-- A store that holds the given records. -/
def storeOf (records : List AttendanceRecord) : LocalStorage :=
  { attendanceData := .json records, quotaOk := fun _ => true }

/-- No filter at all. -/
def noFilters : Filters := { date := none, studentId := none }

/-- A check-in of student 10101 on 2024-01-14 at 22:10 UTC (07:10 in Seoul), as
the sync pass hands it to the submit path. -/
def offlineCheckIn : AttendanceRecord :=
  { studentId := "10101", studentName := "Kim", status := "입실",
    timestamp := some 1705270200000, id := some "lre1", submittedAt := some 1705270201000,
    source := some "offline", syncedAt := none }

/-- The same swipe as `offlineCheckIn`, stored a second time under another id. -/
def repeatedCheckIn : AttendanceRecord :=
  { offlineCheckIn with id := some "lre2", submittedAt := some 1705270202000 }

/-- The same swipe as `offlineCheckIn` as the remote gateway reports it. -/
def remoteCheckIn : AttendanceRecord :=
  { offlineCheckIn with
    id := some "7-checkin"
    submittedAt := none
    source := some "google_sheets" }

/-- A remote payload of one row: the check-in of student 10101 at 07:10 local
time on 2024-01-15. -/
def samplePayload : GooglePayload :=
  { success := true,
    data := some [{ id := "7", studentId := "10101", studentName := "Kim",
                    date := .text "2024-01-15", checkInTime := some "07:10:00",
                    checkOutTime := none }],
    error := none }

/-- A successful remote payload without rows. -/
def emptyPayload : GooglePayload :=
  { success := true, data := some [], error := none }

/-- A stored record that was submitted without a `timestamp`. -/
def undatedCheckIn : AttendanceRecord :=
  { studentId := "10102", studentName := "Lee", status := "입실", timestamp := none,
    id := some "lre3", submittedAt := some 1705270203000, source := some "online_backup",
    syncedAt := none }

/-! ## Objects used as dictionaries

A plain object that the source uses as a dictionary from student ids to values is
the list of its own properties in insertion order. Student ids are not names that
every object inherits from `Object.prototype` (such as `constructor`), so a lookup
finds an own property or nothing. -/

/-- The value of a string of decimal digits, `none` when a character is not a
digit. -/
def decimalValue : List Char → Option Nat → Option Nat
  | [], acc => acc
  | c :: rest, some n =>
    if c.isDigit then decimalValue rest (some (10 * n + (c.toNat - 48))) else none
  | _ :: _, none => none

/-- The array index that a property key denotes: the key is the canonical decimal
form of a number below `2^32 - 1`. -/
def arrayIndex (key : String) : Option Nat :=
  match decimalValue key.data (some 0) with
  | some n => if toString n = key ∧ n < 4294967295 then some n else none
  | none => none

/-- The rank of a key among the array-index keys. -/
def indexRank (key : String) : Nat := (arrayIndex key).getD 0

/-- Insertion of an entry in front of the first entry of a larger or equal rank. -/
def insertByIndex {σ : Type} (a : String × σ) : List (String × σ) → List (String × σ)
  | [] => [a]
  | b :: rest =>
    if indexRank a.1 ≤ indexRank b.1 then a :: b :: rest else b :: insertByIndex a rest

/-- The entries sorted by ascending array index. -/
def sortByIndex {σ : Type} : List (String × σ) → List (String × σ)
  | [] => []
  | a :: rest => insertByIndex a (sortByIndex rest)

/-- The own properties in the order in which `Object.keys` and `Object.values`
list them: the array-index keys in ascending numeric order, then the other keys
in insertion order. -/
def orderedEntries {σ : Type} (object : List (String × σ)) : List (String × σ) :=
  sortByIndex (object.filter fun entry => (arrayIndex entry.1).isSome) ++
    object.filter fun entry => !(arrayIndex entry.1).isSome

/-- The call `Object.values(object)`. -/
def objectValues {σ : Type} (object : List (String × σ)) : List σ :=
  (orderedEntries object).map fun entry => entry.2

/-- The call `Object.keys(object)`. -/
def objectKeys {σ : Type} (object : List (String × σ)) : List String :=
  (orderedEntries object).map fun entry => entry.1

/-- The pattern `if (!object[key]) object[key] = fresh; update(object[key])`, for
values that are objects and so truthy. -/
def upsert {σ : Type} (fresh : σ) (update : σ → σ) (key : String)
    (object : List (String × σ)) : List (String × σ) :=
  if object.any (fun entry => decide (entry.1 = key)) then
    object.map fun entry => if entry.1 = key then (entry.1, update entry.2) else entry
  else object ++ [(key, update fresh)]

/-! ## Numbers

`completed / total` and the product with 100 are IEEE 754 double operations. A
double is kept as a mantissa and a binary exponent, `mantissa / 2 ^ exponent`;
the operands are counts below `2 ^ 53`, which are doubles themselves. -/

/-- A non-negative double: `mantissa / 2 ^ exponent`. -/
structure Double where
  mantissa : Nat
  exponent : Nat
deriving DecidableEq, Repr

/-- The integer nearest to `n / d`, the even one on a tie. -/
def roundHalfEven (n d : Nat) : Nat :=
  let q := n / d
  let r := n % d
  if 2 * r < d then q
  else if d < 2 * r then q + 1
  else if q % 2 = 0 then q else q + 1

/-- The least exponent `e`, searched upwards, at which `n * 2 ^ e / d` has 53
bits: `2 ^ 52 * d ≤ n * 2 ^ e`. -/
def scaleFor : Nat → Nat → Nat → Nat → Nat
  | 0, _, _, e => e
  | fuel + 1, n, d, e => if 2 ^ 52 * d ≤ n * 2 ^ e then e else scaleFor fuel n d (e + 1)

/-- The double `n / d` of two counts, `d` positive. -/
def divDouble (n d : Nat) : Double :=
  if n = 0 then { mantissa := 0, exponent := 0 }
  else
    let e := scaleFor 106 n d 0
    { mantissa := roundHalfEven (n * 2 ^ e) d, exponent := e }

/-- The least shift `s`, searched upwards, at which `n / 2 ^ s` fits in 53 bits. -/
def shiftFor : Nat → Nat → Nat → Nat
  | 0, _, s => s
  | fuel + 1, n, s => if n < 2 ^ 53 * 2 ^ s then s else shiftFor fuel n (s + 1)

/-- The double `x * k` for a small positive integer `k`. -/
def mulDouble (x : Double) (k : Nat) : Double :=
  let product := x.mantissa * k
  let s := shiftFor 64 product 0
  { mantissa := roundHalfEven product (2 ^ s) * 2 ^ s, exponent := x.exponent }

/-- The call `Math.round(x)` on a non-negative double: the nearest integer, the
larger one on a tie. -/
def mathRound (x : Double) : Nat :=
  (2 * x.mantissa + 2 ^ x.exponent) / 2 ^ (x.exponent + 1)

/-- The expression `total > 0 ? Math.round((completed / total) * 100) : 0`. -/
def completionRate (completed total : Nat) : Nat :=
  if 0 < total then mathRound (mulDouble (divDouble completed total) 100) else 0

/-! ## Aggregator -/

/-- An entry of `studentData` in `getTodayStats`. -/
structure StudentStatus where
  studentId : String
  studentName : String
  checkIn : Option AttendanceRecord
  checkOut : Option AttendanceRecord
  records : List AttendanceRecord
deriving DecidableEq, Repr

/-- The comparison `a < b` of two `Date` objects: false when one is an Invalid
Date. -/
def dateLt (a b : Option Int) : Bool :=
  match a, b with
  | some x, some y => decide (x < y)
  | _, _ => false

/-- The entry that `getTodayStats` creates for the first record of a student. -/
def freshStatus (record : AttendanceRecord) : StudentStatus :=
  { studentId := record.studentId, studentName := record.studentName, checkIn := none,
    checkOut := none, records := [] }

/-- What the `forEach` callback of `getTodayStats` does to the entry of the
record's student. -/
def recordInto (record : AttendanceRecord) (entry : StudentStatus) : StudentStatus :=
  let entry := { entry with records := entry.records ++ [record] }
  if record.status = "입실" then
    match entry.checkIn with
    | none => { entry with checkIn := some record }
    | some current =>
      if dateLt record.timestamp current.timestamp then { entry with checkIn := some record }
      else entry
  else if record.status = "퇴실" then
    match entry.checkOut with
    | none => { entry with checkOut := some record }
    | some current =>
      if dateLt current.timestamp record.timestamp then { entry with checkOut := some record }
      else entry
  else entry

/-- The object `studentData` after the `forEach` of `getTodayStats`. -/
def studentData (attendanceData : List AttendanceRecord) : List (String × StudentStatus) :=
  attendanceData.foldl
    (fun object record => upsert (freshStatus record) (recordInto record) record.studentId object)
    []

/-- The `data` of the result of `getTodayStats`. -/
structure TodayStats where
  total : Nat
  completed : Nat
  ongoing : Nat
  missing : Nat
  completionRate : Nat
  students : List StudentStatus
deriving DecidableEq, Repr

/-- The part of `getTodayStats` that follows the query: grouping, counts and rate. -/
def dayStats (attendanceData : List AttendanceRecord) : TodayStats :=
  let students := objectValues (studentData attendanceData)
  let total := students.length
  let completed := (students.filter fun s => s.checkIn.isSome && s.checkOut.isSome).length
  let ongoing := (students.filter fun s => s.checkIn.isSome && !s.checkOut.isSome).length
  let missing := (students.filter fun s => !s.checkIn.isSome).length
  { total := total, completed := completed, ongoing := ongoing, missing := missing,
    completionRate := completionRate completed total, students := students }

/-- The result object of `getTodayStats`. -/
structure TodayResult where
  success : Bool
  message : Option String
  data : Option TodayStats
deriving DecidableEq, Repr

/-- The filter `{ date: today }` of `getTodayStats`. -/
def todayFilters (host : Host) : Filters :=
  { date := some (isoDate host.now), studentId := none }

/-- The method `getTodayStats()`. -/
def getTodayStats (host : Host) (store : LocalStorage) (outcome : FetchOutcome) :
    TodayResult :=
  let result := getAttendanceData host store outcome (todayFilters host)
  if !result.success then { success := false, message := result.message, data := none }
  else { success := true, message := none, data := some (dayStats result.data) }

/-- An entry of `students` in the day loop of `getWeeklyStats`. -/
structure DayFlags where
  checkIn : Bool
  checkOut : Bool
deriving DecidableEq, Repr

/-- What the `forEach` callback of `getWeeklyStats` does to the entry of the
record's student. -/
def flagInto (record : AttendanceRecord) (entry : DayFlags) : DayFlags :=
  let entry := if record.status = "입실" then { entry with checkIn := true } else entry
  if record.status = "퇴실" then { entry with checkOut := true } else entry

/-- The object `students` after the `forEach` of `getWeeklyStats`. -/
def weekStudents (dayData : List AttendanceRecord) : List (String × DayFlags) :=
  dayData.foldl
    (fun object record =>
      upsert { checkIn := false, checkOut := false } (flagInto record) record.studentId object)
    []

/-- An entry of `weekData`. -/
structure WeekEntry where
  date : String
  dateLabel : String
  total : Nat
  completed : Nat
  rate : Nat
deriving DecidableEq, Repr

/-- The string `date.toLocaleDateString('ko-KR', { month: 'short', day: 'numeric' })`
of a valid instant: month and day of the local calendar. -/
def dateLabel (host : Host) (t : Int) : String :=
  let c := civilFromDays ((t + host.tzOffset t * 60000) / 86400000)
  toString c.2.1 ++ "월 " ++ toString c.2.2 ++ "일"

/-- The per-day reducer of `getWeeklyStats`: the entry pushed for one day. -/
def weekEntry (host : Host) (instant : Int) (dayData : List AttendanceRecord) : WeekEntry :=
  let students := weekStudents dayData
  let completed := ((objectValues students).filter fun s => s.checkIn && s.checkOut).length
  let total := (objectKeys students).length
  { date := isoDate instant, dateLabel := dateLabel host instant, total := total,
    completed := completed, rate := completionRate completed total }

/-- The result object of `getWeeklyStats`. -/
structure WeekResult where
  success : Bool
  data : List WeekEntry
deriving DecidableEq, Repr

/-- One turn of the loop of `getWeeklyStats`. `instant` is the time value of `date`
after `date.setDate(date.getDate() - i)`, `outcome` the outcome of the fetch of
this turn. -/
def weekTurn (host : Host) (store : LocalStorage) (instant : Int) (outcome : FetchOutcome) :
    WeekEntry :=
  let dayResult := getAttendanceData host store outcome
    { date := some (isoDate instant), studentId := none }
  let dayData := if dayResult.success then dayResult.data else []
  weekEntry host instant dayData

/-- The method `getWeeklyStats()`. `setDate i` is the time value of `new Date()`
after `date.setDate(date.getDate() - i)`, a step of `i` days on the local
calendar of the host; `outcome i` is the outcome of the fetch of turn `i`. -/
def getWeeklyStats (host : Host) (setDate : Nat → Int) (store : LocalStorage)
    (outcome : Nat → FetchOutcome) : WeekResult :=
  { success := true,
    data := [6, 5, 4, 3, 2, 1, 0].map fun i => weekTurn host store (setDate i) (outcome i) }

/-! ## Backfill -/

/-- An entry of `processedStudents`. -/
structure ProcessedStudent where
  name : String
  id : String
  type : String
  processedTime : String
deriving DecidableEq, Repr

/-- The entry pushed for a student without check-in. -/
def checkInFill (student : StudentStatus) : ProcessedStudent :=
  { name := student.studentName, id := student.studentId, type := "입실 누락",
    processedTime := "07:10:00" }

/-- The entry pushed for a student with a check-in and without check-out. -/
def checkOutFill (student : StudentStatus) : ProcessedStudent :=
  { name := student.studentName, id := student.studentId, type := "퇴실 누락",
    processedTime := "07:47:00" }

/-- The two `forEach` passes of `processMissingData` over `students`. -/
def processedStudents (students : List StudentStatus) : List ProcessedStudent :=
  let checkIns := students.foldl
    (fun processed student =>
      if !student.checkIn.isSome then processed ++ [checkInFill student] else processed)
    []
  students.foldl
    (fun processed student =>
      if student.checkIn.isSome && !student.checkOut.isSome then
        processed ++ [checkOutFill student]
      else processed)
    checkIns

/-- The result object of `processMissingData`. -/
structure ProcessResult where
  success : Bool
  message : String
  processedCount : Option Nat
  processedStudents : Option (List ProcessedStudent)
deriving DecidableEq, Repr

/-- The method `processMissingData()`. -/
def processMissingData (host : Host) (store : LocalStorage) (outcome : FetchOutcome) :
    ProcessResult :=
  let todayStats := getTodayStats host store outcome
  match todayStats.data with
  | some stats =>
    if todayStats.success then
      let processed := processedStudents stats.students
      { success := true,
        message := toString processed.length ++ "건의 누락 데이터가 자동으로 처리되었습니다.",
        processedCount := some processed.length, processedStudents := some processed }
    else
      { success := false, message := "데이터 조회 실패", processedCount := none,
        processedStudents := none }
  | none =>
    { success := false, message := "데이터 조회 실패", processedCount := none,
      processedStudents := none }

/-! ## Effects on the browser

What a method does to `localStorage` and to the network, in order. -/

/-- A call on `localStorage` or a `fetch`. -/
inductive Effect where
  | getItem (key : String)
  | setItem (key : String)
  | removeItem (key : String)
  | fetch (method action : String)
deriving DecidableEq, Repr

/-- Whether an effect changes `localStorage`. -/
def Effect.isWrite : Effect → Bool
  | .setItem _ => true
  | .removeItem _ => true
  | _ => false

/-- The effects of `_getFromLocalStorage(filters)`. -/
def effectsOfLocalQuery : List Effect := [.getItem "attendanceData"]

/-- The effects of `_getFromGoogleScript(filters)`: the GET, and in the `catch` the
local query. -/
def effectsOfGoogleQuery (host : Host) (outcome : FetchOutcome) (filters : Filters) :
    List Effect :=
  .fetch "GET" "getAllAttendance" ::
    (if (fetchAndConvert host outcome filters).isSome then [] else effectsOfLocalQuery)

/-- The effects of `getAttendanceData(filters)`: the local query, the remote query,
and in the `catch` the local query again. -/
def effectsOfGetAttendanceData (host : Host) (store : LocalStorage) (outcome : FetchOutcome)
    (filters : Filters) : List Effect :=
  effectsOfLocalQuery ++ effectsOfGoogleQuery host outcome filters ++
    (if (mergeRecords host (googleDataOf host store outcome filters)
        (localDataOf store filters)).isSome then [] else effectsOfLocalQuery)

/-- The effects of `processMissingData()`: those of `getTodayStats()`, which are
those of its `getAttendanceData` call. -/
def effectsOfProcessMissingData (host : Host) (store : LocalStorage)
    (outcome : FetchOutcome) : List Effect :=
  effectsOfGetAttendanceData host store outcome (todayFilters host)

/-! ## Specification-level notions of the aggregation -/

/-- The event that a remote row yields for one of its two time cells, in the words
of the specification: present when the cell is present and date and time parse
to a valid instant. -/
def cellEvents (host : Host) (row : GoogleRow) (time : Option String)
    (suffix status : String) : List AttendanceRecord :=
  if truthy time then
    match (baseDate row).bind fun base => host.parseDate (base ++ "T" ++ time.getD "") with
    | some instant =>
      [{ id := some (row.id ++ suffix), studentId := row.studentId,
         studentName := row.studentName, status := status, timestamp := some instant,
         source := some "google_sheets", submittedAt := none, syncedAt := none }]
    | none => []
  else []

/-- The events that a remote row yields: its check-in, then its check-out. -/
def rowEvents (host : Host) (row : GoogleRow) : List AttendanceRecord :=
  cellEvents host row row.checkInTime "-checkin" "입실" ++
    cellEvents host row row.checkOutTime "-checkout" "퇴실"

/-- The check-in events of a student among a list of events. -/
def checkInsOf (studentId : String) (events : List AttendanceRecord) : List AttendanceRecord :=
  events.filter fun r => decide (r.studentId = studentId) && decide (r.status = "입실")

/-- The check-out events of a student among a list of events. -/
def checkOutsOf (studentId : String) (events : List AttendanceRecord) : List AttendanceRecord :=
  events.filter fun r => decide (r.studentId = studentId) && decide (r.status = "퇴실")

/-- The instant of a record is at most the instant of another, both valid. -/
def notLater (a b : AttendanceRecord) : Prop :=
  ∃ ta tb, a.timestamp = some ta ∧ b.timestamp = some tb ∧ ta ≤ tb

/-- The dictionary that a `forEach` builds with the pattern of `upsert`, keyed by
`key`. -/
def collect {ρ σ : Type} (key : ρ → String) (fresh : ρ → σ) (update : ρ → σ → σ)
    (l : List ρ) : List (String × σ) :=
  l.foldl (fun object r => upsert (fresh r) (update r) (key r) object) []

/-- The `checkIn` of a status is sound for its `records`: null exactly when no
record is a check-in, otherwise a check-in among the records and, when the
records have valid instants, one that no check-in among them precedes. -/
def earliestCheckIn (s : StudentStatus) : Prop :=
  (s.checkIn = none ↔ ∀ r ∈ s.records, r.status ≠ "입실") ∧
  ∀ c, s.checkIn = some c → c ∈ s.records ∧ c.status = "입실" ∧
    ((∀ r ∈ s.records, r.timestamp ≠ none) →
      ∀ r ∈ s.records, r.status = "입실" → notLater c r)

/-- The `checkOut` of a status is sound for its `records`: null exactly when no
record is a check-out, otherwise a check-out among the records and, when the
records have valid instants, one that no check-out among them follows. -/
def latestCheckOut (s : StudentStatus) : Prop :=
  (s.checkOut = none ↔ ∀ r ∈ s.records, r.status ≠ "퇴실") ∧
  ∀ c, s.checkOut = some c → c ∈ s.records ∧ c.status = "퇴실" ∧
    ((∀ r ∈ s.records, r.timestamp ≠ none) →
      ∀ r ∈ s.records, r.status = "퇴실" → notLater r c)

/-- The two flags that the weekly reducer keeps of a student: whether the status
of `getTodayStats` has a check-in, and whether it has a check-out. -/
def flagsOf (s : StudentStatus) : DayFlags :=
  { checkIn := s.checkIn.isSome, checkOut := s.checkOut.isSome }

/-- The day number of an instant: whole days since 1970-01-01 UTC. -/
def dayNumber (t : Int) : Int := t / 86400000

/-! ## Concrete inputs of the aggregation -/

/-- A check-in of student S1 at 07:00 in Seoul on the day of `sampleHost`. -/
def checkInAt0700 : AttendanceRecord :=
  { studentId := "S1", studentName := "Park", status := "입실",
    timestamp := some 1705269600000, id := some "a1", submittedAt := none,
    source := some "online_backup", syncedAt := none }

/-- A check-out of student S1 at 07:40 in Seoul on the day of `sampleHost`. -/
def checkOutAt0740 : AttendanceRecord :=
  { checkInAt0700 with status := "퇴실", timestamp := some 1705272000000, id := some "a2" }

/-- A check-out of student 10102, who did not check in. -/
def strayCheckOut : AttendanceRecord :=
  { studentId := "10102", studentName := "Lee", status := "퇴실",
    timestamp := some 1705272300000, id := some "a3", submittedAt := none,
    source := some "online_backup", syncedAt := none }

/-- One day of events: S1 complete, 10102 without check-in, 10101 without
check-out. -/
def sampleDay : List AttendanceRecord :=
  [checkInAt0700, strayCheckOut, offlineCheckIn, checkOutAt0740]

/-- A remote payload whose first row has no usable `date` and whose second row is
the one of `samplePayload`. -/
def undatedRowPayload : GooglePayload :=
  { success := true,
    data := some [{ id := "6", studentId := "10102", studentName := "Lee",
                    date := .value none, checkInTime := some "07:05:00",
                    checkOutTime := none },
                  { id := "7", studentId := "10101", studentName := "Kim",
                    date := .text "2024-01-15", checkInTime := some "07:10:00",
                    checkOutTime := none }],
    error := none }

/-- A remote payload whose first row has a time that does not parse and whose
second row is the one of `samplePayload`. -/
def badTimePayload : GooglePayload :=
  { success := true,
    data := some [{ id := "6", studentId := "10102", studentName := "Lee",
                    date := .text "2024-01-15", checkInTime := some "7h05",
                    checkOutTime := some "" },
                  { id := "7", studentId := "10101", studentName := "Kim",
                    date := .text "2024-01-15", checkInTime := some "07:10:00",
                    checkOutTime := none }],
    error := none }

/-- The date arithmetic of a host whose offset from UTC does not change during the
week, as in Seoul: `i` days back is `i` times 24 hours back. -/
def fixedOffsetSetDate (host : Host) (i : Nat) : Int :=
  host.now - i * 86400000

/-! ## Student lookup -/

/-- The `length` of a JavaScript string: its number of UTF-16 code units, two for
a character outside the Basic Multilingual Plane. -/
def jsLength (s : String) : Nat :=
  s.data.foldl (fun n c => n + (if c.toNat < 65536 then 1 else 2)) 0

/-- Outcome of the GET of `getStudentStats`; the parsed body of a good response is
kept as its JSON text. -/
inductive StudentFetchOutcome where
  | transportError
  | httpError (status : Nat)
  | badJson
  | ok (data : String)
deriving DecidableEq, Repr

/-- The result of `getStudentStats`, one of the three objects it returns: the
rejection `{ success: false, message }`, the remote answer
`{ success: true, data, source: 'google_sheets_v8' }`, or the result of the local
query. -/
inductive StudentStatsResult where
  | rejected (message : String)
  | remote (data : String)
  | fromLocal (result : QueryResult)
deriving DecidableEq, Repr

/-- The `success` field of the result of `getStudentStats`. -/
def StudentStatsResult.success : StudentStatsResult → Bool
  | .rejected _ => false
  | .remote _ => true
  | .fromLocal result => result.success

/-- The `message` field of the result of `getStudentStats`. -/
def StudentStatsResult.message : StudentStatsResult → Option String
  | .rejected message => some message
  | .remote _ => none
  | .fromLocal result => result.message

/-- The method `getStudentStats(studentId)` for a `studentId` that is absent or a
string. -/
def getStudentStats (api : AttendanceAPI) (store : LocalStorage)
    (outcome : StudentFetchOutcome) (studentId : Option String) : StudentStatsResult :=
  if !truthy studentId || jsLength (studentId.getD "") != 5 then
    .rejected "올바른 5자리 학번을 입력해주세요."
  else
    let localData := _getFromLocalStorage store { date := none, studentId := studentId }
    if api.isOnlineMode && truthy api.webAppUrl then
      match outcome with
      | .ok data => .remote data
      | .httpError _ => .fromLocal localData
      | .transportError => .fromLocal localData
      | .badJson => .fromLocal localData
    else .fromLocal localData

/-- The effects of `getStudentStats(studentId)`: none when the argument is
rejected; otherwise the GET when the API is online, and the local query unless
the GET gave a body. -/
def effectsOfGetStudentStats (api : AttendanceAPI) (outcome : StudentFetchOutcome)
    (studentId : Option String) : List Effect :=
  if !truthy studentId || jsLength (studentId.getD "") != 5 then []
  else if api.isOnlineMode && truthy api.webAppUrl then
    .fetch "GET" "getStudentData" ::
      (match outcome with
       | .ok _ => []
       | _ => effectsOfLocalQuery)
  else effectsOfLocalQuery

/-! ## Sync pass -/

/-- The result object of `syncWithGoogleSheets`. -/
structure SyncResult where
  success : Bool
  message : String
  syncedCount : Option Nat
  totalCount : Option Nat
deriving DecidableEq, Repr

/-- The two assignments of the loop body of `syncWithGoogleSheets`:
`record.source = 'synced'` and `record.syncedAt = new Date().toISOString()`. -/
def markSynced (host : Host) (record : AttendanceRecord) : AttendanceRecord :=
  { record with source := some "synced", syncedAt := some host.now }

/-- The `for` loop of `syncWithGoogleSheets`, as a pass over `localData`: the
records of `unsyncedData` are the records of `localData` tagged 'offline', the same
objects in the same order, so an assignment to one of them shows in `localData`.
A turn submits the record and then marks and counts it; `_submitToGoogleScript`
catches its own errors and returns on every path, so no path leads to the `catch`
of the turn. `outcome k` is the outcome of the dispatch of turn `k`. The result is
`localData` after the loop, `syncedCount`, and the store as the backup writes of
the submissions leave it. -/
def syncLoop (host : Host) (api : AttendanceAPI) (outcome : Nat → DispatchOutcome) :
    List AttendanceRecord → Nat → LocalStorage → List AttendanceRecord × Nat × LocalStorage
  | [], syncedCount, store => ([], syncedCount, store)
  | record :: rest, syncedCount, store =>
    if record.source = some "offline" then
      let submitted := _submitToGoogleScript host api store (outcome syncedCount) record
      let after := syncLoop host api outcome rest (syncedCount + 1) submitted.2
      (markSynced host record :: after.1, after.2)
    else
      let after := syncLoop host api outcome rest syncedCount store
      (record :: after.1, after.2)

/-- The failure result of the outer `catch` of `syncWithGoogleSheets`; the text of
the caught error, which follows the colon, is left out. -/
def syncFailure : SyncResult :=
  { success := false, message := "동기화 중 오류가 발생했습니다: ", syncedCount := none,
    totalCount := none }

/-- The method `syncWithGoogleSheets()`: its result and the store afterwards. -/
def syncWithGoogleSheets (host : Host) (api : AttendanceAPI) (store : LocalStorage)
    (outcome : Nat → DispatchOutcome) : SyncResult × LocalStorage :=
  if !api.isOnlineMode || !truthy api.webAppUrl then
    ({ success := false, message := "Google Apps Script가 설정되지 않았습니다.",
       syncedCount := none, totalCount := none }, store)
  else
    match readAttendanceData store with
    | none => (syncFailure, store)
    | some localData =>
      let unsyncedData := localData.filter fun record => record.source = some "offline"
      if unsyncedData.length = 0 then
        ({ success := true, message := "동기화할 데이터가 없습니다.", syncedCount := some 0,
           totalCount := none }, store)
      else
        let after := syncLoop host api outcome localData 0 store
        if after.2.2.quotaOk after.1 then
          ({ success := true,
             message := "✅ " ++ toString after.2.1 ++
               "건의 오프라인 데이터가 Google Sheets와 동기화되었습니다.",
             syncedCount := some after.2.1, totalCount := some unsyncedData.length },
           { after.2.2 with attendanceData := .json after.1 })
        else (syncFailure, after.2.2)

/-! ## Specification-level notions of lookup, merge and sync -/

/-- A stored record after a sync pass that succeeded: marked when it was tagged
'offline', untouched otherwise. -/
def afterSync (host : Host) (record : AttendanceRecord) : AttendanceRecord :=
  if record.source = some "offline" then markSynced host record else record

/-- Neither the studentId nor the status of the record contains the separator '_'
of the dedup key. -/
def plainFields (record : AttendanceRecord) : Bool :=
  decide ('_' ∉ record.studentId.data) && decide ('_' ∉ record.status.data)

/-! ## Concrete inputs of lookup, merge and sync -/

/-- A check-in whose studentId ends in '_2'. -/
def underscoreInId : AttendanceRecord :=
  { offlineCheckIn with studentId := "1_2", status := "입실", id := some "u1" }

/-- A record of student 1 at the same minute whose status begins with '2_'. -/
def underscoreInStatus : AttendanceRecord :=
  { offlineCheckIn with studentId := "1", status := "2_입실", id := some "u2" }

/-- The filter `{ studentId: '10102' }`. -/
def onlyStudent10102 : Filters := { date := none, studentId := some "10102" }

/-- Every dispatch fails with a transport error. -/
def allDispatchesFail : Nat → DispatchOutcome := fun _ => .transportError

/-- A local collection of a backup copy and two records tagged 'offline'. -/
def unsyncedStore : LocalStorage :=
  storeOf [checkInAt0700, offlineCheckIn, { strayCheckOut with source := some "offline" }]

/-! ## Record store: lemmas -/

theorem readAttendanceData_storeOf (records : List AttendanceRecord) :
    readAttendanceData (storeOf records) = some records := rfl

theorem submitToLocalStorage_of_success (host : Host) (api : AttendanceAPI)
    (store : LocalStorage) (e : AttendanceRecord)
    (h : (_submitToLocalStorage host api store e).1.success = true) :
    ∃ previous, readAttendanceData store = some previous ∧
      (_submitToLocalStorage host api store e).2 =
        { store with attendanceData := .json (previous ++ [recordData host api e]) } := by
  unfold _submitToLocalStorage at h ⊢
  cases hread : readAttendanceData store with
  | none => simp [hread, storageFailure] at h
  | some previous =>
    refine ⟨previous, rfl, ?_⟩
    simp only [hread] at h ⊢
    by_cases hq : store.quotaOk (previous ++ [recordData host api e]) = true
    · simp [hq]
    · simp [hq, storageFailure] at h

theorem submitToLocalStorage_of_failure (host : Host) (api : AttendanceAPI)
    (store : LocalStorage) (e : AttendanceRecord)
    (h : (_submitToLocalStorage host api store e).1.success = false) :
    _submitToLocalStorage host api store e = (storageFailure, store) := by
  unfold _submitToLocalStorage at h ⊢
  cases hread : readAttendanceData store with
  | none => simp
  | some previous =>
    simp only [hread] at h ⊢
    by_cases hq : store.quotaOk (previous ++ [recordData host api e]) = true
    · simp [hq] at h
    · simp [hq]

theorem filterByDate_eq_filter (targetDate : String) (records : List AttendanceRecord)
    (hvalid : ∀ r ∈ records, r.timestamp ≠ none) :
    filterByDate targetDate records =
      some (records.filter fun r => decide (recordDate r = some targetDate)) := by
  induction records with
  | nil => rfl
  | cons r rs ih =>
    have hr : r.timestamp ≠ none := hvalid r (List.mem_cons_self _ _)
    have hrs : ∀ x ∈ rs, x.timestamp ≠ none := fun x hx => hvalid x (List.mem_cons_of_mem _ hx)
    obtain ⟨t, ht⟩ := Option.ne_none_iff_exists'.mp hr
    simp only [filterByDate, recordDate, ht, Option.map_some', ih hrs, List.filter_cons,
      Option.some.injEq, decide_eq_true_eq]

theorem truthy_eq_true_iff (s : Option String) :
    truthy s = true ↔ ∃ v, s = some v ∧ v ≠ "" := by
  cases s with
  | none => simp [truthy]
  | some v => simp [truthy]

/-! ## Record store: claims -/

/-- C1 (as amended): after a successful `_submitToLocalStorage(e)`, whatever the
collection held before, `_getFromLocalStorage` filtered on `e.studentId` returns a
list that contains a record equal to `e` in every field other than `id`,
`submittedAt` and `source`, the three fields the store assigns. -/
theorem submit_then_query_contains (host : Host) (api : AttendanceAPI)
    (store : LocalStorage) (e : AttendanceRecord)
    (h : (_submitToLocalStorage host api store e).1.success = true) :
    ∃ r ∈ (_getFromLocalStorage (_submitToLocalStorage host api store e).2
        { date := none, studentId := some e.studentId }).data,
      r = { e with id := r.id, submittedAt := r.submittedAt, source := r.source } := by
  obtain ⟨previous, _, hstore⟩ := submitToLocalStorage_of_success host api store e h
  refine ⟨recordData host api e, ?_, rfl⟩
  rw [hstore]
  simp only [_getFromLocalStorage, readAttendanceData, truthy, Bool.false_eq_true, if_false]
  split <;> simp [recordData]

/-- Witness of C1: a check-in submitted to an empty store. -/
theorem submit_then_query_contains_witness :
    ∃ r ∈ (_getFromLocalStorage (_submitToLocalStorage sampleHost onlineAPI emptyStore
        offlineCheckIn).2 { date := none, studentId := some offlineCheckIn.studentId }).data,
      r = { offlineCheckIn with id := r.id, submittedAt := r.submittedAt, source := r.source } :=
  submit_then_query_contains sampleHost onlineAPI emptyStore offlineCheckIn (by decide)

/-- C1 (as stated) fails: the record that the sync pass re-submits carries
`source = 'offline'`; the store overwrites it with `'online_backup'`, so no
returned record equals it in every field other than `id` and `submittedAt`. -/
theorem submit_then_query_source_differs :
    (_submitToLocalStorage sampleHost onlineAPI emptyStore offlineCheckIn).1.success = true ∧
    ¬ ∃ r ∈ (_getFromLocalStorage (_submitToLocalStorage sampleHost onlineAPI emptyStore
        offlineCheckIn).2 { date := none, studentId := some offlineCheckIn.studentId }).data,
      r = { offlineCheckIn with id := r.id, submittedAt := r.submittedAt } := by
  decide

/-- C2 (as amended): on a readable collection in which, when a date is given,
every record has a valid timestamp, `_getFromLocalStorage` returns success with
exactly the stored records that match the filter, in stored order; `total` is the
length of that list and without a filter field the list is the full collection. -/
theorem getFromLocalStorage_exact (store : LocalStorage) (filters : Filters)
    (records : List AttendanceRecord) (hread : readAttendanceData store = some records)
    (hvalid : truthy filters.date = true → ∀ r ∈ records, r.timestamp ≠ none) :
    (_getFromLocalStorage store filters).success = true ∧
    (_getFromLocalStorage store filters).data = records.filter (matchesFilters filters) ∧
    (_getFromLocalStorage store filters).total =
      some (_getFromLocalStorage store filters).data.length ∧
    (truthy filters.date = false → truthy filters.studentId = false →
      (_getFromLocalStorage store filters).data = records) := by
  obtain ⟨date, studentId⟩ := filters
  simp only [_getFromLocalStorage, hread]
  by_cases hd : truthy date = true
  · obtain ⟨d, rfl, _⟩ := (truthy_eq_true_iff _).mp hd
    have hfilter := filterByDate_eq_filter d records (hvalid hd)
    simp only [hd, if_true, hfilter, Option.getD_some]
    by_cases hs : truthy studentId = true
    · obtain ⟨sid, rfl, _⟩ := (truthy_eq_true_iff _).mp hs
      simp only [hs, if_true, Option.getD_some, List.filter_filter]
      refine ⟨trivial, ?_, trivial, ?_⟩
      · apply List.filter_congr
        intro r _
        simp [matchesFilters, hd, hs, Bool.and_comm]
      · intro h
        simp [hd] at h
    · simp only [hs, Bool.false_eq_true, if_false]
      refine ⟨trivial, ?_, trivial, ?_⟩
      · apply List.filter_congr
        intro r _
        simp [matchesFilters, hd, hs]
      · intro h
        simp [hd] at h
  · simp only [hd, Bool.false_eq_true, if_false]
    by_cases hs : truthy studentId = true
    · obtain ⟨sid, rfl, _⟩ := (truthy_eq_true_iff _).mp hs
      simp only [hs, if_true, Option.getD_some]
      refine ⟨trivial, ?_, trivial, ?_⟩
      · apply List.filter_congr
        intro r _
        simp [matchesFilters, hd, hs]
      · intro _ h
        simp [hs] at h
    · simp only [hs, Bool.false_eq_true, if_false]
      refine ⟨trivial, ?_, trivial, fun _ _ => trivial⟩
      symm
      rw [List.filter_eq_self]
      intro r _
      simp [matchesFilters, hd, hs]

/-- Witness of C2: a day-and-student query on a store of two records. -/
theorem getFromLocalStorage_exact_witness :
    (_getFromLocalStorage (storeOf [offlineCheckIn, repeatedCheckIn])
      { date := some "2024-01-14", studentId := some "10101" }).success = true ∧
    (_getFromLocalStorage (storeOf [offlineCheckIn, repeatedCheckIn])
      { date := some "2024-01-14", studentId := some "10101" }).data =
        [offlineCheckIn, repeatedCheckIn] :=
  have h := getFromLocalStorage_exact (storeOf [offlineCheckIn, repeatedCheckIn])
    { date := some "2024-01-14", studentId := some "10101" } [offlineCheckIn, repeatedCheckIn]
    rfl (by decide)
  ⟨h.1, h.2.1.trans (by decide)⟩

/-- C2 (as stated) fails: with a record stored without a timestamp, a query for
the day of another stored record reports failure and returns no record. -/
theorem getFromLocalStorage_undated_fails :
    matchesFilters { date := some "2024-01-14", studentId := none } offlineCheckIn = true ∧
    (_getFromLocalStorage (storeOf [offlineCheckIn, undatedCheckIn])
      { date := some "2024-01-14", studentId := none }).success = false ∧
    (_getFromLocalStorage (storeOf [offlineCheckIn, undatedCheckIn])
      { date := some "2024-01-14", studentId := none }).data = [] := by
  decide

/-! ## Submission: claims -/

theorem submitAttendance_store (host : Host) (api : AttendanceAPI) (store : LocalStorage)
    (outcome : DispatchOutcome) (e : AttendanceRecord) :
    (submitAttendance host api store outcome e).2 =
      (_submitToLocalStorage host api store e).2 := by
  unfold submitAttendance _submitToGoogleScript
  split
  · cases outcome <;> rfl
  · rfl

/-- C3: whether the remote dispatch of `submitAttendance` completes or fails with
a transport error, when the local write succeeds the collection afterwards is the
previous collection with exactly one record appended, and that record carries the
submitted studentId, studentName, status and timestamp. -/
theorem submitAttendance_appends_locally (host : Host) (api : AttendanceAPI)
    (store : LocalStorage) (outcome : DispatchOutcome) (e : AttendanceRecord)
    (h : (_submitToLocalStorage host api store e).1.success = true) :
    ∃ previous r, readAttendanceData store = some previous ∧
      readAttendanceData (submitAttendance host api store outcome e).2 =
        some (previous ++ [r]) ∧
      r.studentId = e.studentId ∧ r.studentName = e.studentName ∧
      r.status = e.status ∧ r.timestamp = e.timestamp := by
  obtain ⟨previous, hread, hstore⟩ := submitToLocalStorage_of_success host api store e h
  refine ⟨previous, recordData host api e, hread, ?_, rfl, rfl, rfl, rfl⟩
  rw [submitAttendance_store, hstore]
  rfl

/-- Witness of C3: a dispatch that fails with a transport error, on a store that
already holds a record. -/
theorem submitAttendance_appends_locally_witness :
    ∃ previous r, readAttendanceData (storeOf [undatedCheckIn]) = some previous ∧
      readAttendanceData (submitAttendance sampleHost onlineAPI (storeOf [undatedCheckIn])
        .transportError offlineCheckIn).2 = some (previous ++ [r]) ∧
      r.studentId = offlineCheckIn.studentId ∧ r.studentName = offlineCheckIn.studentName ∧
      r.status = offlineCheckIn.status ∧ r.timestamp = offlineCheckIn.timestamp :=
  submitAttendance_appends_locally sampleHost onlineAPI (storeOf [undatedCheckIn])
    .transportError offlineCheckIn (by decide)

/-- C4 (as amended): when the write to the local collection fails,
`submitAttendance` returns `success = false` exactly when the remote dispatch was
not attempted or failed with a transport error; when the dispatch completed the
result is `success = true`, the local write being a backup whose outcome is not
reported. -/
theorem submitAttendance_storage_failure (host : Host) (api : AttendanceAPI)
    (store : LocalStorage) (outcome : DispatchOutcome) (e : AttendanceRecord)
    (h : (_submitToLocalStorage host api store e).1.success = false) :
    (submitAttendance host api store outcome e).1.success =
      (api.isOnlineMode && truthy api.webAppUrl && decide (outcome = .dispatched)) := by
  unfold submitAttendance _submitToGoogleScript
  by_cases honline : (api.isOnlineMode && truthy api.webAppUrl) = true
  · cases outcome
    · simp [honline]
    · simp [honline, h]
  · simp only [honline, Bool.false_eq_true, if_false, h]
    simp at honline
    cases hm : api.isOnlineMode
    · simp
    · simp [honline hm]

/-- Witness of C4: a store that rejects the write while the dispatch fails. -/
theorem submitAttendance_storage_failure_witness :
    (submitAttendance sampleHost onlineAPI fullStore .transportError offlineCheckIn).1.success =
      (onlineAPI.isOnlineMode && truthy onlineAPI.webAppUrl &&
        decide (DispatchOutcome.transportError = .dispatched)) :=
  submitAttendance_storage_failure sampleHost onlineAPI fullStore .transportError
    offlineCheckIn (by decide)

/-- C4 (as stated) fails: the store rejects the write, the dispatch completes, and
`submitAttendance` reports success. -/
theorem submitAttendance_backup_failure_unreported :
    (_submitToLocalStorage sampleHost onlineAPI fullStore offlineCheckIn).1.success = false ∧
    (submitAttendance sampleHost onlineAPI fullStore .dispatched offlineCheckIn).1.success =
      true := by
  decide

/-! ## Reconciler: first occurrences per key -/

section FirstPerKey

variable {α κ : Type} [DecidableEq κ] (key : α → κ)

theorem firstPerKey_cons_of_mem {a : α} {s : List κ} (rest : List α) (h : key a ∈ s) :
    firstPerKey key s (a :: rest) = firstPerKey key s rest := by
  simp [firstPerKey, h]

theorem firstPerKey_cons_of_not_mem {a : α} {s : List κ} (rest : List α) (h : key a ∉ s) :
    firstPerKey key s (a :: rest) = a :: firstPerKey key (key a :: s) rest := by
  simp [firstPerKey, h]

theorem firstPerKey_congr (l : List α) :
    ∀ s s' : List κ, (∀ k, k ∈ s ↔ k ∈ s') → firstPerKey key s l = firstPerKey key s' l := by
  induction l with
  | nil => intro s s' _; rfl
  | cons a rest ih =>
    intro s s' h
    have hcons : ∀ k, k ∈ key a :: s ↔ k ∈ key a :: s' := by
      intro k
      simp only [List.mem_cons, h k]
    by_cases ha : key a ∈ s
    · have ha' : key a ∈ s' := (h _).mp ha
      simp only [firstPerKey, ha, ha', if_true]
      exact ih s s' h
    · have ha' : key a ∉ s' := fun hc => ha ((h _).mpr hc)
      simp only [firstPerKey, ha, ha', if_false]
      rw [ih (key a :: s) (key a :: s') hcons]

theorem mem_firstPerKey (l : List α) :
    ∀ (s : List κ) (x : α), x ∈ firstPerKey key s l ↔
      key x ∉ s ∧ l.find? (fun y => decide (key y = key x)) = some x := by
  induction l with
  | nil => intro s x; simp [firstPerKey]
  | cons a rest ih =>
    intro s x
    by_cases ha : key a ∈ s
    · simp only [firstPerKey, ha, if_true, ih s x]
      constructor
      · rintro ⟨hx, hfind⟩
        have hne : ¬ key a = key x := fun hc => hx (hc ▸ ha)
        exact ⟨hx, by simp [List.find?_cons, hne, hfind]⟩
      · rintro ⟨hx, hfind⟩
        have hne : ¬ key a = key x := fun hc => hx (hc ▸ ha)
        refine ⟨hx, ?_⟩
        simpa [List.find?_cons, hne] using hfind
    · simp only [firstPerKey, ha, if_false, List.mem_cons, ih (key a :: s) x]
      by_cases hk : key a = key x
      · simp only [List.find?_cons, hk, decide_True, Option.some.injEq, not_true_eq_false,
          false_and, or_false, true_or, not_or]
        constructor
        · rintro rfl
          exact ⟨ha, rfl⟩
        · rintro ⟨_, h⟩
          exact h.symm
      · have hne : x ≠ a := fun hc => hk (hc ▸ rfl)
        have hk' : ¬ key x = key a := fun hc => hk hc.symm
        simp [List.find?_cons, hk, hne, hk']

theorem mem_map_firstPerKey (l : List α) (s : List κ) (k : κ) :
    k ∈ (firstPerKey key s l).map key ↔ k ∉ s ∧ k ∈ l.map key := by
  induction l generalizing s with
  | nil => simp [firstPerKey]
  | cons a rest ih =>
    by_cases ha : key a ∈ s
    · simp only [firstPerKey, ha, if_true, ih s, List.map_cons, List.mem_cons]
      constructor
      · rintro ⟨hk, hmem⟩
        exact ⟨hk, Or.inr hmem⟩
      · rintro ⟨hk, hmem | hmem⟩
        · exact absurd (hmem ▸ ha) hk
        · exact ⟨hk, hmem⟩
    · simp only [firstPerKey, ha, if_false, List.map_cons, List.mem_cons, ih (key a :: s),
        not_or]
      constructor
      · rintro (rfl | ⟨⟨_, hk⟩, hmem⟩)
        · exact ⟨ha, Or.inl rfl⟩
        · exact ⟨hk, Or.inr hmem⟩
      · rintro ⟨hk, hmem | hmem⟩
        · exact Or.inl hmem
        · by_cases hka : k = key a
          · exact Or.inl hka
          · exact Or.inr ⟨⟨hka, hk⟩, hmem⟩

theorem nodup_map_firstPerKey (l : List α) (s : List κ) :
    ((firstPerKey key s l).map key).Nodup := by
  induction l generalizing s with
  | nil => simp [firstPerKey]
  | cons a rest ih =>
    by_cases ha : key a ∈ s
    · simp only [firstPerKey, ha, if_true]
      exact ih s
    · simp only [firstPerKey, ha, if_false, List.map_cons, List.nodup_cons]
      refine ⟨?_, ih _⟩
      rw [mem_map_firstPerKey]
      simp

theorem firstPerKey_eq_nil (l : List α) (s : List κ) (h : ∀ x ∈ l, key x ∈ s) :
    firstPerKey key s l = [] := by
  induction l with
  | nil => rfl
  | cons a rest ih =>
    have ha : key a ∈ s := h a (List.mem_cons_self _ _)
    simp only [firstPerKey, ha, if_true]
    exact ih fun x hx => h x (List.mem_cons_of_mem _ hx)

theorem firstPerKey_append (l₁ l₂ : List α) (s : List κ) :
    firstPerKey key s (l₁ ++ l₂) =
      firstPerKey key s l₁ ++ firstPerKey key (l₁.map key ++ s) l₂ := by
  induction l₁ generalizing s with
  | nil => rfl
  | cons a rest ih =>
    by_cases ha : key a ∈ s
    · rw [List.cons_append, firstPerKey_cons_of_mem key _ ha, firstPerKey_cons_of_mem key _ ha,
        ih s, List.map_cons]
      congr 1
      apply firstPerKey_congr
      intro k
      simp only [List.mem_append, List.mem_cons, List.mem_map]
      constructor
      · rintro (h | h)
        · exact Or.inl (Or.inr h)
        · exact Or.inr h
      · rintro ((rfl | h) | h)
        · exact Or.inr ha
        · exact Or.inl h
        · exact Or.inr h
    · rw [List.cons_append, firstPerKey_cons_of_not_mem key _ ha,
        firstPerKey_cons_of_not_mem key _ ha, ih (key a :: s), List.map_cons, List.cons_append]
      congr 2
      apply firstPerKey_congr
      intro k
      simp only [List.mem_append, List.mem_cons]
      tauto

end FirstPerKey

/-! ## Reconciler: the merge loops and the sort -/

theorem generateUniqueKey_eq_none_iff (host : Host) (r : AttendanceRecord) :
    generateUniqueKey host r = none ↔ r.timestamp = none := by
  unfold generateUniqueKey
  cases r.timestamp <;> simp

theorem generateUniqueKey_of_dedupTuple (host : Host) (a b : AttendanceRecord)
    (h : dedupTuple host a = dedupTuple host b) :
    generateUniqueKey host a = generateUniqueKey host b := by
  unfold dedupTuple at h
  unfold generateUniqueKey
  cases ha : a.timestamp with
  | none =>
    cases hb : b.timestamp with
    | none => rfl
    | some tb => simp [ha, hb] at h
  | some ta =>
    cases hb : b.timestamp with
    | none => simp [ha, hb] at h
    | some tb =>
      simp only [ha, hb, Option.map_some', Option.some.injEq, Prod.mk.injEq] at h
      obtain ⟨h1, h2, h3, h4⟩ := h
      simp only [h1, h2, h3, h4]

theorem mergeLoop_of_valid (host : Host) (l : List AttendanceRecord) :
    ∀ (merged : List AttendanceRecord) (seen : List String),
      (∀ r ∈ l, r.timestamp ≠ none) →
      ∃ seen', mergeLoop host l (merged, seen) =
          some (merged ++ firstPerKey (generateUniqueKey host) (seen.map some) l, seen') ∧
        ∀ k, k ∈ seen' ↔ k ∈ seen ∨ some k ∈ l.map (generateUniqueKey host) := by
  induction l with
  | nil =>
    intro merged seen _
    exact ⟨seen, by simp [mergeLoop, firstPerKey], by simp⟩
  | cons r rest ih =>
    intro merged seen hvalid
    have hrest : ∀ x ∈ rest, x.timestamp ≠ none :=
      fun x hx => hvalid x (List.mem_cons_of_mem _ hx)
    have hr : generateUniqueKey host r ≠ none := fun hc =>
      hvalid r (List.mem_cons_self _ _) ((generateUniqueKey_eq_none_iff host r).mp hc)
    obtain ⟨key, hkey⟩ := Option.ne_none_iff_exists'.mp hr
    by_cases hk : key ∈ seen
    · have hk' : generateUniqueKey host r ∈ seen.map some := by
        rw [hkey]
        exact List.mem_map_of_mem _ hk
      obtain ⟨seen', h1, h2⟩ := ih merged seen hrest
      refine ⟨seen', ?_, ?_⟩
      · simp only [mergeLoop, hkey, hk, if_true]
        rw [h1, firstPerKey_cons_of_mem _ _ hk']
      · intro k
        rw [h2, List.map_cons, List.mem_cons, hkey, Option.some.injEq]
        constructor
        · rintro (h | h)
          · exact Or.inl h
          · exact Or.inr (Or.inr h)
        · rintro (h | h | h)
          · exact Or.inl h
          · exact Or.inl (h ▸ hk)
          · exact Or.inr h
    · have hk' : generateUniqueKey host r ∉ seen.map some := by
        rw [hkey]
        intro hc
        obtain ⟨k, hk1, hk2⟩ := List.mem_map.mp hc
        exact hk (Option.some.inj hk2 ▸ hk1)
      obtain ⟨seen', h1, h2⟩ := ih (merged ++ [r]) (key :: seen) hrest
      refine ⟨seen', ?_, ?_⟩
      · simp only [mergeLoop, hkey, hk, if_false]
        rw [h1, firstPerKey_cons_of_not_mem _ _ hk', hkey, List.map_cons, List.append_assoc,
          List.singleton_append]
      · intro k
        rw [h2, List.map_cons, List.mem_cons, List.mem_cons, hkey, Option.some.injEq]
        constructor
        · rintro ((h | h) | h)
          · exact Or.inr (Or.inl h)
          · exact Or.inl h
          · exact Or.inr (Or.inr h)
        · rintro (h | h | h)
          · exact Or.inl (Or.inr h)
          · exact Or.inl (Or.inl h)
          · exact Or.inr h

theorem mergeLoop_eq_none_iff (host : Host) (l : List AttendanceRecord) :
    ∀ state, mergeLoop host l state = none ↔ ∃ r ∈ l, r.timestamp = none := by
  induction l with
  | nil => intro state; simp [mergeLoop]
  | cons r rest ih =>
    rintro ⟨merged, seen⟩
    cases hkey : generateUniqueKey host r with
    | none =>
      have hr := (generateUniqueKey_eq_none_iff host r).mp hkey
      simp only [mergeLoop, hkey, true_iff]
      exact ⟨r, List.mem_cons_self _ _, hr⟩
    | some key =>
      have hr : r.timestamp ≠ none := fun hc => by
        rw [(generateUniqueKey_eq_none_iff host r).mpr hc] at hkey
        exact absurd hkey (by simp)
      have hstep : (∃ x ∈ r :: rest, x.timestamp = none) ↔ ∃ x ∈ rest, x.timestamp = none := by
        constructor
        · rintro ⟨x, hx, hnone⟩
          rcases List.mem_cons.mp hx with rfl | hx
          · exact absurd hnone hr
          · exact ⟨x, hx, hnone⟩
        · rintro ⟨x, hx, hnone⟩
          exact ⟨x, List.mem_cons_of_mem _ hx, hnone⟩
      rw [hstep]
      by_cases hk : key ∈ seen
      · simp only [mergeLoop, hkey, hk, if_true]
        exact ih _
      · simp only [mergeLoop, hkey, hk, if_false]
        exact ih _

theorem insertSorted_perm (a : AttendanceRecord) (l : List AttendanceRecord) :
    (insertSorted a l).Perm (a :: l) := by
  induction l with
  | nil => exact List.Perm.refl _
  | cons b rest ih =>
    unfold insertSorted
    split
    · exact List.Perm.refl _
    · exact (List.Perm.cons b ih).trans (List.Perm.swap a b rest)

theorem sortRecords_perm (l : List AttendanceRecord) : (sortRecords l).Perm l := by
  induction l with
  | nil => exact List.Perm.refl _
  | cons a rest ih =>
    unfold sortRecords
    exact (insertSorted_perm a _).trans (List.Perm.cons a ih)

theorem insertSorted_pairwise (a : AttendanceRecord) (l : List AttendanceRecord)
    (ha : a.timestamp ≠ none) (hl : ∀ r ∈ l, r.timestamp ≠ none)
    (hsorted : l.Pairwise notOlder) : (insertSorted a l).Pairwise notOlder := by
  obtain ⟨ta, hta⟩ := Option.ne_none_iff_exists'.mp ha
  induction l with
  | nil => simp [insertSorted]
  | cons b rest ih =>
    obtain ⟨tb, htb⟩ := Option.ne_none_iff_exists'.mp (hl b (List.mem_cons_self _ _))
    have hrest : ∀ r ∈ rest, r.timestamp ≠ none := fun r hr => hl r (List.mem_cons_of_mem _ hr)
    obtain ⟨hb, hsorted'⟩ := List.pairwise_cons.mp hsorted
    unfold insertSorted
    have hcmp : compareFn a b = tb - ta := by simp [compareFn, hta, htb]
    split
    · next hle =>
      rw [hcmp] at hle
      have hab : notOlder a b := ⟨ta, tb, hta, htb, by omega⟩
      refine List.pairwise_cons.mpr ⟨?_, hsorted⟩
      intro x hx
      rcases List.mem_cons.mp hx with rfl | hx
      · exact hab
      · obtain ⟨tb', tx, h1, h2, h3⟩ := hb x hx
        rw [htb] at h1
        cases h1
        exact ⟨ta, tx, hta, h2, by omega⟩
    · next hle =>
      rw [hcmp] at hle
      refine List.pairwise_cons.mpr ⟨?_, ih hrest hsorted'⟩
      intro x hx
      rcases List.mem_cons.mp ((insertSorted_perm a rest).mem_iff.mp hx) with rfl | hx
      · exact ⟨tb, ta, htb, hta, by omega⟩
      · exact hb x hx

theorem sortRecords_pairwise (l : List AttendanceRecord)
    (hl : ∀ r ∈ l, r.timestamp ≠ none) : (sortRecords l).Pairwise notOlder := by
  induction l with
  | nil => simp [sortRecords]
  | cons a rest ih =>
    have hrest : ∀ r ∈ rest, r.timestamp ≠ none := fun r hr => hl r (List.mem_cons_of_mem _ hr)
    unfold sortRecords
    exact insertSorted_pairwise a _ (hl a (List.mem_cons_self _ _))
      (fun r hr => hrest r ((sortRecords_perm rest).mem_iff.mp hr)) (ih hrest)

theorem mergeRecords_of_valid (host : Host) (R L : List AttendanceRecord)
    (hR : ∀ r ∈ R, r.timestamp ≠ none) (hL : ∀ r ∈ L, r.timestamp ≠ none) :
    mergeRecords host R L = some (sortRecords (remoteFirst host R L)) := by
  obtain ⟨seen, h1, h2⟩ := mergeLoop_of_valid host R [] [] hR
  simp only [List.nil_append, List.map_nil] at h1
  obtain ⟨seen', h3, _⟩ := mergeLoop_of_valid host L
    (firstPerKey (generateUniqueKey host) [] R) seen hL
  simp only [mergeRecords, h1, h3, remoteFirst]
  congr 3
  apply firstPerKey_congr
  intro k
  cases k with
  | none =>
    constructor
    · intro hc
      obtain ⟨x, _, hx⟩ := List.mem_map.mp hc
      exact absurd hx (by simp)
    · intro hc
      obtain ⟨x, hx, hkey⟩ := List.mem_map.mp hc
      exact absurd ((generateUniqueKey_eq_none_iff host x).mp hkey) (hR x hx)
  | some k =>
    rw [List.mem_map_of_injective (Option.some_injective _), h2]
    simp

theorem mergeRecords_eq_none_iff (host : Host) (R L : List AttendanceRecord) :
    mergeRecords host R L = none ↔ ∃ r ∈ R ++ L, r.timestamp = none := by
  unfold mergeRecords
  cases h1 : mergeLoop host R ([], []) with
  | none =>
    obtain ⟨r, hr, hnone⟩ := (mergeLoop_eq_none_iff host R _).mp h1
    simp only [true_iff]
    exact ⟨r, List.mem_append_left _ hr, hnone⟩
  | some afterGoogle =>
    have hR : ¬ ∃ r ∈ R, r.timestamp = none := fun hc => by
      rw [(mergeLoop_eq_none_iff host R _).mpr hc] at h1
      exact absurd h1 (by simp)
    cases h2 : mergeLoop host L afterGoogle with
    | none =>
      obtain ⟨r, hr, hnone⟩ := (mergeLoop_eq_none_iff host L _).mp h2
      simp only [h2, true_iff]
      exact ⟨r, List.mem_append_right _ hr, hnone⟩
    | some afterLocal =>
      have hL : ¬ ∃ r ∈ L, r.timestamp = none := fun hc => by
        rw [(mergeLoop_eq_none_iff host L _).mpr hc] at h2
        exact absurd h2 (by simp)
      simp only [h2, false_iff, reduceCtorEq]
      rintro ⟨r, hr, hnone⟩
      rcases List.mem_append.mp hr with hr | hr
      · exact hR ⟨r, hr, hnone⟩
      · exact hL ⟨r, hr, hnone⟩

/-! ## Reconciler: the merged view -/

theorem mem_remoteFirst (host : Host) (R L : List AttendanceRecord) (x : AttendanceRecord) :
    x ∈ remoteFirst host R L ↔
      firstWithKeyOf host x R = some x ∨
        (generateUniqueKey host x ∉ R.map (generateUniqueKey host) ∧
          firstWithKeyOf host x L = some x) := by
  simp [remoteFirst, firstWithKeyOf, mem_firstPerKey]

theorem mem_of_mem_remoteFirst (host : Host) (R L : List AttendanceRecord)
    (x : AttendanceRecord) (h : x ∈ remoteFirst host R L) : x ∈ R ∨ x ∈ L := by
  rcases (mem_remoteFirst host R L x).mp h with h | ⟨_, h⟩
  · exact Or.inl (List.mem_of_find?_eq_some h)
  · exact Or.inr (List.mem_of_find?_eq_some h)

theorem mem_keys_remoteFirst (host : Host) (R L : List AttendanceRecord) (k : Option String) :
    k ∈ (remoteFirst host R L).map (generateUniqueKey host) ↔
      k ∈ R.map (generateUniqueKey host) ∨ k ∈ L.map (generateUniqueKey host) := by
  simp only [remoteFirst, List.map_append, List.mem_append, mem_map_firstPerKey,
    List.not_mem_nil, not_false_eq_true, true_and]
  tauto

theorem nodup_keys_remoteFirst (host : Host) (R L : List AttendanceRecord) :
    ((remoteFirst host R L).map (generateUniqueKey host)).Nodup := by
  simp only [remoteFirst, List.map_append]
  refine List.nodup_append.mpr ⟨nodup_map_firstPerKey _ _ _, nodup_map_firstPerKey _ _ _, ?_⟩
  intro k h1 h2
  rw [mem_map_firstPerKey] at h1 h2
  exact h2.1 h1.2

theorem remoteFirst_doubled (host : Host) (R L : List AttendanceRecord) :
    remoteFirst host (R ++ R) (L ++ L) = remoteFirst host R L := by
  unfold remoteFirst
  rw [firstPerKey_append, firstPerKey_append,
    firstPerKey_eq_nil (generateUniqueKey host) R _ (fun x hx =>
      List.mem_append_left _ (List.mem_map_of_mem _ hx)),
    firstPerKey_eq_nil (generateUniqueKey host) L _ (fun x hx =>
      List.mem_append_left _ (List.mem_map_of_mem _ hx)),
    List.append_nil, List.append_nil]
  congr 1
  apply firstPerKey_congr
  intro k
  simp

theorem remoteFirst_replicate (host : Host) (e : AttendanceRecord) (n m : Nat) :
    remoteFirst host (List.replicate (n + 1) e) (List.replicate (m + 1) e) = [e] := by
  unfold remoteFirst
  have h1 : firstPerKey (generateUniqueKey host) [] (List.replicate (n + 1) e) = [e] := by
    rw [List.replicate_succ, firstPerKey_cons_of_not_mem _ _ (List.not_mem_nil _),
      firstPerKey_eq_nil]
    intro x hx
    rw [List.eq_of_mem_replicate hx]
    exact List.mem_cons_self _ _
  have h2 : firstPerKey (generateUniqueKey host)
      ((List.replicate (n + 1) e).map (generateUniqueKey host))
      (List.replicate (m + 1) e) = [] := by
    apply firstPerKey_eq_nil
    intro x hx
    rw [List.eq_of_mem_replicate hx, List.replicate_succ]
    exact List.mem_map_of_mem _ (List.mem_cons_self _ _)
  rw [h1, h2]
  rfl

theorem reconcile_data_of_valid (host : Host) (store : LocalStorage) (filters : Filters)
    (R L : List AttendanceRecord)
    (hR : ∀ r ∈ R, r.timestamp ≠ none) (hL : ∀ r ∈ L, r.timestamp ≠ none) :
    (reconcile host store filters R L).data = sortRecords (remoteFirst host R L) := by
  simp [reconcile, mergeRecords_of_valid host R L hR hL]

theorem reconcile_of_invalid (host : Host) (store : LocalStorage) (filters : Filters)
    (R L : List AttendanceRecord) (h : mergeRecords host R L = none) :
    reconcile host store filters R L =
      { _getFromLocalStorage store filters with source := some "fallback_local" } := by
  simp [reconcile, h]

theorem mem_reconcile_data (host : Host) (store : LocalStorage) (filters : Filters)
    (R L : List AttendanceRecord)
    (hR : ∀ r ∈ R, r.timestamp ≠ none) (hL : ∀ r ∈ L, r.timestamp ≠ none)
    (x : AttendanceRecord) :
    x ∈ (reconcile host store filters R L).data ↔ x ∈ remoteFirst host R L := by
  rw [reconcile_data_of_valid host store filters R L hR hL]
  exact (sortRecords_perm _).mem_iff

theorem valid_or_invalid (R L : List AttendanceRecord) :
    ((∀ r ∈ R, r.timestamp ≠ none) ∧ (∀ r ∈ L, r.timestamp ≠ none)) ∨
      ∃ r ∈ R ++ L, r.timestamp = none := by
  by_cases h : ∃ r ∈ R ++ L, r.timestamp = none
  · exact Or.inr h
  · refine Or.inl ⟨fun r hr hc => h ⟨r, List.mem_append_left _ hr, hc⟩,
      fun r hr hc => h ⟨r, List.mem_append_right _ hr, hc⟩⟩

/-! ## Reconciler: claims -/

/-- C5 (as amended): for every remote list and local list whose events all have
valid timestamps, no two events of the returned data share the same (calendar
date, studentId, status, minute-truncated time), wherever the duplicates of the
inputs occur. -/
theorem reconcile_no_duplicates (host : Host) (store : LocalStorage) (filters : Filters)
    (R L : List AttendanceRecord)
    (hR : ∀ r ∈ R, r.timestamp ≠ none) (hL : ∀ r ∈ L, r.timestamp ≠ none) :
    ((reconcile host store filters R L).data.map (dedupTuple host)).Nodup := by
  have hkeys : ((reconcile host store filters R L).data.map (generateUniqueKey host)).Nodup := by
    rw [reconcile_data_of_valid host store filters R L hR hL]
    exact (((sortRecords_perm _).map _).nodup_iff).mpr (nodup_keys_remoteFirst host R L)
  unfold List.Nodup at hkeys ⊢
  rw [List.pairwise_map] at hkeys ⊢
  exact hkeys.imp fun hne hc => hne (generateUniqueKey_of_dedupTuple host _ _ hc)

/-- Witness of C5: the same swipe twice in the remote list and twice in the local
list. -/
theorem reconcile_no_duplicates_witness :
    ((reconcile sampleHost emptyStore noFilters [remoteCheckIn, remoteCheckIn]
      [offlineCheckIn, repeatedCheckIn]).data.map (dedupTuple sampleHost)).Nodup :=
  reconcile_no_duplicates sampleHost emptyStore noFilters [remoteCheckIn, remoteCheckIn]
    [offlineCheckIn, repeatedCheckIn] (by decide) (by decide)

/-- C5 (as stated) fails: with a record stored without a timestamp the merge
throws and `getAttendanceData` returns the local collection as it is, in which two
distinct records of the same swipe share the dedup tuple. -/
theorem getAttendanceData_undated_duplicates :
    offlineCheckIn ∈ (getAttendanceData sampleHost
      (storeOf [offlineCheckIn, repeatedCheckIn, undatedCheckIn]) (.ok emptyPayload)
      noFilters).data ∧
    repeatedCheckIn ∈ (getAttendanceData sampleHost
      (storeOf [offlineCheckIn, repeatedCheckIn, undatedCheckIn]) (.ok emptyPayload)
      noFilters).data ∧
    offlineCheckIn ≠ repeatedCheckIn ∧
    dedupTuple sampleHost offlineCheckIn = dedupTuple sampleHost repeatedCheckIn ∧
    ¬ ((getAttendanceData sampleHost
      (storeOf [offlineCheckIn, repeatedCheckIn, undatedCheckIn]) (.ok emptyPayload)
      noFilters).data.map (dedupTuple sampleHost)).Nodup := by
  decide

/-- C6 (as amended): for every remote list R and local list L whose events all
have valid timestamps, the data contains for each key of R the first event of R
with that key and nothing else with that key; every returned event is the first
event of R with its key, or has a key that occurs nowhere in R and is the first
event of L with its key. -/
theorem reconcile_remote_wins (host : Host) (store : LocalStorage) (filters : Filters)
    (R L : List AttendanceRecord)
    (hR : ∀ r ∈ R, r.timestamp ≠ none) (hL : ∀ r ∈ L, r.timestamp ≠ none) :
    (∀ g ∈ R, ∃ first, firstWithKeyOf host g R = some first ∧
      first ∈ (reconcile host store filters R L).data ∧
      ∀ x ∈ (reconcile host store filters R L).data,
        generateUniqueKey host x = generateUniqueKey host g → x = first) ∧
    (∀ x ∈ (reconcile host store filters R L).data,
      firstWithKeyOf host x R = some x ∨
        (generateUniqueKey host x ∉ R.map (generateUniqueKey host) ∧
          firstWithKeyOf host x L = some x)) := by
  constructor
  · intro g hg
    cases hfind : firstWithKeyOf host g R with
    | none =>
      have hnone := List.find?_eq_none.mp hfind g hg
      simp at hnone
    | some first =>
      have hkey : generateUniqueKey host first = generateUniqueKey host g := by
        simpa using List.find?_some hfind
      have hsame : ∀ x, generateUniqueKey host x = generateUniqueKey host g →
          firstWithKeyOf host x R = some first := by
        intro x hx
        unfold firstWithKeyOf at hfind ⊢
        rw [hx]
        exact hfind
      refine ⟨first, rfl, ?_, ?_⟩
      · rw [mem_reconcile_data host store filters R L hR hL, mem_remoteFirst]
        exact Or.inl (hsame first hkey)
      · intro x hx hxkey
        rw [mem_reconcile_data host store filters R L hR hL, mem_remoteFirst] at hx
        rcases hx with hx | ⟨hx, _⟩
        · rw [hsame x hxkey] at hx
          exact (Option.some.inj hx).symm
        · exact absurd (hxkey ▸ List.mem_map_of_mem _ hg) hx
  · intro x hx
    rw [mem_reconcile_data host store filters R L hR hL, mem_remoteFirst] at hx
    exact hx

/-- Witness of C6: a swipe held remotely and twice locally, next to nothing else. -/
theorem reconcile_remote_wins_witness :
    (∀ g ∈ [remoteCheckIn], ∃ first, firstWithKeyOf sampleHost g [remoteCheckIn] = some first ∧
      first ∈ (reconcile sampleHost emptyStore noFilters [remoteCheckIn]
        [offlineCheckIn, repeatedCheckIn]).data ∧
      ∀ x ∈ (reconcile sampleHost emptyStore noFilters [remoteCheckIn]
          [offlineCheckIn, repeatedCheckIn]).data,
        generateUniqueKey sampleHost x = generateUniqueKey sampleHost g → x = first) ∧
    (∀ x ∈ (reconcile sampleHost emptyStore noFilters [remoteCheckIn]
        [offlineCheckIn, repeatedCheckIn]).data,
      firstWithKeyOf sampleHost x [remoteCheckIn] = some x ∨
        (generateUniqueKey sampleHost x ∉ [remoteCheckIn].map (generateUniqueKey sampleHost) ∧
          firstWithKeyOf sampleHost x [offlineCheckIn, repeatedCheckIn] = some x)) :=
  reconcile_remote_wins sampleHost emptyStore noFilters [remoteCheckIn]
    [offlineCheckIn, repeatedCheckIn] (by decide) (by decide)

/-- C6 (as stated) fails: with a record stored without a timestamp the returned
data is the local collection; it lacks the remote event and holds the local event
that has the key of the remote one. -/
theorem getAttendanceData_undated_local_kept :
    googleDataOf sampleHost (storeOf [offlineCheckIn, undatedCheckIn]) (.ok samplePayload)
      noFilters = [remoteCheckIn] ∧
    localDataOf (storeOf [offlineCheckIn, undatedCheckIn]) noFilters =
      [offlineCheckIn, undatedCheckIn] ∧
    generateUniqueKey sampleHost offlineCheckIn = generateUniqueKey sampleHost remoteCheckIn ∧
    remoteCheckIn ∉ (getAttendanceData sampleHost (storeOf [offlineCheckIn, undatedCheckIn])
      (.ok samplePayload) noFilters).data ∧
    offlineCheckIn ∈ (getAttendanceData sampleHost (storeOf [offlineCheckIn, undatedCheckIn])
      (.ok samplePayload) noFilters).data := by
  decide

/-- C7: for every remote list and local list of events with valid timestamps, the
returned data is sorted by timestamp in descending order: every event is at
least as recent as each event after it. -/
theorem reconcile_sorted_descending (host : Host) (store : LocalStorage) (filters : Filters)
    (R L : List AttendanceRecord)
    (hR : ∀ r ∈ R, r.timestamp ≠ none) (hL : ∀ r ∈ L, r.timestamp ≠ none) :
    (reconcile host store filters R L).data.Pairwise notOlder := by
  rw [reconcile_data_of_valid host store filters R L hR hL]
  apply sortRecords_pairwise
  intro r hr
  rcases mem_of_mem_remoteFirst host R L r hr with h | h
  · exact hR r h
  · exact hL r h

/-- Witness of C7: one remote and two local events. -/
theorem reconcile_sorted_descending_witness :
    (reconcile sampleHost emptyStore noFilters [remoteCheckIn]
      [{ offlineCheckIn with status := "퇴실", timestamp := some 1705272420000 },
       repeatedCheckIn]).data.Pairwise notOlder :=
  reconcile_sorted_descending sampleHost emptyStore noFilters [remoteCheckIn]
    [{ offlineCheckIn with status := "퇴실", timestamp := some 1705272420000 },
     repeatedCheckIn] (by decide) (by decide)

/-- C8 (as amended): for every remote list R and local list L whose events all
have a valid timestamp, merging with every event supplied twice (remote R++R,
local L++L) yields a result of the same size as merging R with L once; and merging
a single event e that has a valid timestamp and is present both remotely and
locally yields exactly that one event, however many times it is repeated on
either side. -/
theorem reconcile_repeated_inputs (host : Host) (store : LocalStorage) (filters : Filters)
    (R L : List AttendanceRecord) (e : AttendanceRecord) (n m : Nat)
    (hR : ∀ r ∈ R, r.timestamp ≠ none) (hL : ∀ r ∈ L, r.timestamp ≠ none)
    (he : e.timestamp ≠ none) :
    (reconcile host store filters (R ++ R) (L ++ L)).data.length =
      (reconcile host store filters R L).data.length ∧
    (reconcile host store filters (List.replicate (n + 1) e) (List.replicate (m + 1) e)).data =
      [e] := by
  constructor
  · have hRR : ∀ r ∈ R ++ R, r.timestamp ≠ none := fun r hr =>
      (List.mem_append.mp hr).elim (hR r) (hR r)
    have hLL : ∀ r ∈ L ++ L, r.timestamp ≠ none := fun r hr =>
      (List.mem_append.mp hr).elim (hL r) (hL r)
    rw [reconcile_data_of_valid host store filters _ _ hRR hLL,
      reconcile_data_of_valid host store filters _ _ hR hL, remoteFirst_doubled]
  · have hvalid : ∀ k : Nat, ∀ r ∈ List.replicate k e, r.timestamp ≠ none := by
      intro k r hr
      rw [List.eq_of_mem_replicate hr]
      exact he
    rw [reconcile_data_of_valid host store filters _ _ (hvalid _) (hvalid _),
      remoteFirst_replicate]
    rfl

/-- Witness of C8: a swipe held remotely and under two ids locally, and a swipe
held three times remotely and twice locally. -/
theorem reconcile_repeated_inputs_witness :
    (reconcile sampleHost emptyStore noFilters ([remoteCheckIn] ++ [remoteCheckIn])
      ([offlineCheckIn, repeatedCheckIn] ++ [offlineCheckIn, repeatedCheckIn])).data.length =
      (reconcile sampleHost emptyStore noFilters [remoteCheckIn]
        [offlineCheckIn, repeatedCheckIn]).data.length ∧
    (reconcile sampleHost emptyStore noFilters (List.replicate (2 + 1) remoteCheckIn)
      (List.replicate (1 + 1) remoteCheckIn)).data = [remoteCheckIn] :=
  reconcile_repeated_inputs sampleHost emptyStore noFilters [remoteCheckIn]
    [offlineCheckIn, repeatedCheckIn] remoteCheckIn 2 1 (by decide) (by decide) (by decide)

/-- C8 (as stated) fails: the remote fetch failing, an event stored without a
timestamp stands in the remote list and in the local list; stored once it comes
back once, stored twice (both lists doubled) it comes back twice. -/
theorem getAttendanceData_undated_repeated :
    googleDataOf sampleHost (storeOf [undatedCheckIn]) .transportError noFilters =
      [undatedCheckIn] ∧
    localDataOf (storeOf [undatedCheckIn]) noFilters = [undatedCheckIn] ∧
    (getAttendanceData sampleHost (storeOf [undatedCheckIn]) .transportError
      noFilters).data.length = 1 ∧
    googleDataOf sampleHost (storeOf [undatedCheckIn, undatedCheckIn]) .transportError
      noFilters = [undatedCheckIn] ++ [undatedCheckIn] ∧
    localDataOf (storeOf [undatedCheckIn, undatedCheckIn]) noFilters =
      [undatedCheckIn] ++ [undatedCheckIn] ∧
    (getAttendanceData sampleHost (storeOf [undatedCheckIn, undatedCheckIn]) .transportError
      noFilters).data = [undatedCheckIn, undatedCheckIn] := by
  decide

theorem generateUniqueKey_host (host host' : Host) (htz : host'.tzOffset = host.tzOffset) :
    generateUniqueKey host' = generateUniqueKey host := by
  funext r
  simp [generateUniqueKey, localHHMM, htz]

theorem mergeLoop_host (host host' : Host) (htz : host'.tzOffset = host.tzOffset)
    (l : List AttendanceRecord) : ∀ state, mergeLoop host' l state = mergeLoop host l state := by
  induction l with
  | nil => intro state; rfl
  | cons r rest ih =>
    rintro ⟨merged, seen⟩
    simp only [mergeLoop, generateUniqueKey_host host host' htz, ih]

theorem reconcile_host (host host' : Host) (htz : host'.tzOffset = host.tzOffset)
    (store : LocalStorage) (filters : Filters) (A B : List AttendanceRecord) :
    reconcile host' store filters A B = reconcile host store filters A B := by
  simp only [reconcile, mergeRecords, mergeLoop_host host host' htz]

/-- C9 (as amended): the merge is deterministic: it depends on the host through
its time zone alone, not on the clock or the random source, so repeating it on the
same inputs gives the same result. It is commutative in the keys of its outcome:
for all event lists A and B, merging with A as remote and B as local yields the
same set of dedup keys and the same number of events as merging with B as remote
and A as local. -/
theorem reconcile_same_keys_swapped (host host' : Host) (store : LocalStorage)
    (filters : Filters) (A B : List AttendanceRecord)
    (htz : host'.tzOffset = host.tzOffset) :
    reconcile host' store filters A B = reconcile host store filters A B ∧
    (∀ k, k ∈ (reconcile host store filters A B).data.map (generateUniqueKey host) ↔
      k ∈ (reconcile host store filters B A).data.map (generateUniqueKey host)) ∧
    (reconcile host store filters A B).data.length =
      (reconcile host store filters B A).data.length := by
  refine ⟨reconcile_host host host' htz store filters A B, ?_⟩
  rcases valid_or_invalid A B with ⟨hA, hB⟩ | ⟨r, hr, hnone⟩
  · have hmem : ∀ k, k ∈ (reconcile host store filters A B).data.map (generateUniqueKey host) ↔
        k ∈ (reconcile host store filters B A).data.map (generateUniqueKey host) := by
      intro k
      rw [reconcile_data_of_valid host store filters A B hA hB,
        reconcile_data_of_valid host store filters B A hB hA,
        ((sortRecords_perm _).map _).mem_iff, ((sortRecords_perm _).map _).mem_iff,
        mem_keys_remoteFirst, mem_keys_remoteFirst]
      exact Or.comm
    refine ⟨hmem, ?_⟩
    have hAB : ((reconcile host store filters A B).data.map (generateUniqueKey host)).Nodup := by
      rw [reconcile_data_of_valid host store filters A B hA hB]
      exact (((sortRecords_perm _).map _).nodup_iff).mpr (nodup_keys_remoteFirst host A B)
    have hBA : ((reconcile host store filters B A).data.map (generateUniqueKey host)).Nodup := by
      rw [reconcile_data_of_valid host store filters B A hB hA]
      exact (((sortRecords_perm _).map _).nodup_iff).mpr (nodup_keys_remoteFirst host B A)
    have hperm := (List.perm_ext_iff_of_nodup hAB hBA).mpr hmem
    simpa using hperm.length_eq
  · have h1 : mergeRecords host A B = none :=
      (mergeRecords_eq_none_iff host A B).mpr ⟨r, hr, hnone⟩
    have h2 : mergeRecords host B A = none := by
      refine (mergeRecords_eq_none_iff host B A).mpr ⟨r, ?_, hnone⟩
      rcases List.mem_append.mp hr with h | h
      · exact List.mem_append_right _ h
      · exact List.mem_append_left _ h
    rw [reconcile_of_invalid host store filters A B h1,
      reconcile_of_invalid host store filters B A h2]
    exact ⟨fun _ => Iff.rfl, rfl⟩

/-- Witness of C9: the same two lists merged both ways round, and merged again a
minute later. -/
theorem reconcile_same_keys_swapped_witness :
    reconcile laterHost emptyStore noFilters [remoteCheckIn] [offlineCheckIn, repeatedCheckIn] =
      reconcile sampleHost emptyStore noFilters [remoteCheckIn]
        [offlineCheckIn, repeatedCheckIn] ∧
    (∀ k, k ∈ (reconcile sampleHost emptyStore noFilters [remoteCheckIn]
          [offlineCheckIn, repeatedCheckIn]).data.map (generateUniqueKey sampleHost) ↔
      k ∈ (reconcile sampleHost emptyStore noFilters [offlineCheckIn, repeatedCheckIn]
          [remoteCheckIn]).data.map (generateUniqueKey sampleHost)) ∧
    (reconcile sampleHost emptyStore noFilters [remoteCheckIn]
        [offlineCheckIn, repeatedCheckIn]).data.length =
      (reconcile sampleHost emptyStore noFilters [offlineCheckIn, repeatedCheckIn]
        [remoteCheckIn]).data.length :=
  reconcile_same_keys_swapped sampleHost laterHost emptyStore noFilters [remoteCheckIn]
    [offlineCheckIn, repeatedCheckIn] rfl

/-- C9 (as stated) fails: a swipe held by both sides comes back as the copy of
whichever side is passed as remote, so the two merges return different events. -/
theorem reconcile_swapped_differs :
    generateUniqueKey sampleHost offlineCheckIn = generateUniqueKey sampleHost remoteCheckIn ∧
    offlineCheckIn ∈ (reconcile sampleHost emptyStore noFilters [offlineCheckIn]
      [remoteCheckIn]).data ∧
    offlineCheckIn ∉ (reconcile sampleHost emptyStore noFilters [remoteCheckIn]
      [offlineCheckIn]).data := by
  decide

/-! ## Remote failure -/

theorem filterByDate_subset (targetDate : String) (records : List AttendanceRecord) :
    ∀ filtered, filterByDate targetDate records = some filtered →
      ∀ x ∈ filtered, x ∈ records := by
  induction records with
  | nil =>
    intro filtered h x hx
    simp only [filterByDate, Option.some.injEq] at h
    rw [← h] at hx
    exact hx
  | cons r rest ih =>
    intro filtered h x hx
    unfold filterByDate at h
    cases hdate : recordDate r with
    | none => simp [hdate] at h
    | some d =>
      cases hrest : filterByDate targetDate rest with
      | none => simp [hdate, hrest] at h
      | some restFiltered =>
        simp only [hdate, hrest, Option.some.injEq] at h
        rw [← h] at hx
        by_cases hd : d = targetDate
        · simp only [hd, if_true, List.mem_cons] at hx
          rcases hx with rfl | hx
          · exact List.mem_cons_self _ _
          · exact List.mem_cons_of_mem _ (ih restFiltered hrest x hx)
        · simp only [hd, if_false] at hx
          exact List.mem_cons_of_mem _ (ih restFiltered hrest x hx)

theorem getFromLocalStorage_cases (store : LocalStorage) (filters : Filters) :
    _getFromLocalStorage store filters = queryFailure ∨
      ((_getFromLocalStorage store filters).success = true ∧
        (_getFromLocalStorage store filters).fallbackMode = false ∧
        ∃ records, readAttendanceData store = some records ∧
          ∀ x ∈ (_getFromLocalStorage store filters).data, x ∈ records) := by
  unfold _getFromLocalStorage
  cases hread : readAttendanceData store with
  | none => exact Or.inl rfl
  | some records =>
    simp only
    by_cases hd : truthy filters.date = true
    · simp only [hd, if_true]
      cases hfilter : filterByDate (filters.date.getD "") records with
      | none => exact Or.inl rfl
      | some filtered =>
        refine Or.inr ⟨rfl, rfl, records, rfl, ?_⟩
        intro x hx
        simp only at hx
        apply filterByDate_subset _ _ _ hfilter
        split at hx
        · exact (List.mem_filter.mp hx).1
        · exact hx
    · simp only [hd, Bool.false_eq_true, if_false]
      refine Or.inr ⟨trivial, trivial, records, rfl, ?_⟩
      intro x hx
      split at hx
      · exact (List.mem_filter.mp hx).1
      · exact hx

theorem localDataOf_cases (store : LocalStorage) (filters : Filters) :
    localDataOf store filters = [] ∨
      ((_getFromLocalStorage store filters).success = true ∧
        localDataOf store filters = (_getFromLocalStorage store filters).data) := by
  unfold localDataOf
  cases h : (_getFromLocalStorage store filters).success
  · exact Or.inl (by simp [h])
  · exact Or.inr ⟨rfl, by simp [h]⟩

theorem googleDataOf_transportError (host : Host) (store : LocalStorage) (filters : Filters) :
    googleDataOf host store .transportError filters = localDataOf store filters := by
  simp [googleDataOf, localDataOf, _getFromGoogleScript, fetchAndConvert]

theorem mem_of_mergeRecords (host : Host) (R L merged : List AttendanceRecord)
    (h : mergeRecords host R L = some merged) : ∀ x ∈ merged, x ∈ R ∨ x ∈ L := by
  have hvalid : ¬ ∃ r ∈ R ++ L, r.timestamp = none := fun hc => by
    rw [(mergeRecords_eq_none_iff host R L).mpr hc] at h
    exact absurd h (by simp)
  have hR : ∀ r ∈ R, r.timestamp ≠ none := fun r hr hc =>
    hvalid ⟨r, List.mem_append_left _ hr, hc⟩
  have hL : ∀ r ∈ L, r.timestamp ≠ none := fun r hr hc =>
    hvalid ⟨r, List.mem_append_right _ hr, hc⟩
  rw [mergeRecords_of_valid host R L hR hL, Option.some.injEq] at h
  intro x hx
  rw [← h, (sortRecords_perm _).mem_iff] at hx
  exact mem_of_mem_remoteFirst host R L x hx

theorem localDataOf_emptyStore (filters : Filters) : localDataOf emptyStore filters = [] := by
  unfold localDataOf _getFromLocalStorage
  simp only [emptyStore, readAttendanceData]
  by_cases hd : truthy filters.date = true
  · by_cases hs : truthy filters.studentId = true <;> simp [hd, hs, filterByDate]
  · by_cases hs : truthy filters.studentId = true <;> simp [hd, hs]

theorem googleDataOf_emptyPayload (host : Host) (store : LocalStorage) (filters : Filters) :
    googleDataOf host store (.ok emptyPayload) filters = [] := by
  unfold googleDataOf _getFromGoogleScript fetchAndConvert
  by_cases hd : truthy filters.date = true
  · simp [emptyPayload, convertRows, hd, filterByDate]
  · simp [emptyPayload, convertRows, hd]

/-- C10, what the code does when the fetch fails with a transport error: the
result is a success whose events all come from the local collection, but the
remote list it merges is the local list itself and the result carries no
fallback mark; on an empty local collection it is the very result of a successful
fetch without rows. -/
theorem getAttendanceData_failed_fetch_unflagged (host : Host) (store : LocalStorage)
    (filters : Filters) :
    (getAttendanceData host store .transportError filters).success = true ∧
    (∀ x ∈ (getAttendanceData host store .transportError filters).data,
      ∃ records, readAttendanceData store = some records ∧ x ∈ records) ∧
    googleDataOf host store .transportError filters = localDataOf store filters ∧
    (getAttendanceData host store .transportError filters).fallbackMode = false ∧
    getAttendanceData host emptyStore .transportError filters =
      getAttendanceData host emptyStore (.ok emptyPayload) filters := by
  have hgoogle := googleDataOf_transportError host store filters
  have hempty : getAttendanceData host emptyStore .transportError filters =
      getAttendanceData host emptyStore (.ok emptyPayload) filters := by
    unfold getAttendanceData
    rw [googleDataOf_transportError, googleDataOf_emptyPayload, localDataOf_emptyStore]
  refine ⟨?_, ?_, hgoogle, ?_, hempty⟩
  · unfold getAttendanceData reconcile
    rw [hgoogle]
    cases hmerge : mergeRecords host (localDataOf store filters) (localDataOf store filters) with
    | some merged => rfl
    | none =>
      obtain ⟨r, hr, _⟩ := (mergeRecords_eq_none_iff host _ _).mp hmerge
      rcases localDataOf_cases store filters with hnil | ⟨hsuccess, _⟩
      · rw [hnil] at hr
        simp at hr
      · exact hsuccess
  · intro x hx
    unfold getAttendanceData reconcile at hx
    rw [hgoogle] at hx
    have hlocal : ∀ y ∈ localDataOf store filters,
        ∃ records, readAttendanceData store = some records ∧ y ∈ records := by
      intro y hy
      rcases localDataOf_cases store filters with hnil | ⟨_, hdata⟩
      · rw [hnil] at hy
        simp at hy
      · rw [hdata] at hy
        rcases getFromLocalStorage_cases store filters with hfail | ⟨_, _, records, hread, hsub⟩
        · rw [hfail] at hy
          simp [queryFailure] at hy
        · exact ⟨records, hread, hsub y hy⟩
    cases hmerge : mergeRecords host (localDataOf store filters) (localDataOf store filters) with
    | some merged =>
      rw [hmerge] at hx
      rcases mem_of_mergeRecords host _ _ merged hmerge x hx with h | h <;> exact hlocal x h
    | none =>
      rw [hmerge] at hx
      rcases getFromLocalStorage_cases store filters with hfail | ⟨_, _, records, hread, hsub⟩
      · rw [hfail] at hx
        simp [queryFailure] at hx
      · exact ⟨records, hread, hsub x hx⟩
  · unfold getAttendanceData reconcile
    cases mergeRecords host (googleDataOf host store .transportError filters)
      (localDataOf store filters) with
    | some merged => rfl
    | none =>
      rcases getFromLocalStorage_cases store filters with hfail | ⟨_, hflag, _⟩
      · rw [hfail]
        rfl
      · exact hflag

theorem getAttendanceData_failed_fetch_sample :
    getAttendanceData sampleHost emptyStore .transportError noFilters =
      { success := true, data := [], source := some "hybrid", total := some 0,
        message := none, fallbackMode := false, googleCount := some 0,
        localCount := some 0 } ∧
    getAttendanceData sampleHost (storeOf [offlineCheckIn]) .transportError noFilters =
      { success := true, data := [offlineCheckIn], source := some "hybrid", total := some 1,
        message := none, fallbackMode := false, googleCount := some 1,
        localCount := some 1 } := by
  decide

/-! ## Dictionaries: lemmas -/

section Dictionary

variable {ρ σ : Type}

theorem insertByIndex_perm (a : String × σ) (l : List (String × σ)) :
    (insertByIndex a l).Perm (a :: l) := by
  induction l with
  | nil => exact List.Perm.refl _
  | cons b rest ih =>
    unfold insertByIndex
    split
    · exact List.Perm.refl _
    · exact (List.Perm.cons b ih).trans (List.Perm.swap a b rest)

theorem sortByIndex_perm (l : List (String × σ)) : (sortByIndex l).Perm l := by
  induction l with
  | nil => exact List.Perm.refl _
  | cons a rest ih =>
    unfold sortByIndex
    exact (insertByIndex_perm a _).trans (List.Perm.cons a ih)

theorem orderedEntries_perm (object : List (String × σ)) :
    (orderedEntries object).Perm object := by
  unfold orderedEntries
  exact ((sortByIndex_perm _).append_right _).trans (List.filter_append_perm _ object)

theorem objectValues_perm (object : List (String × σ)) :
    (objectValues object).Perm (object.map fun entry => entry.2) :=
  (orderedEntries_perm object).map _

theorem objectKeys_perm (object : List (String × σ)) :
    (objectKeys object).Perm (object.map fun entry => entry.1) :=
  (orderedEntries_perm object).map _

theorem length_objectValues (object : List (String × σ)) :
    (objectValues object).length = object.length := by
  simpa using (objectValues_perm object).length_eq

theorem length_objectKeys (object : List (String × σ)) :
    (objectKeys object).length = object.length := by
  simpa using (objectKeys_perm object).length_eq

theorem mem_objectValues (object : List (String × σ)) (s : σ) :
    s ∈ objectValues object ↔ ∃ k, (k, s) ∈ object := by
  rw [(objectValues_perm object).mem_iff, List.mem_map]
  constructor
  · rintro ⟨⟨k, s'⟩, h, rfl⟩
    exact ⟨k, h⟩
  · rintro ⟨k, h⟩
    exact ⟨(k, s), h, rfl⟩

theorem upsert_of_mem (fresh : σ) (update : σ → σ) (key : String)
    (object : List (String × σ)) (h : key ∈ object.map fun entry => entry.1) :
    upsert fresh update key object =
      object.map fun entry => if entry.1 = key then (entry.1, update entry.2) else entry := by
  have hany : object.any (fun entry => decide (entry.1 = key)) = true := by
    obtain ⟨entry, hentry, hkey⟩ := List.mem_map.mp h
    exact List.any_eq_true.mpr ⟨entry, hentry, by simpa using hkey⟩
  simp [upsert, hany]

theorem upsert_of_not_mem (fresh : σ) (update : σ → σ) (key : String)
    (object : List (String × σ)) (h : key ∉ object.map fun entry => entry.1) :
    upsert fresh update key object = object ++ [(key, update fresh)] := by
  have hany : ¬ object.any (fun entry => decide (entry.1 = key)) = true := by
    intro hc
    obtain ⟨entry, hentry, hkey⟩ := List.any_eq_true.mp hc
    exact h (List.mem_map.mpr ⟨entry, hentry, by simpa using hkey⟩)
  simp [upsert, hany]

theorem keys_upsert (fresh : σ) (update : σ → σ) (key : String)
    (object : List (String × σ)) :
    (upsert fresh update key object).map (fun entry => entry.1) =
      if key ∈ object.map (fun entry => entry.1) then object.map fun entry => entry.1
      else object.map (fun entry => entry.1) ++ [key] := by
  by_cases h : key ∈ object.map fun entry => entry.1
  · rw [upsert_of_mem fresh update key object h, if_pos h, List.map_map]
    apply List.map_congr_left
    intro entry _
    by_cases hk : entry.1 = key <;> simp [hk]
  · rw [upsert_of_not_mem fresh update key object h, if_neg h]
    simp

theorem mem_upsert (fresh : σ) (update : σ → σ) (key : String)
    (object : List (String × σ)) (k : String) (s : σ)
    (h : (k, s) ∈ upsert fresh update key object) :
    (k ≠ key ∧ (k, s) ∈ object) ∨
      (k = key ∧ ((∃ s₀, (key, s₀) ∈ object ∧ s = update s₀) ∨
        (key ∉ object.map (fun entry => entry.1) ∧ s = update fresh))) := by
  by_cases hmem : key ∈ object.map fun entry => entry.1
  · rw [upsert_of_mem fresh update key object hmem] at h
    obtain ⟨entry, hentry, heq⟩ := List.mem_map.mp h
    by_cases hk : entry.1 = key
    · rw [if_pos hk] at heq
      have h1 : entry.1 = k := congrArg Prod.fst heq
      have h2 : update entry.2 = s := congrArg Prod.snd heq
      refine Or.inr ⟨h1 ▸ hk, Or.inl ⟨entry.2, ?_, h2.symm⟩⟩
      rw [← hk]
      exact hentry
    · rw [if_neg hk] at heq
      have h1 : entry.1 = k := congrArg Prod.fst heq
      exact Or.inl ⟨h1 ▸ hk, heq ▸ hentry⟩
  · rw [upsert_of_not_mem fresh update key object hmem] at h
    rcases List.mem_append.mp h with h | h
    · refine Or.inl ⟨?_, h⟩
      intro hc
      exact hmem (List.mem_map.mpr ⟨(k, s), h, hc⟩)
    · simp only [List.mem_singleton, Prod.mk.injEq] at h
      exact Or.inr ⟨h.1, Or.inr ⟨hmem, h.2⟩⟩

variable (key : ρ → String) (fresh : ρ → σ) (update : ρ → σ → σ)

theorem collect_concat (l : List ρ) (r : ρ) :
    collect key fresh update (l ++ [r]) =
      upsert (fresh r) (update r) (key r) (collect key fresh update l) := by
  simp [collect, List.foldl_append]

theorem mem_keys_collect (l : List ρ) (k : String) :
    k ∈ (collect key fresh update l).map (fun entry => entry.1) ↔ k ∈ l.map key := by
  induction l using List.reverseRecOn generalizing k with
  | nil => simp [collect]
  | append_singleton l r ih =>
    rw [collect_concat, keys_upsert]
    split
    · next hmem =>
      rw [ih, List.map_append, List.mem_append]
      constructor
      · exact Or.inl
      · rintro (h | h)
        · exact h
        · simp only [List.map_cons, List.map_nil, List.mem_singleton] at h
          rw [h, ← ih]
          exact hmem
    · simp only [List.mem_append, ih, List.map_append, List.map_cons, List.map_nil]

theorem nodup_keys_collect (l : List ρ) :
    ((collect key fresh update l).map fun entry => entry.1).Nodup := by
  induction l using List.reverseRecOn with
  | nil => simp [collect]
  | append_singleton l r ih =>
    rw [collect_concat, keys_upsert]
    split
    · exact ih
    · next hmem =>
      rw [List.nodup_append]
      refine ⟨ih, List.nodup_singleton _, ?_⟩
      intro k hk hk'
      rw [List.mem_singleton] at hk'
      exact hmem (hk' ▸ hk)

theorem length_collect_le (l : List ρ) : (collect key fresh update l).length ≤ l.length := by
  have h := (nodup_keys_collect key fresh update l)
  have hsub : ((collect key fresh update l).map fun entry => entry.1) ⊆ l.map key :=
    fun k hk => (mem_keys_collect key fresh update l k).mp hk
  simpa using (List.subperm_of_subset h hsub).length_le

theorem collect_invariant (Inv : List ρ → String → σ → Prop)
    (hfresh : ∀ l r, key r ∉ l.map key → Inv (l ++ [r]) (key r) (update r (fresh r)))
    (hupdate : ∀ l r s, Inv l (key r) s → Inv (l ++ [r]) (key r) (update r s))
    (hother : ∀ l r k s, k ≠ key r → Inv l k s → Inv (l ++ [r]) k s) (l : List ρ) :
    ∀ k s, (k, s) ∈ collect key fresh update l → Inv l k s := by
  induction l using List.reverseRecOn with
  | nil =>
    intro k s h
    simp [collect] at h
  | append_singleton l r ih =>
    intro k s h
    rw [collect_concat] at h
    rcases mem_upsert _ _ _ _ k s h with ⟨hk, hmem⟩ | ⟨rfl, ⟨s₀, hmem, rfl⟩ | ⟨hnot, rfl⟩⟩
    · exact hother l r k s hk (ih k s hmem)
    · exact hupdate l r s₀ (ih _ s₀ hmem)
    · exact hfresh l r fun hc => hnot ((mem_keys_collect key fresh update l _).mpr hc)

theorem collect_map {τ : Type} (g : σ → τ) (fresh' : ρ → τ) (update' : ρ → τ → τ)
    (hfresh : ∀ r, g (update r (fresh r)) = update' r (fresh' r))
    (hupdate : ∀ r s, g (update r s) = update' r (g s)) (l : List ρ) :
    collect key fresh' update' l =
      (collect key fresh update l).map fun entry => (entry.1, g entry.2) := by
  induction l using List.reverseRecOn with
  | nil => simp [collect]
  | append_singleton l r ih =>
    rw [collect_concat, collect_concat, ih]
    by_cases hmem : key r ∈ (collect key fresh update l).map fun entry => entry.1
    · have hmem' : key r ∈ ((collect key fresh update l).map fun entry =>
          (entry.1, g entry.2)).map fun entry => entry.1 := by
        simpa [List.map_map] using hmem
      rw [upsert_of_mem _ _ _ _ hmem, upsert_of_mem _ _ _ _ hmem', List.map_map, List.map_map]
      apply List.map_congr_left
      intro entry _
      by_cases hk : entry.1 = key r <;> simp [hk, hupdate]
    · have hmem' : key r ∉ ((collect key fresh update l).map fun entry =>
          (entry.1, g entry.2)).map fun entry => entry.1 := by
        simpa [List.map_map] using hmem
      rw [upsert_of_not_mem _ _ _ _ hmem, upsert_of_not_mem _ _ _ _ hmem']
      simp [hfresh]

end Dictionary

/-! ## Aggregator: lemmas -/

theorem studentData_eq_collect (events : List AttendanceRecord) :
    studentData events = collect (fun r => r.studentId) freshStatus recordInto events := rfl

theorem weekStudents_eq_collect (events : List AttendanceRecord) :
    weekStudents events =
      collect (fun r => r.studentId) (fun _ => { checkIn := false, checkOut := false })
        flagInto events := rfl

theorem recordInto_eq (r : AttendanceRecord) (s : StudentStatus) :
    recordInto r s =
      { studentId := s.studentId, studentName := s.studentName,
        checkIn :=
          if r.status = "입실" then
            match s.checkIn with
            | none => some r
            | some current =>
              if dateLt r.timestamp current.timestamp then some r else some current
          else s.checkIn,
        checkOut :=
          if r.status = "입실" then s.checkOut
          else if r.status = "퇴실" then
            match s.checkOut with
            | none => some r
            | some current =>
              if dateLt current.timestamp r.timestamp then some r else some current
          else s.checkOut,
        records := s.records ++ [r] } := by
  unfold recordInto
  by_cases h1 : r.status = "입실"
  · cases hc : s.checkIn with
    | none => simp [h1, hc]
    | some current =>
      by_cases hlt : dateLt r.timestamp current.timestamp = true <;> simp [h1, hc, hlt]
  · by_cases h2 : r.status = "퇴실"
    · cases hc : s.checkOut with
      | none => simp [h1, h2, hc]
      | some current =>
        by_cases hlt : dateLt current.timestamp r.timestamp = true <;> simp [h1, h2, hc, hlt]
    · simp [h1, h2]

theorem recordInto_studentId (r : AttendanceRecord) (s : StudentStatus) :
    (recordInto r s).studentId = s.studentId := by
  rw [recordInto_eq]

theorem recordInto_studentName (r : AttendanceRecord) (s : StudentStatus) :
    (recordInto r s).studentName = s.studentName := by
  rw [recordInto_eq]

theorem recordInto_records (r : AttendanceRecord) (s : StudentStatus) :
    (recordInto r s).records = s.records ++ [r] := by
  rw [recordInto_eq]

theorem recordInto_checkIn_of_ne (r : AttendanceRecord) (s : StudentStatus)
    (h : r.status ≠ "입실") : (recordInto r s).checkIn = s.checkIn := by
  rw [recordInto_eq]
  simp [h]

theorem recordInto_checkOut_of_ne (r : AttendanceRecord) (s : StudentStatus)
    (h : r.status ≠ "퇴실") : (recordInto r s).checkOut = s.checkOut := by
  rw [recordInto_eq]
  simp [h]

theorem recordInto_checkIn (r : AttendanceRecord) (s : StudentStatus)
    (h : r.status = "입실") :
    (recordInto r s).checkIn =
      match s.checkIn with
      | none => some r
      | some current => if dateLt r.timestamp current.timestamp then some r else some current := by
  rw [recordInto_eq]
  simp [h]

theorem recordInto_checkOut (r : AttendanceRecord) (s : StudentStatus)
    (h : r.status = "퇴실") :
    (recordInto r s).checkOut =
      match s.checkOut with
      | none => some r
      | some current => if dateLt current.timestamp r.timestamp then some r else some current := by
  have hne : r.status ≠ "입실" := by
    rw [h]
    decide
  rw [recordInto_eq]
  simp [h]

theorem notLater_refl (r : AttendanceRecord) (h : r.timestamp ≠ none) : notLater r r := by
  obtain ⟨t, ht⟩ := Option.ne_none_iff_exists'.mp h
  exact ⟨t, t, ht, ht, le_refl t⟩

theorem notLater_trans (a b c : AttendanceRecord) (hab : notLater a b) (hbc : notLater b c) :
    notLater a c := by
  obtain ⟨ta, tb, h1, h2, h3⟩ := hab
  obtain ⟨tb', tc, h4, h5, h6⟩ := hbc
  rw [h2] at h4
  cases h4
  exact ⟨ta, tc, h1, h5, le_trans h3 h6⟩

theorem notLater_of_dateLt (a b : AttendanceRecord) (h : dateLt a.timestamp b.timestamp = true) :
    notLater a b := by
  unfold dateLt at h
  cases ha : a.timestamp with
  | none => simp [ha] at h
  | some ta =>
    cases hb : b.timestamp with
    | none => simp [ha, hb] at h
    | some tb =>
      simp only [ha, hb, decide_eq_true_eq] at h
      exact ⟨ta, tb, ha, hb, le_of_lt h⟩

theorem notLater_of_not_dateLt (a b : AttendanceRecord) (ha : a.timestamp ≠ none)
    (hb : b.timestamp ≠ none) (h : ¬ dateLt a.timestamp b.timestamp = true) :
    notLater b a := by
  obtain ⟨ta, hta⟩ := Option.ne_none_iff_exists'.mp ha
  obtain ⟨tb, htb⟩ := Option.ne_none_iff_exists'.mp hb
  simp only [dateLt, hta, htb, decide_eq_true_eq, not_lt] at h
  exact ⟨tb, ta, htb, hta, h⟩

theorem notLater_antisymm (a b : AttendanceRecord) (hab : notLater a b) (hba : notLater b a) :
    a.timestamp = b.timestamp := by
  obtain ⟨ta, tb, h1, h2, h3⟩ := hab
  obtain ⟨tb', ta', h4, h5, h6⟩ := hba
  rw [h2] at h4
  rw [h1] at h5
  cases h4
  cases h5
  rw [h1, h2, le_antisymm h3 h6]

theorem earliestCheckIn_fresh (r : AttendanceRecord) : earliestCheckIn (freshStatus r) := by
  refine ⟨?_, ?_⟩
  · simp [freshStatus]
  · intro c hc
    simp [freshStatus] at hc

theorem latestCheckOut_fresh (r : AttendanceRecord) : latestCheckOut (freshStatus r) := by
  refine ⟨?_, ?_⟩
  · simp [freshStatus]
  · intro c hc
    simp [freshStatus] at hc

theorem earliestCheckIn_recordInto (r : AttendanceRecord) (s : StudentStatus)
    (h : earliestCheckIn s) : earliestCheckIn (recordInto r s) := by
  obtain ⟨hnone, hsome⟩ := h
  unfold earliestCheckIn
  rw [recordInto_records]
  by_cases hstatus : r.status = "입실"
  · rw [recordInto_checkIn r s hstatus]
    cases hc : s.checkIn with
    | none =>
      have hno : ∀ x ∈ s.records, x.status ≠ "입실" := hnone.mp hc
      refine ⟨?_, ?_⟩
      · simp only [reduceCtorEq, false_iff, not_forall]
        exact ⟨r, List.mem_append_right _ (List.mem_singleton_self r), fun hne => hne hstatus⟩
      · intro c hcr
        simp only [Option.some.injEq] at hcr
        subst hcr
        refine ⟨List.mem_append_right _ (List.mem_singleton_self _), hstatus, ?_⟩
        intro hvalid x hx hxs
        rcases List.mem_append.mp hx with hx | hx
        · exact absurd hxs (hno x hx)
        · rw [List.eq_of_mem_singleton hx]
          exact notLater_refl _
            (hvalid _ (List.mem_append_right _ (List.mem_singleton_self _)))
    | some current =>
      obtain ⟨hcur, hcurStatus, hmin⟩ := hsome current hc
      simp only
      by_cases hlt : dateLt r.timestamp current.timestamp = true
      · rw [if_pos hlt]
        refine ⟨?_, ?_⟩
        · simp only [reduceCtorEq, false_iff, not_forall]
          exact ⟨r, List.mem_append_right _ (List.mem_singleton_self r), fun hne => hne hstatus⟩
        · intro c hcr
          simp only [Option.some.injEq] at hcr
          subst hcr
          refine ⟨List.mem_append_right _ (List.mem_singleton_self _), hstatus, ?_⟩
          intro hvalid x hx hxs
          rcases List.mem_append.mp hx with hx | hx
          · exact notLater_trans _ _ _ (notLater_of_dateLt _ _ hlt)
              (hmin (fun y hy => hvalid y (List.mem_append_left _ hy)) x hx hxs)
          · rw [List.eq_of_mem_singleton hx]
            exact notLater_refl _
              (hvalid _ (List.mem_append_right _ (List.mem_singleton_self _)))
      · rw [if_neg hlt]
        refine ⟨?_, ?_⟩
        · simp only [reduceCtorEq, false_iff, not_forall]
          exact ⟨r, List.mem_append_right _ (List.mem_singleton_self r), fun hne => hne hstatus⟩
        · intro c hcr
          simp only [Option.some.injEq] at hcr
          subst hcr
          refine ⟨List.mem_append_left _ hcur, hcurStatus, ?_⟩
          intro hvalid x hx hxs
          rcases List.mem_append.mp hx with hx | hx
          · exact hmin (fun y hy => hvalid y (List.mem_append_left _ hy)) x hx hxs
          · rw [List.eq_of_mem_singleton hx]
            exact notLater_of_not_dateLt _ _
              (hvalid _ (List.mem_append_right _ (List.mem_singleton_self _)))
              (hvalid _ (List.mem_append_left _ hcur)) hlt
  · rw [recordInto_checkIn_of_ne r s hstatus]
    refine ⟨?_, ?_⟩
    · rw [hnone]
      constructor
      · intro hno x hx
        rcases List.mem_append.mp hx with hx | hx
        · exact hno x hx
        · rw [List.eq_of_mem_singleton hx]
          exact hstatus
      · intro hno x hx
        exact hno x (List.mem_append_left _ hx)
    · intro c hc
      obtain ⟨hcur, hcurStatus, hmin⟩ := hsome c hc
      refine ⟨List.mem_append_left _ hcur, hcurStatus, ?_⟩
      intro hvalid x hx hxs
      rcases List.mem_append.mp hx with hx | hx
      · exact hmin (fun y hy => hvalid y (List.mem_append_left _ hy)) x hx hxs
      · rw [List.eq_of_mem_singleton hx] at hxs
        exact absurd hxs hstatus

theorem latestCheckOut_recordInto (r : AttendanceRecord) (s : StudentStatus)
    (h : latestCheckOut s) : latestCheckOut (recordInto r s) := by
  obtain ⟨hnone, hsome⟩ := h
  unfold latestCheckOut
  rw [recordInto_records]
  by_cases hstatus : r.status = "퇴실"
  · rw [recordInto_checkOut r s hstatus]
    cases hc : s.checkOut with
    | none =>
      have hno : ∀ x ∈ s.records, x.status ≠ "퇴실" := hnone.mp hc
      refine ⟨?_, ?_⟩
      · simp only [reduceCtorEq, false_iff, not_forall]
        exact ⟨r, List.mem_append_right _ (List.mem_singleton_self r), fun hne => hne hstatus⟩
      · intro c hcr
        simp only [Option.some.injEq] at hcr
        subst hcr
        refine ⟨List.mem_append_right _ (List.mem_singleton_self _), hstatus, ?_⟩
        intro hvalid x hx hxs
        rcases List.mem_append.mp hx with hx | hx
        · exact absurd hxs (hno x hx)
        · rw [List.eq_of_mem_singleton hx]
          exact notLater_refl _
            (hvalid _ (List.mem_append_right _ (List.mem_singleton_self _)))
    | some current =>
      obtain ⟨hcur, hcurStatus, hmax⟩ := hsome current hc
      simp only
      by_cases hlt : dateLt current.timestamp r.timestamp = true
      · rw [if_pos hlt]
        refine ⟨?_, ?_⟩
        · simp only [reduceCtorEq, false_iff, not_forall]
          exact ⟨r, List.mem_append_right _ (List.mem_singleton_self r), fun hne => hne hstatus⟩
        · intro c hcr
          simp only [Option.some.injEq] at hcr
          subst hcr
          refine ⟨List.mem_append_right _ (List.mem_singleton_self _), hstatus, ?_⟩
          intro hvalid x hx hxs
          rcases List.mem_append.mp hx with hx | hx
          · exact notLater_trans _ _ _
              (hmax (fun y hy => hvalid y (List.mem_append_left _ hy)) x hx hxs)
              (notLater_of_dateLt _ _ hlt)
          · rw [List.eq_of_mem_singleton hx]
            exact notLater_refl _
              (hvalid _ (List.mem_append_right _ (List.mem_singleton_self _)))
      · rw [if_neg hlt]
        refine ⟨?_, ?_⟩
        · simp only [reduceCtorEq, false_iff, not_forall]
          exact ⟨r, List.mem_append_right _ (List.mem_singleton_self r), fun hne => hne hstatus⟩
        · intro c hcr
          simp only [Option.some.injEq] at hcr
          subst hcr
          refine ⟨List.mem_append_left _ hcur, hcurStatus, ?_⟩
          intro hvalid x hx hxs
          rcases List.mem_append.mp hx with hx | hx
          · exact hmax (fun y hy => hvalid y (List.mem_append_left _ hy)) x hx hxs
          · rw [List.eq_of_mem_singleton hx]
            exact notLater_of_not_dateLt _ _
              (hvalid _ (List.mem_append_left _ hcur))
              (hvalid _ (List.mem_append_right _ (List.mem_singleton_self _))) hlt
  · rw [recordInto_checkOut_of_ne r s hstatus]
    refine ⟨?_, ?_⟩
    · rw [hnone]
      constructor
      · intro hno x hx
        rcases List.mem_append.mp hx with hx | hx
        · exact hno x hx
        · rw [List.eq_of_mem_singleton hx]
          exact hstatus
      · intro hno x hx
        exact hno x (List.mem_append_left _ hx)
    · intro c hc
      obtain ⟨hcur, hcurStatus, hmax⟩ := hsome c hc
      refine ⟨List.mem_append_left _ hcur, hcurStatus, ?_⟩
      intro hvalid x hx hxs
      rcases List.mem_append.mp hx with hx | hx
      · exact hmax (fun y hy => hvalid y (List.mem_append_left _ hy)) x hx hxs
      · rw [List.eq_of_mem_singleton hx] at hxs
        exact absurd hxs hstatus

/-- Every entry of `studentData` is the status of its key: it carries the key as
`studentId`, the events of that student in input order as `records`, and sound
`checkIn` and `checkOut`. -/
theorem studentData_entry (events : List AttendanceRecord) :
    ∀ k s, (k, s) ∈ studentData events →
      s.studentId = k ∧ s.records = events.filter (fun r => decide (r.studentId = k)) ∧
        earliestCheckIn s ∧ latestCheckOut s := by
  rw [studentData_eq_collect]
  apply collect_invariant (fun r => r.studentId) freshStatus recordInto
    (fun l k s => s.studentId = k ∧ s.records = l.filter (fun r => decide (r.studentId = k)) ∧
      earliestCheckIn s ∧ latestCheckOut s)
  · intro l r hnot
    refine ⟨?_, ?_, ?_, ?_⟩
    · rw [recordInto_studentId]
      rfl
    · rw [recordInto_records, List.filter_append]
      have hnil : l.filter (fun x => decide (x.studentId = r.studentId)) = [] := by
        rw [List.filter_eq_nil_iff]
        intro x hx hc
        exact hnot (List.mem_map.mpr ⟨x, hx, by simpa using hc⟩)
      rw [hnil]
      simp [freshStatus]
    · exact earliestCheckIn_recordInto r _ (earliestCheckIn_fresh r)
    · exact latestCheckOut_recordInto r _ (latestCheckOut_fresh r)
  · intro l r s ⟨hid, hrecords, hin, hout⟩
    refine ⟨?_, ?_, earliestCheckIn_recordInto r s hin, latestCheckOut_recordInto r s hout⟩
    · rw [recordInto_studentId]
      exact hid
    · rw [recordInto_records, List.filter_append, hrecords]
      simp
  · intro l r k s hk ⟨hid, hrecords, hin, hout⟩
    refine ⟨hid, ?_, hin, hout⟩
    rw [List.filter_append, hrecords]
    have hne : ¬ r.studentId = k := fun hc => hk hc.symm
    simp [hne]

theorem mem_students (events : List AttendanceRecord) (s : StudentStatus) :
    s ∈ (dayStats events).students ↔ ∃ k, (k, s) ∈ studentData events := by
  simp only [dayStats]
  exact mem_objectValues _ s

theorem students_perm (events : List AttendanceRecord) :
    (dayStats events).students.Perm ((studentData events).map fun entry => entry.2) :=
  objectValues_perm _

theorem studentIds_perm (events : List AttendanceRecord) :
    ((dayStats events).students.map fun s => s.studentId).Perm
      ((studentData events).map fun entry => entry.1) := by
  refine ((students_perm events).map _).trans ?_
  rw [List.map_map]
  apply List.Perm.of_eq
  apply List.map_congr_left
  intro entry hentry
  exact (studentData_entry events entry.1 entry.2 hentry).1

theorem nodup_studentIds (events : List AttendanceRecord) :
    ((dayStats events).students.map fun s => s.studentId).Nodup :=
  (studentIds_perm events).nodup_iff.mpr
    (nodup_keys_collect (fun r : AttendanceRecord => r.studentId) freshStatus recordInto
      events)

theorem mem_studentIds (events : List AttendanceRecord) (k : String) :
    k ∈ (dayStats events).students.map (fun s => s.studentId) ↔
      k ∈ events.map fun r => r.studentId := by
  rw [(studentIds_perm events).mem_iff]
  exact mem_keys_collect (fun r : AttendanceRecord => r.studentId) freshStatus recordInto
    events k

theorem student_sound (events : List AttendanceRecord) (s : StudentStatus)
    (h : s ∈ (dayStats events).students) :
    s.records = events.filter (fun r => decide (r.studentId = s.studentId)) ∧
      earliestCheckIn s ∧ latestCheckOut s := by
  obtain ⟨k, hk⟩ := (mem_students events s).mp h
  obtain ⟨hid, hrecords, hin, hout⟩ := studentData_entry events k s hk
  rw [hid]
  exact ⟨hrecords, hin, hout⟩

theorem mem_checkInsOf (k : String) (events : List AttendanceRecord) (r : AttendanceRecord) :
    r ∈ checkInsOf k events ↔ r ∈ events ∧ r.studentId = k ∧ r.status = "입실" := by
  simp [checkInsOf]

theorem mem_checkOutsOf (k : String) (events : List AttendanceRecord) (r : AttendanceRecord) :
    r ∈ checkOutsOf k events ↔ r ∈ events ∧ r.studentId = k ∧ r.status = "퇴실" := by
  simp [checkOutsOf]

theorem mem_records (events : List AttendanceRecord) (s : StudentStatus)
    (h : s ∈ (dayStats events).students) (r : AttendanceRecord) :
    r ∈ s.records ↔ r ∈ events ∧ r.studentId = s.studentId := by
  rw [(student_sound events s h).1]
  simp

theorem checkIn_eq_none_iff (events : List AttendanceRecord) (s : StudentStatus)
    (h : s ∈ (dayStats events).students) :
    s.checkIn = none ↔ checkInsOf s.studentId events = [] := by
  rw [(student_sound events s h).2.1.1, List.eq_nil_iff_forall_not_mem]
  constructor
  · intro hno r hr
    obtain ⟨hmem, hid, hstatus⟩ := (mem_checkInsOf _ _ r).mp hr
    exact hno r ((mem_records events s h r).mpr ⟨hmem, hid⟩) hstatus
  · intro hno r hr hstatus
    obtain ⟨hmem, hid⟩ := (mem_records events s h r).mp hr
    exact hno r ((mem_checkInsOf _ _ r).mpr ⟨hmem, hid, hstatus⟩)

theorem checkOut_eq_none_iff (events : List AttendanceRecord) (s : StudentStatus)
    (h : s ∈ (dayStats events).students) :
    s.checkOut = none ↔ checkOutsOf s.studentId events = [] := by
  rw [(student_sound events s h).2.2.1, List.eq_nil_iff_forall_not_mem]
  constructor
  · intro hno r hr
    obtain ⟨hmem, hid, hstatus⟩ := (mem_checkOutsOf _ _ r).mp hr
    exact hno r ((mem_records events s h r).mpr ⟨hmem, hid⟩) hstatus
  · intro hno r hr hstatus
    obtain ⟨hmem, hid⟩ := (mem_records events s h r).mp hr
    exact hno r ((mem_checkOutsOf _ _ r).mpr ⟨hmem, hid, hstatus⟩)

theorem checkIn_earliest (events : List AttendanceRecord)
    (hvalid : ∀ r ∈ events, r.timestamp ≠ none) (s : StudentStatus)
    (h : s ∈ (dayStats events).students) (c : AttendanceRecord) (hc : s.checkIn = some c) :
    c ∈ checkInsOf s.studentId events ∧ ∀ r ∈ checkInsOf s.studentId events, notLater c r := by
  obtain ⟨hmem, hstatus, hmin⟩ := (student_sound events s h).2.1.2 c hc
  have hrecords : ∀ r ∈ s.records, r.timestamp ≠ none := fun r hr =>
    hvalid r ((mem_records events s h r).mp hr).1
  obtain ⟨hin, hid⟩ := (mem_records events s h c).mp hmem
  refine ⟨(mem_checkInsOf _ _ c).mpr ⟨hin, hid, hstatus⟩, ?_⟩
  intro r hr
  obtain ⟨hrin, hrid, hrstatus⟩ := (mem_checkInsOf _ _ r).mp hr
  exact hmin hrecords r ((mem_records events s h r).mpr ⟨hrin, hrid⟩) hrstatus

theorem checkOut_latest (events : List AttendanceRecord)
    (hvalid : ∀ r ∈ events, r.timestamp ≠ none) (s : StudentStatus)
    (h : s ∈ (dayStats events).students) (c : AttendanceRecord) (hc : s.checkOut = some c) :
    c ∈ checkOutsOf s.studentId events ∧
      ∀ r ∈ checkOutsOf s.studentId events, notLater r c := by
  obtain ⟨hmem, hstatus, hmax⟩ := (student_sound events s h).2.2.2 c hc
  have hrecords : ∀ r ∈ s.records, r.timestamp ≠ none := fun r hr =>
    hvalid r ((mem_records events s h r).mp hr).1
  obtain ⟨hin, hid⟩ := (mem_records events s h c).mp hmem
  refine ⟨(mem_checkOutsOf _ _ c).mpr ⟨hin, hid, hstatus⟩, ?_⟩
  intro r hr
  obtain ⟨hrin, hrid, hrstatus⟩ := (mem_checkOutsOf _ _ r).mp hr
  exact hmax hrecords r ((mem_records events s h r).mpr ⟨hrin, hrid⟩) hrstatus

theorem valid_of_recordDate (events : List AttendanceRecord) (day : String)
    (hday : ∀ r ∈ events, recordDate r = some day) : ∀ r ∈ events, r.timestamp ≠ none := by
  intro r hr hnone
  have h := hday r hr
  simp [recordDate, hnone] at h

theorem checkIn_instant_of_perm (events events' : List AttendanceRecord)
    (hvalid : ∀ r ∈ events, r.timestamp ≠ none) (hperm : events.Perm events')
    (s s' : StudentStatus) (h : s ∈ (dayStats events).students)
    (h' : s' ∈ (dayStats events').students) (hid : s'.studentId = s.studentId) :
    (s'.checkIn.bind fun c => c.timestamp) = s.checkIn.bind fun c => c.timestamp := by
  have hvalid' : ∀ r ∈ events', r.timestamp ≠ none := fun r hr =>
    hvalid r (hperm.mem_iff.mpr hr)
  have hsame : ∀ r, r ∈ checkInsOf s'.studentId events' ↔ r ∈ checkInsOf s.studentId events := by
    intro r
    rw [mem_checkInsOf, mem_checkInsOf, hid, hperm.mem_iff]
  cases hc : s.checkIn with
  | none =>
    cases hc' : s'.checkIn with
    | none => rfl
    | some c' =>
      have hmem := (checkIn_earliest events' hvalid' s' h' c' hc').1
      rw [hsame, (checkIn_eq_none_iff events s h).mp hc] at hmem
      simp at hmem
  | some c =>
    cases hc' : s'.checkIn with
    | none =>
      have hmem := (checkIn_earliest events hvalid s h c hc).1
      rw [← hsame, (checkIn_eq_none_iff events' s' h').mp hc'] at hmem
      simp at hmem
    | some c' =>
      obtain ⟨hmem, hmin⟩ := checkIn_earliest events hvalid s h c hc
      obtain ⟨hmem', hmin'⟩ := checkIn_earliest events' hvalid' s' h' c' hc'
      exact notLater_antisymm c' c (hmin' c ((hsame c).mpr hmem)) (hmin c' ((hsame c').mp hmem'))

theorem checkOut_instant_of_perm (events events' : List AttendanceRecord)
    (hvalid : ∀ r ∈ events, r.timestamp ≠ none) (hperm : events.Perm events')
    (s s' : StudentStatus) (h : s ∈ (dayStats events).students)
    (h' : s' ∈ (dayStats events').students) (hid : s'.studentId = s.studentId) :
    (s'.checkOut.bind fun c => c.timestamp) = s.checkOut.bind fun c => c.timestamp := by
  have hvalid' : ∀ r ∈ events', r.timestamp ≠ none := fun r hr =>
    hvalid r (hperm.mem_iff.mpr hr)
  have hsame : ∀ r, r ∈ checkOutsOf s'.studentId events' ↔
      r ∈ checkOutsOf s.studentId events := by
    intro r
    rw [mem_checkOutsOf, mem_checkOutsOf, hid, hperm.mem_iff]
  cases hc : s.checkOut with
  | none =>
    cases hc' : s'.checkOut with
    | none => rfl
    | some c' =>
      have hmem := (checkOut_latest events' hvalid' s' h' c' hc').1
      rw [hsame, (checkOut_eq_none_iff events s h).mp hc] at hmem
      simp at hmem
  | some c =>
    cases hc' : s'.checkOut with
    | none =>
      have hmem := (checkOut_latest events hvalid s h c hc).1
      rw [← hsame, (checkOut_eq_none_iff events' s' h').mp hc'] at hmem
      simp at hmem
    | some c' =>
      obtain ⟨hmem, hmax⟩ := checkOut_latest events hvalid s h c hc
      obtain ⟨hmem', hmax'⟩ := checkOut_latest events' hvalid' s' h' c' hc'
      exact notLater_antisymm c' c (hmax c' ((hsame c').mp hmem')) (hmax' c ((hsame c).mpr hmem))

/-! ## Aggregator: claims -/

/-- C12: for every list of one day's events, every student with an event has a
status; its `checkIn` is null exactly when the student has no check-in event and
is otherwise a check-in event of the student that none of the student's check-in
events precedes; its `checkOut` is null exactly when the student has no check-out
event and is otherwise a check-out event of the student that none of the
student's check-out events follows; and for the same events in any other order
the status of the student has the same check-in and check-out instants. -/
theorem dayStats_earliest_latest (events events' : List AttendanceRecord) (day : String)
    (hday : ∀ r ∈ events, recordDate r = some day) (hperm : events.Perm events') :
    (∀ r ∈ events, ∃ s ∈ (dayStats events).students, s.studentId = r.studentId) ∧
    ∀ s ∈ (dayStats events).students,
      (s.checkIn = none ↔ checkInsOf s.studentId events = []) ∧
      (∀ c, s.checkIn = some c → c ∈ checkInsOf s.studentId events ∧
        ∀ r ∈ checkInsOf s.studentId events, notLater c r) ∧
      (s.checkOut = none ↔ checkOutsOf s.studentId events = []) ∧
      (∀ c, s.checkOut = some c → c ∈ checkOutsOf s.studentId events ∧
        ∀ r ∈ checkOutsOf s.studentId events, notLater r c) ∧
      ∃ s' ∈ (dayStats events').students, s'.studentId = s.studentId ∧
        (s'.checkIn.bind fun c => c.timestamp) = (s.checkIn.bind fun c => c.timestamp) ∧
        (s'.checkOut.bind fun c => c.timestamp) = (s.checkOut.bind fun c => c.timestamp) := by
  have hvalid := valid_of_recordDate events day hday
  have hstatus : ∀ (l : List AttendanceRecord) (k : String), k ∈ l.map (fun r => r.studentId) →
      ∃ s ∈ (dayStats l).students, s.studentId = k := by
    intro l k hk
    obtain ⟨s, hs, hid⟩ := List.mem_map.mp ((mem_studentIds l k).mpr hk)
    exact ⟨s, hs, hid⟩
  refine ⟨fun r hr => hstatus events _ (List.mem_map_of_mem _ hr), ?_⟩
  intro s hs
  refine ⟨checkIn_eq_none_iff events s hs, checkIn_earliest events hvalid s hs,
    checkOut_eq_none_iff events s hs, checkOut_latest events hvalid s hs, ?_⟩
  have hk : s.studentId ∈ events'.map fun r => r.studentId := by
    rw [← (hperm.map _).mem_iff, ← mem_studentIds]
    exact List.mem_map_of_mem _ hs
  obtain ⟨s', hs', hid⟩ := hstatus events' _ hk
  exact ⟨s', hs', hid, checkIn_instant_of_perm events events' hvalid hperm s s' hs hs' hid,
    checkOut_instant_of_perm events events' hvalid hperm s s' hs hs' hid⟩

/-- Witness of C12: one day of four events, in input order and reversed. -/
theorem dayStats_earliest_latest_witness :
    (∀ r ∈ sampleDay, ∃ s ∈ (dayStats sampleDay).students, s.studentId = r.studentId) ∧
    ∀ s ∈ (dayStats sampleDay).students,
      (s.checkIn = none ↔ checkInsOf s.studentId sampleDay = []) ∧
      (∀ c, s.checkIn = some c → c ∈ checkInsOf s.studentId sampleDay ∧
        ∀ r ∈ checkInsOf s.studentId sampleDay, notLater c r) ∧
      (s.checkOut = none ↔ checkOutsOf s.studentId sampleDay = []) ∧
      (∀ c, s.checkOut = some c → c ∈ checkOutsOf s.studentId sampleDay ∧
        ∀ r ∈ checkOutsOf s.studentId sampleDay, notLater r c) ∧
      ∃ s' ∈ (dayStats sampleDay.reverse).students, s'.studentId = s.studentId ∧
        (s'.checkIn.bind fun c => c.timestamp) = (s.checkIn.bind fun c => c.timestamp) ∧
        (s'.checkOut.bind fun c => c.timestamp) = (s.checkOut.bind fun c => c.timestamp) :=
  dayStats_earliest_latest sampleDay sampleDay.reverse "2024-01-14" (by decide)
    (List.reverse_perm sampleDay).symm

/-- C13: for every list of events `getTodayStats` yields exactly one status per
distinct studentId of the events, whose `records` are the events of that student
in input order; for the events [check-in 07:00 for S1, check-out 07:40 for S1] it
yields one status, for S1, with that check-in and that check-out, counted as
completed. -/
theorem dayStats_grouping (events : List AttendanceRecord) :
    ((dayStats events).students.map fun s => s.studentId).Nodup ∧
    (∀ k, k ∈ (dayStats events).students.map (fun s => s.studentId) ↔
      k ∈ events.map fun r => r.studentId) ∧
    (∀ s ∈ (dayStats events).students,
      s.records = events.filter fun r => decide (r.studentId = s.studentId)) ∧
    (dayStats [checkInAt0700, checkOutAt0740]).students =
      [{ studentId := "S1", studentName := "Park", checkIn := some checkInAt0700,
         checkOut := some checkOutAt0740, records := [checkInAt0700, checkOutAt0740] }] ∧
    (dayStats [checkInAt0700, checkOutAt0740]).total = 1 ∧
    (dayStats [checkInAt0700, checkOutAt0740]).completed = 1 ∧
    (dayStats [checkInAt0700, checkOutAt0740]).ongoing = 0 ∧
    (dayStats [checkInAt0700, checkOutAt0740]).missing = 0 :=
  ⟨nodup_studentIds events, mem_studentIds events,
    fun s hs => (student_sound events s hs).1, by decide, by decide, by decide, by decide,
    by decide⟩

theorem length_filter_three {α : Type} (p q : α → Bool) (l : List α) :
    l.length = (l.filter fun x => p x && q x).length + (l.filter fun x => p x && !q x).length +
      (l.filter fun x => !p x).length := by
  induction l with
  | nil => rfl
  | cons a rest ih =>
    simp only [List.filter_cons, List.length_cons]
    cases hp : p a <;> cases hq : q a <;> simp <;> omega

/-- C14: for every list of events the counts of `getTodayStats` classify each
status once: `missing` counts the statuses whose student has no check-in event,
`ongoing` those with a check-in event and no check-out event, `completed` those
with both; `total` is their sum and the number of distinct studentIds. -/
theorem dayStats_classification (events : List AttendanceRecord) :
    (dayStats events).total =
      (dayStats events).completed + (dayStats events).ongoing + (dayStats events).missing ∧
    (dayStats events).total = (events.map fun r => r.studentId).dedup.length ∧
    (dayStats events).missing = ((dayStats events).students.filter fun s =>
      decide (checkInsOf s.studentId events = [])).length ∧
    (dayStats events).ongoing = ((dayStats events).students.filter fun s =>
      decide (checkInsOf s.studentId events ≠ []) &&
        decide (checkOutsOf s.studentId events = [])).length ∧
    (dayStats events).completed = ((dayStats events).students.filter fun s =>
      decide (checkInsOf s.studentId events ≠ []) &&
        decide (checkOutsOf s.studentId events ≠ [])).length := by
  have hin : ∀ s ∈ (dayStats events).students,
      s.checkIn.isSome = decide (checkInsOf s.studentId events ≠ []) := by
    intro s hs
    have h := checkIn_eq_none_iff events s hs
    cases hc : s.checkIn with
    | none => simp [h.mp hc]
    | some c =>
      have hne : checkInsOf s.studentId events ≠ [] := fun hnil => by
        rw [h.mpr hnil] at hc
        exact absurd hc (by simp)
      simp [hne]
  have hout : ∀ s ∈ (dayStats events).students,
      s.checkOut.isSome = decide (checkOutsOf s.studentId events ≠ []) := by
    intro s hs
    have h := checkOut_eq_none_iff events s hs
    cases hc : s.checkOut with
    | none => simp [h.mp hc]
    | some c =>
      have hne : checkOutsOf s.studentId events ≠ [] := fun hnil => by
        rw [h.mpr hnil] at hc
        exact absurd hc (by simp)
      simp [hne]
  refine ⟨?_, ?_, ?_, ?_, ?_⟩
  · exact length_filter_three (fun s : StudentStatus => s.checkIn.isSome)
      (fun s => s.checkOut.isSome) (dayStats events).students
  · have hperm : ((dayStats events).students.map fun s => s.studentId).Perm
        (events.map fun r => r.studentId).dedup := by
      rw [List.perm_ext_iff_of_nodup (nodup_studentIds events) (List.nodup_dedup _)]
      intro k
      rw [mem_studentIds, List.mem_dedup]
    have hlen := hperm.length_eq
    rw [List.length_map] at hlen
    exact hlen
  · show ((dayStats events).students.filter fun s => !s.checkIn.isSome).length = _
    congr 1
    apply List.filter_congr
    intro s hs
    rw [hin s hs]
    by_cases h : checkInsOf s.studentId events = [] <;> simp [h]
  · show ((dayStats events).students.filter fun s =>
      s.checkIn.isSome && !s.checkOut.isSome).length = _
    congr 1
    apply List.filter_congr
    intro s hs
    rw [hin s hs, hout s hs]
    by_cases h : checkOutsOf s.studentId events = [] <;> simp [h]
  · show ((dayStats events).students.filter fun s =>
      s.checkIn.isSome && s.checkOut.isSome).length = _
    congr 1
    apply List.filter_congr
    intro s hs
    rw [hin s hs, hout s hs]

/-! ## Numbers: lemmas -/

theorem roundHalfEven_bounds (n d : Nat) (hd : 0 < d) :
    2 * (roundHalfEven n d * d) ≤ 2 * n + d ∧ 2 * n ≤ 2 * (roundHalfEven n d * d) + d := by
  have hdiv : d * (n / d) + n % d = n := Nat.div_add_mod n d
  have hmod : n % d < d := Nat.mod_lt n hd
  have hmul : (n / d + 1) * d = d * (n / d) + d := by ring
  have hcomm : n / d * d = d * (n / d) := Nat.mul_comm _ _
  unfold roundHalfEven
  simp only
  split_ifs
  · rw [hcomm]
    omega
  · rw [hmul]
    omega
  · rw [hcomm]
    omega
  · rw [hmul]
    omega

theorem scaleFor_spec (n d : Nat) :
    ∀ fuel e, 2 ^ 52 * d ≤ n * 2 ^ (e + fuel) → 2 ^ 52 * d ≤ n * 2 ^ scaleFor fuel n d e := by
  intro fuel
  induction fuel with
  | zero =>
    intro e h
    simpa [scaleFor] using h
  | succ fuel ih =>
    intro e h
    unfold scaleFor
    split
    · assumption
    · apply ih
      rw [show e + 1 + fuel = e + (fuel + 1) by omega]
      exact h

theorem scaleFor_ge (n d : Nat) (hd : 0 < d) (hnd : n ≤ d) :
    ∀ fuel e, 52 ≤ e + fuel → 52 ≤ scaleFor fuel n d e := by
  intro fuel
  induction fuel with
  | zero =>
    intro e h
    simpa [scaleFor] using h
  | succ fuel ih =>
    intro e h
    unfold scaleFor
    split
    · next hcheck =>
      by_contra hlt
      have hpow : 2 ^ e < 2 ^ 52 := Nat.pow_lt_pow_right (by decide) (by omega)
      have h1 : n * 2 ^ e ≤ d * 2 ^ e := Nat.mul_le_mul_right _ hnd
      have h2 : d * 2 ^ e < d * 2 ^ 52 := Nat.mul_lt_mul_of_pos_left hpow hd
      have h3 : 2 ^ 52 * d = d * 2 ^ 52 := Nat.mul_comm _ _
      omega
    · apply ih
      omega

theorem shiftFor_spec (n : Nat) :
    ∀ fuel s, (s = 0 ∨ 2 ^ 52 * 2 ^ s ≤ n) →
      (shiftFor fuel n s = 0 ∨ 2 ^ 52 * 2 ^ shiftFor fuel n s ≤ n) := by
  intro fuel
  induction fuel with
  | zero =>
    intro s h
    simpa [shiftFor] using h
  | succ fuel ih =>
    intro s h
    unfold shiftFor
    split
    · exact h
    · next hcheck =>
      apply ih
      right
      have hpow : 2 ^ 52 * 2 ^ (s + 1) = 2 ^ 53 * 2 ^ s := by ring
      omega

/-- The arithmetic behind `Math.round((c / t) * 100)`: with a quotient rounded to
53 bits (`m₁ / E`), a product rounded to 53 bits (`M / E`) and the final rounding
`r`, the integer `r` is within one half of `100 * c / t` when `t` is below
`2 ^ 32`. -/
theorem nearest_of_roundings (c t E m₁ S M r : Nat) (ht : 0 < t) (ht32 : t < 4294967296)
    (hct : c ≤ t) (hE : 0 < E) (L : 4503599627370496 * t ≤ c * E)
    (R1a : 2 * (m₁ * t) ≤ 2 * (c * E) + t) (R1b : 2 * (c * E) ≤ 2 * (m₁ * t) + t)
    (R2a : 2 * M ≤ 2 * (m₁ * 100) + S) (R2b : 2 * (m₁ * 100) ≤ 2 * M + S)
    (hS : S = 1 ∨ 4503599627370496 * S ≤ m₁ * 100)
    (R3a : 2 * E * r ≤ 2 * M + E) (R3b : 2 * M + E < 2 * E * (r + 1)) :
    2 * (r * t) ≤ 200 * c + t ∧ 200 * c ≤ 2 * (r * t) + t := by
  have hcE : c * E ≤ t * E := Nat.mul_le_mul_right _ hct
  have htE : t * E < 4294967296 * E := Nat.mul_lt_mul_of_pos_right ht32 hE
  have hSt : 4503599627370496 * (S * t) ≤ 4503599627370496 * t + 100 * (m₁ * t) := by
    rcases hS with h | h
    · subst h
      omega
    · have h1 := Nat.mul_le_mul_right t h
      have e1 : 4503599627370496 * S * t = 4503599627370496 * (S * t) := by ring
      have e2 : m₁ * 100 * t = 100 * (m₁ * t) := by ring
      rw [e1, e2] at h1
      omega
  have h3a : 2 * (E * (r * t)) ≤ 2 * (M * t) + t * E := by
    have h1 := Nat.mul_le_mul_right t R3a
    have e1 : 2 * E * r * t = 2 * (E * (r * t)) := by ring
    have e2 : (2 * M + E) * t = 2 * (M * t) + t * E := by ring
    rw [e1, e2] at h1
    exact h1
  have h3b : 2 * (M * t) + t * E < 2 * (E * (r * t)) + 2 * (t * E) := by
    have h1 := Nat.mul_lt_mul_of_pos_right R3b ht
    have e1 : 2 * E * (r + 1) * t = 2 * (E * (r * t)) + 2 * (t * E) := by ring
    have e2 : (2 * M + E) * t = 2 * (M * t) + t * E := by ring
    rw [e1, e2] at h1
    exact h1
  have h2a : 2 * (M * t) ≤ 200 * (m₁ * t) + S * t := by
    have h1 := Nat.mul_le_mul_right t R2a
    have e1 : 2 * M * t = 2 * (M * t) := by ring
    have e2 : (2 * (m₁ * 100) + S) * t = 200 * (m₁ * t) + S * t := by ring
    rw [e1, e2] at h1
    exact h1
  have h2b : 200 * (m₁ * t) ≤ 2 * (M * t) + S * t := by
    have h1 := Nat.mul_le_mul_right t R2b
    have e1 : 2 * (m₁ * 100) * t = 200 * (m₁ * t) := by ring
    have e2 : (2 * M + S) * t = 2 * (M * t) + S * t := by ring
    rw [e1, e2] at h1
    exact h1
  constructor
  · by_contra hneg
    have hneg' : 200 * c + t + 1 ≤ 2 * (r * t) := by omega
    have h1 := Nat.mul_le_mul_left E hneg'
    have e1 : E * (200 * c + t + 1) = 200 * (c * E) + t * E + E := by ring
    have e2 : E * (2 * (r * t)) = 2 * (E * (r * t)) := by ring
    rw [e1, e2] at h1
    omega
  · by_contra hneg
    have hneg' : 2 * (r * t) + t + 1 ≤ 200 * c := by omega
    have h1 := Nat.mul_le_mul_left E hneg'
    have e1 : E * (200 * c) = 200 * (c * E) := by ring
    have e2 : E * (2 * (r * t) + t + 1) = 2 * (E * (r * t)) + t * E + E := by ring
    rw [e1, e2] at h1
    omega

/-- The same arithmetic without a bound on `t`: the rounded rate is at most 100. -/
theorem le_hundred_of_roundings (E m₁ S M r : Nat) (hE : 4503599627370496 ≤ E)
    (hm : m₁ ≤ E) (R2a : 2 * M ≤ 2 * (m₁ * 100) + S)
    (hS : S = 1 ∨ 4503599627370496 * S ≤ m₁ * 100)
    (R3a : 2 * E * r ≤ 2 * M + E) : r ≤ 100 := by
  by_contra hneg
  have hr : 101 ≤ r := by omega
  have h1 := Nat.mul_le_mul_left (2 * E) hr
  have e1 : 2 * E * 101 = 202 * E := by ring
  rw [e1] at h1
  rcases hS with h | h
  · subst h
    omega
  · omega

theorem completionRate_zero_total (c : Nat) : completionRate c 0 = 0 := by
  simp [completionRate]

theorem completionRate_zero_completed (t : Nat) : completionRate 0 t = 0 := by
  unfold completionRate
  split
  · have h : divDouble 0 t = { mantissa := 0, exponent := 0 } := by simp [divDouble]
    rw [h]
    decide
  · rfl

/-- The steps of `Math.round((c / t) * 100)` for positive `c` and `t`: the
exponent `e` and mantissa `m₁` of the quotient, the shift `s` and mantissa `m₂` of
the product, and the final rounding. -/
theorem completionRate_steps (c t : Nat) (hc : c ≠ 0) (ht : 0 < t) :
    ∃ e m₁ s m₂, e = scaleFor 106 c t 0 ∧ m₁ = roundHalfEven (c * 2 ^ e) t ∧
      s = shiftFor 64 (m₁ * 100) 0 ∧ m₂ = roundHalfEven (m₁ * 100) (2 ^ s) ∧
      completionRate c t = (2 * (m₂ * 2 ^ s) + 2 ^ e) / (2 * 2 ^ e) := by
  refine ⟨_, _, _, _, rfl, rfl, rfl, rfl, ?_⟩
  unfold completionRate
  rw [if_pos ht]
  unfold mathRound mulDouble divDouble
  simp only [hc, if_false]
  rw [Nat.pow_succ, Nat.mul_comm (2 ^ _) 2]

theorem completionRate_le (c t : Nat) (hct : c ≤ t) : completionRate c t ≤ 100 := by
  by_cases hc : c = 0
  · rw [hc, completionRate_zero_completed]
    exact Nat.zero_le _
  have ht : 0 < t := by omega
  obtain ⟨e, m₁, s, m₂, he, hm₁, hs, hm₂, hrate⟩ := completionRate_steps c t hc ht
  rw [hrate]
  have he52 : 52 ≤ e := he ▸ scaleFor_ge c t ht hct 106 0 (by decide)
  have hE : 2 ^ 52 ≤ 2 ^ e := Nat.pow_le_pow_right (by decide) he52
  have hSpos : 0 < 2 ^ s := Nat.pos_pow_of_pos _ (by decide)
  have hR1 := roundHalfEven_bounds (c * 2 ^ e) t ht
  have hR2 := roundHalfEven_bounds (m₁ * 100) (2 ^ s) hSpos
  rw [← hm₁] at hR1
  rw [← hm₂] at hR2
  have hm : m₁ ≤ 2 ^ e := by
    have h1 : c * 2 ^ e ≤ t * 2 ^ e := Nat.mul_le_mul_right _ hct
    by_contra hneg
    have h2 : 2 ^ e + 1 ≤ m₁ := by omega
    have h3 := Nat.mul_le_mul_right t h2
    rw [Nat.add_mul, Nat.one_mul, Nat.mul_comm (2 ^ e) t] at h3
    omega
  have hS : 2 ^ s = 1 ∨ 4503599627370496 * 2 ^ s ≤ m₁ * 100 := by
    rcases shiftFor_spec (m₁ * 100) 64 0 (Or.inl rfl) with h | h
    · left
      rw [← hs] at h
      rw [h]
      rfl
    · right
      rw [← hs] at h
      exact h
  have hdiv : 2 * 2 ^ e * ((2 * (m₂ * 2 ^ s) + 2 ^ e) / (2 * 2 ^ e)) ≤
      2 * (m₂ * 2 ^ s) + 2 ^ e := Nat.mul_div_le _ _
  exact le_hundred_of_roundings (2 ^ e) m₁ (2 ^ s) (m₂ * 2 ^ s) _ hE hm hR2.1 hS hdiv

theorem completionRate_nearest (c t : Nat) (ht : 0 < t) (hct : c ≤ t) (ht32 : t < 2 ^ 32) :
    2 * (completionRate c t * t) ≤ 200 * c + t ∧ 200 * c ≤ 2 * (completionRate c t * t) + t := by
  by_cases hc : c = 0
  · rw [hc, completionRate_zero_completed]
    omega
  obtain ⟨e, m₁, s, m₂, he, hm₁, hs, hm₂, hrate⟩ := completionRate_steps c t hc ht
  rw [hrate]
  have hEpos : 0 < 2 ^ e := Nat.pos_pow_of_pos _ (by decide)
  have hSpos : 0 < 2 ^ s := Nat.pos_pow_of_pos _ (by decide)
  have hR1 := roundHalfEven_bounds (c * 2 ^ e) t ht
  have hR2 := roundHalfEven_bounds (m₁ * 100) (2 ^ s) hSpos
  rw [← hm₁] at hR1
  rw [← hm₂] at hR2
  have hL : 4503599627370496 * t ≤ c * 2 ^ e := by
    rw [he]
    apply scaleFor_spec
    have h1 : 2 ^ 52 * t ≤ 2 ^ 52 * 2 ^ 32 := Nat.mul_le_mul_left _ (le_of_lt ht32)
    have h2 : (2 : Nat) ^ 52 * 2 ^ 32 ≤ 1 * 2 ^ (0 + 106) := by norm_num
    have h3 : 1 * 2 ^ (0 + 106) ≤ c * 2 ^ (0 + 106) := Nat.mul_le_mul_right _ (by omega)
    exact le_trans h1 (le_trans h2 h3)
  have hS : 2 ^ s = 1 ∨ 4503599627370496 * 2 ^ s ≤ m₁ * 100 := by
    rcases shiftFor_spec (m₁ * 100) 64 0 (Or.inl rfl) with h | h
    · left
      rw [← hs] at h
      rw [h]
      rfl
    · right
      rw [← hs] at h
      exact h
  have hdiv1 : 2 * 2 ^ e * ((2 * (m₂ * 2 ^ s) + 2 ^ e) / (2 * 2 ^ e)) ≤
      2 * (m₂ * 2 ^ s) + 2 ^ e := Nat.mul_div_le _ _
  have hdiv2 : 2 * (m₂ * 2 ^ s) + 2 ^ e <
      2 * 2 ^ e * ((2 * (m₂ * 2 ^ s) + 2 ^ e) / (2 * 2 ^ e) + 1) :=
    Nat.lt_mul_div_succ _ (by omega)
  exact nearest_of_roundings c t (2 ^ e) m₁ (2 ^ s) (m₂ * 2 ^ s) _ ht ht32 hct hEpos hL
    hR1.1 hR1.2 hR2.1 hR2.2 hS hdiv1 hdiv2

/-! ## Weekly reducer: lemmas -/

section MapValues

variable {σ τ : Type} (g : σ → τ)

theorem insertByIndex_map (a : String × σ) (l : List (String × σ)) :
    insertByIndex (a.1, g a.2) (l.map fun entry => (entry.1, g entry.2)) =
      (insertByIndex a l).map fun entry => (entry.1, g entry.2) := by
  induction l with
  | nil => rfl
  | cons b rest ih =>
    simp only [List.map_cons, insertByIndex]
    split
    · rfl
    · rw [ih]
      rfl

theorem sortByIndex_map (l : List (String × σ)) :
    sortByIndex (l.map fun entry => (entry.1, g entry.2)) =
      (sortByIndex l).map fun entry => (entry.1, g entry.2) := by
  induction l with
  | nil => rfl
  | cons a rest ih =>
    simp only [List.map_cons, sortByIndex]
    rw [ih, insertByIndex_map]

theorem orderedEntries_map (object : List (String × σ)) :
    orderedEntries (object.map fun entry => (entry.1, g entry.2)) =
      (orderedEntries object).map fun entry => (entry.1, g entry.2) := by
  unfold orderedEntries
  rw [List.filter_map, List.filter_map, sortByIndex_map, List.map_append]
  rfl

theorem objectValues_map (object : List (String × σ)) :
    objectValues (object.map fun entry => (entry.1, g entry.2)) =
      (objectValues object).map g := by
  unfold objectValues
  rw [orderedEntries_map, List.map_map, List.map_map]
  rfl

theorem objectKeys_map (object : List (String × σ)) :
    objectKeys (object.map fun entry => (entry.1, g entry.2)) = objectKeys object := by
  unfold objectKeys
  rw [orderedEntries_map, List.map_map]
  rfl

end MapValues

theorem flagsOf_recordInto (r : AttendanceRecord) (s : StudentStatus) :
    flagsOf (recordInto r s) = flagInto r (flagsOf s) := by
  rw [recordInto_eq]
  unfold flagsOf flagInto
  by_cases h1 : r.status = "입실"
  · cases hc : s.checkIn with
    | none => simp [h1]
    | some current =>
      by_cases hlt : dateLt r.timestamp current.timestamp = true <;> simp [h1, hlt]
  · by_cases h2 : r.status = "퇴실"
    · cases hc : s.checkOut with
      | none => simp [h1, h2]
      | some current =>
        by_cases hlt : dateLt current.timestamp r.timestamp = true <;> simp [h1, h2, hlt]
    · simp [h1, h2]

theorem weekStudents_eq_map (events : List AttendanceRecord) :
    weekStudents events = (studentData events).map fun entry => (entry.1, flagsOf entry.2) := by
  rw [weekStudents_eq_collect, studentData_eq_collect]
  exact collect_map (fun r : AttendanceRecord => r.studentId) freshStatus recordInto flagsOf
    (fun _ => { checkIn := false, checkOut := false }) flagInto
    (fun r => flagsOf_recordInto r (freshStatus r)) flagsOf_recordInto events

theorem dayStats_completed_le (events : List AttendanceRecord) :
    (dayStats events).completed ≤ (dayStats events).total :=
  List.length_filter_le _ _

theorem dayStats_total_le (events : List AttendanceRecord) :
    (dayStats events).total ≤ events.length := by
  show (objectValues (studentData events)).length ≤ events.length
  rw [length_objectValues, studentData_eq_collect]
  exact length_collect_le _ _ _ events

/-! ## Completion rate and weekly reducer: claims -/

/-- C15: for every list of events that fits a JavaScript array, the
`completionRate` of `getTodayStats` is 0 when `total` is 0 (the division is not
evaluated); when `total` is positive it is an integer nearest to
`completed / total * 100`, at most one half away from it; and it is at most 100. -/
theorem dayStats_completionRate (events : List AttendanceRecord)
    (hsize : events.length < 2 ^ 32) :
    ((dayStats events).total = 0 → (dayStats events).completionRate = 0) ∧
    (0 < (dayStats events).total →
      2 * ((dayStats events).completionRate * (dayStats events).total) ≤
          200 * (dayStats events).completed + (dayStats events).total ∧
        200 * (dayStats events).completed ≤
          2 * ((dayStats events).completionRate * (dayStats events).total) +
            (dayStats events).total) ∧
    (dayStats events).completionRate ≤ 100 := by
  have hrate : (dayStats events).completionRate =
      completionRate (dayStats events).completed (dayStats events).total := rfl
  refine ⟨?_, ?_, ?_⟩
  · intro h
    rw [hrate, h]
    exact completionRate_zero_total _
  · intro h
    rw [hrate]
    exact completionRate_nearest _ _ h (dayStats_completed_le events)
      (lt_of_le_of_lt (dayStats_total_le events) hsize)
  · rw [hrate]
    exact completionRate_le _ _ (dayStats_completed_le events)

/-- Witness of C15: one day of four events of three students, one of them
complete, rate 33. -/
theorem dayStats_completionRate_witness :
    sampleDay.length < 2 ^ 32 ∧ (dayStats sampleDay).completionRate = 33 ∧
    (0 < (dayStats sampleDay).total →
      2 * ((dayStats sampleDay).completionRate * (dayStats sampleDay).total) ≤
          200 * (dayStats sampleDay).completed + (dayStats sampleDay).total ∧
        200 * (dayStats sampleDay).completed ≤
          2 * ((dayStats sampleDay).completionRate * (dayStats sampleDay).total) +
            (dayStats sampleDay).total) :=
  ⟨by decide, by decide, (dayStats_completionRate sampleDay (by decide)).2.1⟩

/-- C17: for every list of one day's events, the `total`, `completed` and `rate`
of the per-day reducer of `getWeeklyStats` are the `total`, `completed` and
`completionRate` that `getTodayStats` computes on the same events. -/
theorem weekEntry_agrees_with_dayStats (host : Host) (instant : Int)
    (events : List AttendanceRecord) :
    (weekEntry host instant events).total = (dayStats events).total ∧
    (weekEntry host instant events).completed = (dayStats events).completed ∧
    (weekEntry host instant events).rate = (dayStats events).completionRate := by
  have htotal : (objectKeys (weekStudents events)).length =
      (objectValues (studentData events)).length := by
    rw [weekStudents_eq_map, objectKeys_map, length_objectKeys, length_objectValues]
  have hcompleted :
      ((objectValues (weekStudents events)).filter fun s => s.checkIn && s.checkOut).length =
        ((objectValues (studentData events)).filter fun s =>
          s.checkIn.isSome && s.checkOut.isSome).length := by
    rw [weekStudents_eq_map, objectValues_map, List.filter_map, List.length_map]
    rfl
  refine ⟨htotal, hcompleted, ?_⟩
  show completionRate _ _ = completionRate _ _
  rw [htotal, hcompleted]

/-! ## Weekly statistics: claims -/

theorem weekEntry_bounds (host : Host) (instant : Int) (dayData : List AttendanceRecord) :
    (weekEntry host instant dayData).completed ≤ (weekEntry host instant dayData).total ∧
      (weekEntry host instant dayData).rate ≤ 100 := by
  have hle : (weekEntry host instant dayData).completed ≤
      (weekEntry host instant dayData).total := by
    show ((objectValues (weekStudents dayData)).filter fun s => s.checkIn && s.checkOut).length ≤
      (objectKeys (weekStudents dayData)).length
    rw [length_objectKeys, ← length_objectValues]
    exact List.length_filter_le _ _
  exact ⟨hle, completionRate_le _ _ hle⟩

theorem isoDate_days_back (t : Int) (i : Nat) :
    isoDate (t - i * 86400000) = isoDate ((dayNumber t - i) * 86400000) := by
  have h : (t - i * 86400000) / 86400000 = ((t / 86400000 - i) * 86400000) / 86400000 := by
    omega
  unfold isoDate dayNumber
  rw [h]

/-- C16: for every local store and every outcome of the seven fetches,
`getWeeklyStats` returns success with 7 entries, each with `completed ≤ total` and
a rate of at most 100; on a host where `i` days back on the local calendar is
`i` times 24 hours back, the dates of the entries are the calendar days with day
numbers today - 6, ..., today - 1, today, in that order. -/
theorem getWeeklyStats_seven_days (host : Host) (setDate : Nat → Int) (store : LocalStorage)
    (outcome : Nat → FetchOutcome)
    (hdays : ∀ i, i ≤ 6 → setDate i = host.now - i * 86400000) :
    (getWeeklyStats host setDate store outcome).success = true ∧
    (getWeeklyStats host setDate store outcome).data.length = 7 ∧
    (getWeeklyStats host setDate store outcome).data.map (fun entry => entry.date) =
      [6, 5, 4, 3, 2, 1, 0].map
        (fun i : Nat => isoDate ((dayNumber host.now - (i : Int)) * 86400000)) ∧
    ∀ entry ∈ (getWeeklyStats host setDate store outcome).data,
      entry.completed ≤ entry.total ∧ entry.rate ≤ 100 := by
  have hdate : ∀ i, i ≤ 6 →
      isoDate (setDate i) = isoDate ((dayNumber host.now - (i : Int)) * 86400000) := by
    intro i hi
    rw [hdays i hi]
    exact isoDate_days_back _ _
  refine ⟨rfl, rfl, ?_, ?_⟩
  · show [isoDate (setDate 6), isoDate (setDate 5), isoDate (setDate 4), isoDate (setDate 3),
      isoDate (setDate 2), isoDate (setDate 1), isoDate (setDate 0)] = _
    rw [hdate 6 (by decide), hdate 5 (by decide), hdate 4 (by decide), hdate 3 (by decide),
      hdate 2 (by decide), hdate 1 (by decide), hdate 0 (by decide)]
    rfl
  · intro entry hentry
    obtain ⟨i, _, rfl⟩ := List.mem_map.mp hentry
    exact weekEntry_bounds _ _ _

/-- Witness of C16: the week that ends on the day of `sampleHost`, with one local
check-in and the sample payload on every fetch. -/
theorem getWeeklyStats_seven_days_witness :
    (∀ i, i ≤ 6 → fixedOffsetSetDate sampleHost i = sampleHost.now - i * 86400000) ∧
    (getWeeklyStats sampleHost (fixedOffsetSetDate sampleHost) (storeOf [offlineCheckIn])
      fun _ => .ok samplePayload).data.map (fun entry => entry.date) =
      [6, 5, 4, 3, 2, 1, 0].map
        (fun i : Nat => isoDate ((dayNumber sampleHost.now - (i : Int)) * 86400000)) ∧
    [6, 5, 4, 3, 2, 1, 0].map
        (fun i : Nat => isoDate ((dayNumber sampleHost.now - (i : Int)) * 86400000)) =
      ["2024-01-08", "2024-01-09", "2024-01-10", "2024-01-11", "2024-01-12", "2024-01-13",
        "2024-01-14"] :=
  ⟨fun _ _ => rfl,
    (getWeeklyStats_seven_days sampleHost (fixedOffsetSetDate sampleHost)
      (storeOf [offlineCheckIn]) (fun _ => .ok samplePayload) (fun _ _ => rfl)).2.2.1,
    by decide⟩

/-! ## Backfill: lemmas -/

theorem foldl_push_if {α β : Type} (p : α → Bool) (f : α → β) (l : List α) (start : List β) :
    l.foldl (fun processed a => if p a then processed ++ [f a] else processed) start =
      start ++ (l.filter p).map f := by
  induction l generalizing start with
  | nil => simp
  | cons a rest ih =>
    rw [List.foldl_cons, ih]
    cases hp : p a <;> simp [hp]

theorem processedStudents_eq (students : List StudentStatus) :
    processedStudents students =
      (students.filter fun s => !s.checkIn.isSome).map checkInFill ++
        (students.filter fun s => s.checkIn.isSome && !s.checkOut.isSome).map checkOutFill := by
  unfold processedStudents
  simp only
  rw [foldl_push_if (fun s : StudentStatus => !s.checkIn.isSome) checkInFill,
    foldl_push_if (fun s : StudentStatus => s.checkIn.isSome && !s.checkOut.isSome) checkOutFill]
  rfl

theorem filter_studentId_of_nodup (students : List StudentStatus)
    (hnodup : (students.map fun s => s.studentId).Nodup) (s : StudentStatus)
    (hs : s ∈ students) :
    students.filter (fun x => decide (x.studentId = s.studentId)) = [s] := by
  induction students with
  | nil => simp at hs
  | cons a rest ih =>
    rw [List.map_cons, List.nodup_cons] at hnodup
    obtain ⟨hnot, hrest⟩ := hnodup
    rcases List.mem_cons.mp hs with rfl | hmem
    · have hnil : rest.filter (fun x => decide (x.studentId = s.studentId)) = [] := by
        rw [List.filter_eq_nil_iff]
        intro x hx hc
        exact hnot (List.mem_map.mpr ⟨x, hx, by simpa using hc⟩)
      simp [List.filter_cons, hnil]
    · have hne : ¬ a.studentId = s.studentId := fun hc =>
        hnot (List.mem_map.mpr ⟨s, hmem, hc.symm⟩)
      simp [List.filter_cons, hne, ih hrest hmem]

theorem filter_fill_of_nodup (students : List StudentStatus)
    (hnodup : (students.map fun s => s.studentId).Nodup) (s : StudentStatus)
    (hs : s ∈ students) (p : StudentStatus → Bool) (f : StudentStatus → ProcessedStudent)
    (hf : ∀ x, (f x).id = x.studentId) :
    ((students.filter p).map f).filter (fun entry => decide (entry.id = s.studentId)) =
      if p s then [f s] else [] := by
  have h : ((students.filter p).map f).filter (fun entry => decide (entry.id = s.studentId)) =
      ((students.filter fun x => decide (x.studentId = s.studentId)).filter p).map f := by
    rw [List.filter_map, List.filter_comm]
    congr 2
    apply List.filter_congr
    intro x _
    simp [hf]
  rw [h, filter_studentId_of_nodup students hnodup s hs]
  cases hp : p s <;> simp [hp]

theorem filter_processedStudents (students : List StudentStatus)
    (hnodup : (students.map fun s => s.studentId).Nodup) (s : StudentStatus)
    (hs : s ∈ students) :
    (processedStudents students).filter (fun entry => decide (entry.id = s.studentId)) =
      (if !s.checkIn.isSome then [checkInFill s] else []) ++
        (if s.checkIn.isSome && !s.checkOut.isSome then [checkOutFill s] else []) := by
  rw [processedStudents_eq, List.filter_append,
    filter_fill_of_nodup students hnodup s hs _ checkInFill (fun _ => rfl),
    filter_fill_of_nodup students hnodup s hs _ checkOutFill (fun _ => rfl)]

/-! ## Backfill: claims -/

/-- C18: for every list of student statuses, `processedStudents` is one check-in
fill ('입실 누락' at '07:10:00') per status without `checkIn`, followed by one
check-out fill ('퇴실 누락' at '07:47:00') per status with a `checkIn` and without
`checkOut`; when the statuses have distinct studentIds, the entries with the id of
a student are exactly that one fill, and none for a student with both. -/
theorem processedStudents_policy (students : List StudentStatus)
    (hnodup : (students.map fun s => s.studentId).Nodup) :
    processedStudents students =
      (students.filter fun s => !s.checkIn.isSome).map checkInFill ++
        (students.filter fun s => s.checkIn.isSome && !s.checkOut.isSome).map checkOutFill ∧
    ∀ s ∈ students,
      (s.checkIn = none →
        (processedStudents students).filter (fun entry => decide (entry.id = s.studentId)) =
          [{ name := s.studentName, id := s.studentId, type := "입실 누락",
             processedTime := "07:10:00" }]) ∧
      (s.checkIn ≠ none → s.checkOut = none →
        (processedStudents students).filter (fun entry => decide (entry.id = s.studentId)) =
          [{ name := s.studentName, id := s.studentId, type := "퇴실 누락",
             processedTime := "07:47:00" }]) ∧
      (s.checkIn ≠ none → s.checkOut ≠ none →
        (processedStudents students).filter (fun entry => decide (entry.id = s.studentId)) =
          []) := by
  refine ⟨processedStudents_eq students, ?_⟩
  intro s hs
  rw [filter_processedStudents students hnodup s hs]
  refine ⟨?_, ?_, ?_⟩
  · intro hin
    simp [hin, checkInFill]
  · intro hin hout
    obtain ⟨c, hc⟩ := Option.ne_none_iff_exists'.mp hin
    simp [hc, hout, checkOutFill]
  · intro hin hout
    obtain ⟨c, hc⟩ := Option.ne_none_iff_exists'.mp hin
    obtain ⟨d, hd⟩ := Option.ne_none_iff_exists'.mp hout
    simp [hc, hd]

/-- Witness of C18: the three statuses of `sampleDay`, one complete, one without
check-in, one without check-out. -/
theorem processedStudents_policy_witness :
    ((dayStats sampleDay).students.map fun s => s.studentId).Nodup ∧
    processedStudents (dayStats sampleDay).students =
      [{ name := "Lee", id := "10102", type := "입실 누락", processedTime := "07:10:00" },
       { name := "Kim", id := "10101", type := "퇴실 누락", processedTime := "07:47:00" }] ∧
    processedStudents (dayStats sampleDay).students =
      ((dayStats sampleDay).students.filter fun s => !s.checkIn.isSome).map checkInFill ++
        ((dayStats sampleDay).students.filter fun s =>
          s.checkIn.isSome && !s.checkOut.isSome).map checkOutFill :=
  ⟨by decide, by decide,
    (processedStudents_policy (dayStats sampleDay).students (by decide)).1⟩

theorem getTodayStats_of_success (host : Host) (store : LocalStorage) (outcome : FetchOutcome)
    (hsuccess : (getAttendanceData host store outcome (todayFilters host)).success = true) :
    getTodayStats host store outcome =
      { success := true, message := none,
        data := some (dayStats (getAttendanceData host store outcome (todayFilters host)).data) } := by
  unfold getTodayStats
  simp [hsuccess]

theorem processMissingData_of_success (host : Host) (store : LocalStorage)
    (outcome : FetchOutcome)
    (hsuccess : (getAttendanceData host store outcome (todayFilters host)).success = true) :
    (processMissingData host store outcome).processedStudents =
      some (processedStudents
        (dayStats (getAttendanceData host store outcome (todayFilters host)).data).students) := by
  unfold processMissingData
  rw [getTodayStats_of_success host store outcome hsuccess]
  rfl

theorem processMissingData_cases (host : Host) (store : LocalStorage) (outcome : FetchOutcome) :
    (processMissingData host store outcome).processedStudents = none ∨
      (processMissingData host store outcome).processedStudents =
        some (processedStudents
          (dayStats (getAttendanceData host store outcome (todayFilters host)).data).students) := by
  cases hsuccess : (getAttendanceData host store outcome (todayFilters host)).success with
  | true => exact Or.inr (processMissingData_of_success host store outcome hsuccess)
  | false =>
    left
    unfold processMissingData getTodayStats
    simp [hsuccess]

theorem mem_processedStudents (students : List StudentStatus) (p : ProcessedStudent)
    (hp : p ∈ processedStudents students) :
    ∃ s ∈ students, p.id = s.studentId ∧ p.name = s.studentName ∧
      ((p.type = "입실 누락" ∧ p.processedTime = "07:10:00" ∧ s.checkIn = none) ∨
        (p.type = "퇴실 누락" ∧ p.processedTime = "07:47:00" ∧ s.checkIn ≠ none ∧
          s.checkOut = none)) := by
  rw [processedStudents_eq, List.mem_append] at hp
  rcases hp with hp | hp
  · obtain ⟨s, hs, rfl⟩ := List.mem_map.mp hp
    obtain ⟨hmem, hcond⟩ := List.mem_filter.mp hs
    refine ⟨s, hmem, rfl, rfl, Or.inl ⟨rfl, rfl, ?_⟩⟩
    cases hc : s.checkIn with
    | none => rfl
    | some c => simp [hc] at hcond
  · obtain ⟨s, hs, rfl⟩ := List.mem_map.mp hp
    obtain ⟨hmem, hcond⟩ := List.mem_filter.mp hs
    refine ⟨s, hmem, rfl, rfl, Or.inr ⟨rfl, rfl, ?_, ?_⟩⟩
    · intro hc
      simp [hc] at hcond
    · cases hc : s.checkOut with
      | none => rfl
      | some c => simp [hc] at hcond

/-- C19, counterexample: student 10103 has no event on the day of `sampleHost`
and the backfill returns two records, none of them for 10103; with no events at
all it returns no record. -/
theorem processMissingData_absent_student_unfilled :
    "10103" ∉ (getAttendanceData sampleHost (storeOf sampleDay) (.ok emptyPayload)
      (todayFilters sampleHost)).data.map (fun r => r.studentId) ∧
    (processMissingData sampleHost (storeOf sampleDay) (.ok emptyPayload)).processedStudents =
      some [{ name := "Lee", id := "10102", type := "입실 누락", processedTime := "07:10:00" },
            { name := "Kim", id := "10101", type := "퇴실 누락", processedTime := "07:47:00" }] ∧
    (processMissingData sampleHost emptyStore (.ok emptyPayload)).processedStudents = some [] ∧
    (processMissingData sampleHost emptyStore (.ok emptyPayload)).processedCount = some 0 := by
  decide

/-- C19, amended: when the query of the day succeeds, the backfill returns no
record for a student without events of the day, and for a student with events of
the day and no check-in event among them exactly one record, a check-in fill at
'07:10:00'. -/
theorem processMissingData_fills_students_with_events (host : Host) (store : LocalStorage)
    (outcome : FetchOutcome) (k : String)
    (hsuccess : (getAttendanceData host store outcome (todayFilters host)).success = true) :
    ∃ processed, (processMissingData host store outcome).processedStudents = some processed ∧
      (k ∉ (getAttendanceData host store outcome (todayFilters host)).data.map
          (fun r => r.studentId) →
        processed.filter (fun entry => decide (entry.id = k)) = []) ∧
      (k ∈ (getAttendanceData host store outcome (todayFilters host)).data.map
          (fun r => r.studentId) →
        checkInsOf k (getAttendanceData host store outcome (todayFilters host)).data = [] →
        ∃ name, processed.filter (fun entry => decide (entry.id = k)) =
          [{ name := name, id := k, type := "입실 누락", processedTime := "07:10:00" }]) := by
  refine ⟨_, processMissingData_of_success host store outcome hsuccess, ?_, ?_⟩
  · intro hk
    rw [List.filter_eq_nil_iff]
    intro p hp hid
    obtain ⟨s, hs, hps, _⟩ := mem_processedStudents _ p hp
    apply hk
    rw [← mem_studentIds]
    have hpk : p.id = k := by simpa using hid
    rw [← hpk, hps]
    exact List.mem_map_of_mem _ hs
  · intro hk hnone
    obtain ⟨s, hs, hid⟩ := List.mem_map.mp ((mem_studentIds _ k).mpr hk)
    have hin : s.checkIn = none := by
      rw [checkIn_eq_none_iff _ s hs, hid]
      exact hnone
    refine ⟨s.studentName, ?_⟩
    rw [← hid, filter_processedStudents _ (nodup_studentIds _) s hs]
    simp [hin, checkInFill]

/-- Witness of C19: student 10102 has a check-out and no check-in on the day of
`sampleHost`. -/
theorem processMissingData_fills_students_with_events_witness :
    (getAttendanceData sampleHost (storeOf sampleDay) (.ok emptyPayload)
      (todayFilters sampleHost)).success = true ∧
    "10102" ∈ (getAttendanceData sampleHost (storeOf sampleDay) (.ok emptyPayload)
      (todayFilters sampleHost)).data.map (fun r => r.studentId) ∧
    checkInsOf "10102" (getAttendanceData sampleHost (storeOf sampleDay) (.ok emptyPayload)
      (todayFilters sampleHost)).data = [] ∧
    ∃ processed,
      (processMissingData sampleHost (storeOf sampleDay)
        (.ok emptyPayload)).processedStudents = some processed ∧
      ("10102" ∉ (getAttendanceData sampleHost (storeOf sampleDay) (.ok emptyPayload)
          (todayFilters sampleHost)).data.map (fun r => r.studentId) →
        processed.filter (fun entry => decide (entry.id = "10102")) = []) ∧
      ("10102" ∈ (getAttendanceData sampleHost (storeOf sampleDay) (.ok emptyPayload)
          (todayFilters sampleHost)).data.map (fun r => r.studentId) →
        checkInsOf "10102" (getAttendanceData sampleHost (storeOf sampleDay) (.ok emptyPayload)
          (todayFilters sampleHost)).data = [] →
        ∃ name, processed.filter (fun entry => decide (entry.id = "10102")) =
          [{ name := name, id := "10102", type := "입실 누락", processedTime := "07:10:00" }]) :=
  ⟨by decide, by decide, by decide,
    processMissingData_fills_students_with_events sampleHost (storeOf sampleDay)
      (.ok emptyPayload) "10102" (by decide)⟩

/-! ## Backfill: effects -/

theorem effectsOfGetAttendanceData_reads (host : Host) (store : LocalStorage)
    (outcome : FetchOutcome) (filters : Filters) :
    ∀ e ∈ effectsOfGetAttendanceData host store outcome filters,
      e = .getItem "attendanceData" ∨ e = .fetch "GET" "getAllAttendance" := by
  intro e he
  unfold effectsOfGetAttendanceData effectsOfGoogleQuery effectsOfLocalQuery at he
  split_ifs at he <;> simp at he <;> tauto

/-- C20: for every local store and fetch outcome, `processMissingData` only reads:
its calls on `localStorage` are `getItem('attendanceData')` and its only request
is the GET of the rows, so it writes nothing; the entries it returns, in a list
of their own, have the type '입실 누락' or '퇴실 누락', which is not the status of a
recorded event. -/
theorem processMissingData_read_only (host : Host) (store : LocalStorage)
    (outcome : FetchOutcome) :
    (∀ e ∈ effectsOfProcessMissingData host store outcome,
      e.isWrite = false ∧
        (e = .getItem "attendanceData" ∨ e = .fetch "GET" "getAllAttendance")) ∧
    ∀ processed, (processMissingData host store outcome).processedStudents = some processed →
      ∀ p ∈ processed, (p.type = "입실 누락" ∨ p.type = "퇴실 누락") ∧
        p.type ≠ "입실" ∧ p.type ≠ "퇴실" := by
  constructor
  · intro e he
    rcases effectsOfGetAttendanceData_reads host store outcome _ e he with h | h
    · exact ⟨h ▸ rfl, Or.inl h⟩
    · exact ⟨h ▸ rfl, Or.inr h⟩
  · intro processed hprocessed p hp
    rcases processMissingData_cases host store outcome with hnone | hsome
    · rw [hnone] at hprocessed
      cases hprocessed
    · rw [hsome] at hprocessed
      cases hprocessed
      obtain ⟨s, _, _, _, h | h⟩ := mem_processedStudents _ p hp
      · rw [h.1]
        exact ⟨Or.inl rfl, by decide, by decide⟩
      · rw [h.1]
        exact ⟨Or.inr rfl, by decide, by decide⟩

/-! ## Remote rows: claims -/

theorem convertCell_eq_none_iff (host : Host) (row : GoogleRow) (time : Option String)
    (suffix status : String) :
    convertCell host row time suffix status = none ↔ truthy time = true ∧ baseDate row = none := by
  unfold convertCell
  cases htime : truthy time with
  | false => simp
  | true =>
    cases hbase : baseDate row with
    | none => simp
    | some base =>
      cases hparse : host.parseDate (base ++ "T" ++ time.getD "") <;> simp [hparse]

theorem convertCell_of_dated (host : Host) (row : GoogleRow) (time : Option String)
    (suffix status : String) (h : baseDate row ≠ none ∨ truthy time = false) :
    convertCell host row time suffix status = some (cellEvents host row time suffix status) := by
  unfold convertCell cellEvents
  cases htime : truthy time with
  | false => simp
  | true =>
    cases hbase : baseDate row with
    | none =>
      rcases h with h | h
      · exact absurd hbase h
      · rw [htime] at h
        cases h
    | some base =>
      cases hparse : host.parseDate (base ++ "T" ++ time.getD "") <;> simp [hparse]

theorem convertRow_of_undated (host : Host) (row : GoogleRow) (hdate : baseDate row = none)
    (htime : truthy row.checkInTime = true ∨ truthy row.checkOutTime = true) :
    convertRow host row = none := by
  unfold convertRow
  cases hin : convertCell host row row.checkInTime "-checkin" "입실" with
  | none => rfl
  | some checkIn =>
    have hout : convertCell host row row.checkOutTime "-checkout" "퇴실" = none := by
      rw [convertCell_eq_none_iff]
      refine ⟨?_, hdate⟩
      rcases htime with h | h
      · have hnone := (convertCell_eq_none_iff host row row.checkInTime "-checkin" "입실").mpr
          ⟨h, hdate⟩
        rw [hnone] at hin
        cases hin
      · exact h
    rw [hout]

theorem convertRows_of_undated (host : Host) (before after : List GoogleRow) (row : GoogleRow)
    (hrow : convertRow host row = none) : convertRows host (before ++ row :: after) = none := by
  induction before with
  | nil =>
    simp [convertRows, hrow]
  | cons first rest ih =>
    rw [List.cons_append]
    unfold convertRows
    cases convertRow host first with
    | none => rfl
    | some events => simp [ih]

/-- What the conversion does with rows that have a usable date, or no time at all:
every row yields its events, a time that does not parse yields none, and the
conversion completes. -/
theorem convertRows_of_dated (host : Host) (rows : List GoogleRow)
    (h : ∀ row ∈ rows, baseDate row ≠ none ∨
      (truthy row.checkInTime = false ∧ truthy row.checkOutTime = false)) :
    convertRows host rows = some (rows.flatMap (rowEvents host)) := by
  induction rows with
  | nil => rfl
  | cons row rest ih =>
    have hrow : convertRow host row = some (rowEvents host row) := by
      unfold convertRow rowEvents
      rw [convertCell_of_dated, convertCell_of_dated]
      · rcases h row (List.mem_cons_self _ _) with h1 | h1
        · exact Or.inl h1
        · exact Or.inr h1.2
      · rcases h row (List.mem_cons_self _ _) with h1 | h1
        · exact Or.inl h1
        · exact Or.inr h1.1
    unfold convertRows
    rw [hrow, ih fun r hr => h r (List.mem_cons_of_mem _ hr)]
    rfl

/-- C11, what the code does with a row whose `date` is not a string and not a
date: when such a row has a time cell, building its `baseDate` throws, the whole
conversion is abandoned, and `_getFromGoogleScript` returns the local result
marked as fallback, without the events of the other rows. -/
theorem getFromGoogleScript_undated_row (host : Host) (store : LocalStorage)
    (filters : Filters) (before after : List GoogleRow) (row : GoogleRow)
    (hdate : row.date = .value none)
    (htime : truthy row.checkInTime = true ∨ truthy row.checkOutTime = true) :
    _getFromGoogleScript host store
        (.ok { success := true, data := some (before ++ row :: after), error := none }) filters =
      { _getFromLocalStorage store filters with fallbackMode := true } := by
  have hbase : baseDate row = none := by
    unfold baseDate
    rw [hdate]
    rfl
  have hrows := convertRows_of_undated host before after row
    (convertRow_of_undated host row hbase htime)
  unfold _getFromGoogleScript fetchAndConvert
  simp [hrows]

/-- Witness of C11: the payload `undatedRowPayload`, whose first row has no usable
date and whose second row is sound, on an empty local collection; next to it the
payload whose first row has a time that does not parse, which is skipped. -/
theorem getFromGoogleScript_undated_row_witness :
    _getFromGoogleScript sampleHost emptyStore (.ok undatedRowPayload) noFilters =
      { _getFromLocalStorage emptyStore noFilters with fallbackMode := true } ∧
    (_getFromGoogleScript sampleHost emptyStore (.ok undatedRowPayload) noFilters).data = [] ∧
    (_getFromGoogleScript sampleHost emptyStore (.ok undatedRowPayload)
      noFilters).source = some "localStorage" ∧
    (_getFromGoogleScript sampleHost emptyStore (.ok badTimePayload) noFilters).data =
      [remoteCheckIn] ∧
    (_getFromGoogleScript sampleHost emptyStore (.ok badTimePayload)
      noFilters).source = some "google_sheets_v8" :=
  ⟨getFromGoogleScript_undated_row sampleHost emptyStore noFilters []
      [{ id := "7", studentId := "10101", studentName := "Kim", date := .text "2024-01-15",
         checkInTime := some "07:10:00", checkOutTime := none }]
      { id := "6", studentId := "10102", studentName := "Lee", date := .value none,
        checkInTime := some "07:05:00", checkOutTime := none } rfl (Or.inl rfl),
    by decide, by decide, by decide, by decide⟩

/-! ## Student lookup: claims -/

theorem rejected_iff (studentId : Option String) :
    (!truthy studentId || jsLength (studentId.getD "") != 5) = true ↔
      ∀ s, studentId = some s → jsLength s ≠ 5 := by
  cases studentId with
  | none => simp [truthy]
  | some s =>
    by_cases hempty : s = ""
    · subst hempty
      simp [truthy, jsLength]
    · simp [truthy, hempty]

theorem effectsOfGetStudentStats_of_five (api : AttendanceAPI) (outcome : StudentFetchOutcome)
    (s : String) (hs : jsLength s = 5) :
    effectsOfGetStudentStats api outcome (some s) ≠ [] := by
  have hpass : ¬ (!truthy (some s) || jsLength ((some s).getD "") != 5) = true := by
    rw [rejected_iff]
    intro h
    exact h s rfl hs
  unfold effectsOfGetStudentStats
  rw [if_neg hpass]
  split
  · exact List.cons_ne_nil _ _
  · exact List.cons_ne_nil _ _

theorem getStudentStats_of_rejected (api : AttendanceAPI) (store : LocalStorage)
    (outcome : StudentFetchOutcome) (studentId : Option String)
    (hlength : ∀ s, studentId = some s → jsLength s ≠ 5) :
    getStudentStats api store outcome studentId = .rejected "올바른 5자리 학번을 입력해주세요." ∧
      effectsOfGetStudentStats api outcome studentId = [] := by
  have hreject := (rejected_iff studentId).mpr hlength
  unfold getStudentStats effectsOfGetStudentStats
  rw [if_pos hreject, if_pos hreject]
  exact ⟨rfl, rfl⟩

/-- C21, what the code does: `getStudentStats` checks the length of the studentId
and nothing else. A studentId that is absent or whose length is not 5 (the empty
string included) is rejected with `success = false` and the message, before any
request or read of the local collection; every studentId of length 5 passes and
leads to a request or a read, digits or not: for 'abcde' the GET is sent and its
answer returned as a success, and with an offline API the local collection is
read. -/
theorem getStudentStats_checks_length_only (api : AttendanceAPI) (store : LocalStorage)
    (outcome : StudentFetchOutcome) (studentId : Option String) :
    ((∀ s, studentId = some s → jsLength s ≠ 5) →
      (getStudentStats api store outcome studentId).success = false ∧
      (getStudentStats api store outcome studentId).message =
        some "올바른 5자리 학번을 입력해주세요." ∧
      effectsOfGetStudentStats api outcome studentId = []) ∧
    (∀ s, studentId = some s → jsLength s = 5 →
      effectsOfGetStudentStats api outcome studentId ≠ []) ∧
    getStudentStats onlineAPI emptyStore (.ok "[]") (some "abcde") = .remote "[]" ∧
    (getStudentStats onlineAPI emptyStore (.ok "[]") (some "abcde")).success = true ∧
    effectsOfGetStudentStats onlineAPI (.ok "[]") (some "abcde") =
      [.fetch "GET" "getStudentData"] ∧
    effectsOfGetStudentStats { onlineAPI with isOnlineMode := false } (.ok "[]")
      (some "abcde") = [.getItem "attendanceData"] ∧
    effectsOfGetStudentStats onlineAPI (.ok "[]") (some "1234") = [] ∧
    effectsOfGetStudentStats onlineAPI (.ok "[]") none = [] := by
  refine ⟨?_, ?_, by decide, by decide, by decide, by decide, by decide, by decide⟩
  · intro hlength
    obtain ⟨hresult, heffects⟩ := getStudentStats_of_rejected api store outcome studentId hlength
    rw [hresult]
    exact ⟨rfl, rfl, heffects⟩
  · intro s hs hfive
    rw [hs]
    exact effectsOfGetStudentStats_of_five api outcome s hfive

/-! ## Sync pass: lemmas -/

theorem submitToLocalStorage_quotaOk (host : Host) (api : AttendanceAPI) (store : LocalStorage)
    (data : AttendanceRecord) :
    (_submitToLocalStorage host api store data).2.quotaOk = store.quotaOk := by
  unfold _submitToLocalStorage
  cases readAttendanceData store with
  | none => rfl
  | some attendanceData =>
    simp only
    split <;> rfl

theorem submitToGoogleScript_store (host : Host) (api : AttendanceAPI) (store : LocalStorage)
    (outcome : DispatchOutcome) (data : AttendanceRecord) :
    (_submitToGoogleScript host api store outcome data).2 =
      (_submitToLocalStorage host api store data).2 := by
  cases outcome <;> rfl

theorem syncLoop_outcome (host : Host) (api : AttendanceAPI)
    (outcome outcome' : Nat → DispatchOutcome) (records : List AttendanceRecord) :
    ∀ syncedCount store, syncLoop host api outcome records syncedCount store =
      syncLoop host api outcome' records syncedCount store := by
  induction records with
  | nil =>
    intro syncedCount store
    rfl
  | cons record rest ih =>
    intro syncedCount store
    unfold syncLoop
    simp only [submitToGoogleScript_store, ih]

theorem syncLoop_spec (host : Host) (api : AttendanceAPI) (outcome : Nat → DispatchOutcome)
    (records : List AttendanceRecord) :
    ∀ syncedCount store,
      (syncLoop host api outcome records syncedCount store).1 = records.map (afterSync host) ∧
      (syncLoop host api outcome records syncedCount store).2.1 =
        syncedCount + (records.filter fun record => record.source = some "offline").length ∧
      (syncLoop host api outcome records syncedCount store).2.2.quotaOk = store.quotaOk := by
  induction records with
  | nil =>
    intro syncedCount store
    exact ⟨rfl, rfl, rfl⟩
  | cons record rest ih =>
    intro syncedCount store
    unfold syncLoop
    by_cases hoffline : record.source = some "offline"
    · obtain ⟨h1, h2, h3⟩ := ih (syncedCount + 1)
        (_submitToGoogleScript host api store (outcome syncedCount) record).2
      simp only [if_pos hoffline]
      refine ⟨?_, ?_, ?_⟩
      · rw [h1]
        simp [afterSync, hoffline]
      · rw [h2]
        simp [List.filter_cons, hoffline]
        omega
      · rw [h3, submitToGoogleScript_store, submitToLocalStorage_quotaOk]
    · obtain ⟨h1, h2, h3⟩ := ih syncedCount store
      simp only [if_neg hoffline]
      refine ⟨?_, ?_, ?_⟩
      · rw [h1]
        simp [afterSync, hoffline]
      · rw [h2]
        simp [List.filter_cons, hoffline]
      · exact h3

theorem map_afterSync_of_synced (host : Host) (records : List AttendanceRecord)
    (h : (records.filter fun record => record.source = some "offline").length = 0) :
    records.map (afterSync host) = records := by
  have hnil := List.length_eq_zero.mp h
  rw [List.filter_eq_nil_iff] at hnil
  conv_rhs => rw [← List.map_id records]
  apply List.map_congr_left
  intro r hr
  have hne : ¬ r.source = some "offline" := by simpa using hnil r hr
  simp [afterSync, hne]

/-- What a successful call of `syncWithGoogleSheets` leaves: the stored records in
their order, each tagged 'offline' marked, and the count of those. -/
theorem syncWithGoogleSheets_of_success (host : Host) (api : AttendanceAPI)
    (store : LocalStorage) (outcome : Nat → DispatchOutcome)
    (hsuccess : (syncWithGoogleSheets host api store outcome).1.success = true) :
    ∃ records, readAttendanceData store = some records ∧
      readAttendanceData (syncWithGoogleSheets host api store outcome).2 =
        some (records.map (afterSync host)) ∧
      (syncWithGoogleSheets host api store outcome).1.syncedCount =
        some (records.filter fun record => record.source = some "offline").length := by
  unfold syncWithGoogleSheets at hsuccess ⊢
  by_cases honline : (!api.isOnlineMode || !truthy api.webAppUrl) = true
  · rw [if_pos honline] at hsuccess
    cases hsuccess
  · rw [if_neg honline] at hsuccess ⊢
    cases hread : readAttendanceData store with
    | none =>
      rw [hread] at hsuccess
      cases hsuccess
    | some localData =>
      rw [hread] at hsuccess
      refine ⟨localData, rfl, ?_⟩
      simp only at hsuccess ⊢
      by_cases hnone :
          (localData.filter fun record => record.source = some "offline").length = 0
      · rw [if_pos hnone]
        rw [map_afterSync_of_synced host localData hnone, hnone]
        exact ⟨hread, rfl⟩
      · rw [if_neg hnone] at hsuccess ⊢
        obtain ⟨h1, h2, _⟩ := syncLoop_spec host api outcome localData 0 store
        by_cases hquota : (syncLoop host api outcome localData 0 store).2.2.quotaOk
            (syncLoop host api outcome localData 0 store).1 = true
        · rw [if_pos hquota]
          refine ⟨?_, ?_⟩
          · show some (syncLoop host api outcome localData 0 store).1 = _
            rw [h1]
          · show some (syncLoop host api outcome localData 0 store).2.1 = _
            rw [h2, Nat.zero_add]
        · rw [if_neg hquota] at hsuccess
          cases hsuccess

theorem syncWithGoogleSheets_outcome (host : Host) (api : AttendanceAPI) (store : LocalStorage)
    (outcome outcome' : Nat → DispatchOutcome) :
    syncWithGoogleSheets host api store outcome = syncWithGoogleSheets host api store outcome' := by
  unfold syncWithGoogleSheets
  simp only [syncLoop_outcome host api outcome outcome']

theorem source_afterSync (host : Host) (record : AttendanceRecord) :
    (afterSync host record).source ≠ some "offline" := by
  unfold afterSync
  split
  · simp [markSynced]
  · assumption

/-! ## Sync pass: claims -/

/-- C24, what the code does: the outcomes of the dispatches have no influence on
the result of `syncWithGoogleSheets`; when it returns success, `syncedCount` is
the number of stored records tagged 'offline' and no stored record keeps the
source 'offline', also when every dispatch failed with a transport error. -/
theorem syncWithGoogleSheets_marks_failed_dispatches (host : Host) (api : AttendanceAPI)
    (store : LocalStorage) (outcome : Nat → DispatchOutcome)
    (hsuccess : (syncWithGoogleSheets host api store outcome).1.success = true) :
    (syncWithGoogleSheets host api store outcome).1 =
      (syncWithGoogleSheets host api store allDispatchesFail).1 ∧
    ∃ records stored, readAttendanceData store = some records ∧
      readAttendanceData (syncWithGoogleSheets host api store allDispatchesFail).2 =
        some stored ∧
      (syncWithGoogleSheets host api store allDispatchesFail).1.syncedCount =
        some (records.filter fun record => record.source = some "offline").length ∧
      ∀ r ∈ stored, r.source ≠ some "offline" := by
  have hsame := syncWithGoogleSheets_outcome host api store outcome allDispatchesFail
  rw [hsame] at hsuccess
  obtain ⟨records, hread, hstored, hcount⟩ :=
    syncWithGoogleSheets_of_success host api store allDispatchesFail hsuccess
  refine ⟨by rw [hsame], records, _, hread, hstored, hcount, ?_⟩
  intro r hr
  obtain ⟨r₀, _, rfl⟩ := List.mem_map.mp hr
  exact source_afterSync host r₀

/-- Witness of C24: a collection with two records tagged 'offline', every dispatch
failing: both records are stored as 'synced' and counted. -/
theorem syncWithGoogleSheets_marks_failed_dispatches_witness :
    (syncWithGoogleSheets sampleHost onlineAPI unsyncedStore allDispatchesFail).1.success =
      true ∧
    (syncWithGoogleSheets sampleHost onlineAPI unsyncedStore allDispatchesFail).1.syncedCount =
      some 2 ∧
    readAttendanceData
        (syncWithGoogleSheets sampleHost onlineAPI unsyncedStore allDispatchesFail).2 =
      some [checkInAt0700,
        { offlineCheckIn with source := some "synced", syncedAt := some 1705273800000 },
        { strayCheckOut with source := some "synced", syncedAt := some 1705273800000 }] ∧
    ((syncWithGoogleSheets sampleHost onlineAPI unsyncedStore allDispatchesFail).1 =
        (syncWithGoogleSheets sampleHost onlineAPI unsyncedStore allDispatchesFail).1 ∧
      ∃ records stored, readAttendanceData unsyncedStore = some records ∧
        readAttendanceData
          (syncWithGoogleSheets sampleHost onlineAPI unsyncedStore allDispatchesFail).2 =
          some stored ∧
        (syncWithGoogleSheets sampleHost onlineAPI unsyncedStore
          allDispatchesFail).1.syncedCount =
          some (records.filter fun record => record.source = some "offline").length ∧
        ∀ r ∈ stored, r.source ≠ some "offline") :=
  ⟨by decide, by decide, by decide,
    syncWithGoogleSheets_marks_failed_dispatches sampleHost onlineAPI unsyncedStore
      allDispatchesFail (by decide)⟩

/-- C25: for every local collection, when `syncWithGoogleSheets` returns success
the collection holds the records it held before, as many and in the same order,
each with its id, studentId, studentName, status, timestamp and submittedAt; a
record that was not tagged 'offline' is unchanged, and no backup copy of the
submissions remains. -/
theorem syncWithGoogleSheets_preserves_events (host : Host) (api : AttendanceAPI)
    (store : LocalStorage) (outcome : Nat → DispatchOutcome)
    (hsuccess : (syncWithGoogleSheets host api store outcome).1.success = true) :
    ∃ records, readAttendanceData store = some records ∧
      readAttendanceData (syncWithGoogleSheets host api store outcome).2 =
        some (records.map (afterSync host)) ∧
      (records.map (afterSync host)).length = records.length ∧
      ∀ r ∈ records,
        (afterSync host r).id = r.id ∧ (afterSync host r).studentId = r.studentId ∧
        (afterSync host r).studentName = r.studentName ∧
        (afterSync host r).status = r.status ∧
        (afterSync host r).timestamp = r.timestamp ∧
        (afterSync host r).submittedAt = r.submittedAt ∧
        (r.source ≠ some "offline" → afterSync host r = r) := by
  obtain ⟨records, hread, hstored, _⟩ :=
    syncWithGoogleSheets_of_success host api store outcome hsuccess
  refine ⟨records, hread, hstored, List.length_map _ _, ?_⟩
  intro r _
  by_cases hoffline : r.source = some "offline"
  · simp [afterSync, hoffline, markSynced]
  · simp [afterSync, hoffline]

/-- Witness of C25: a collection with one backup copy and two records tagged
'offline', every dispatch resolving. -/
theorem syncWithGoogleSheets_preserves_events_witness :
    (syncWithGoogleSheets sampleHost onlineAPI unsyncedStore fun _ => .dispatched).1.success =
      true ∧
    ∃ records, readAttendanceData unsyncedStore = some records ∧
      readAttendanceData
          (syncWithGoogleSheets sampleHost onlineAPI unsyncedStore fun _ => .dispatched).2 =
        some (records.map (afterSync sampleHost)) ∧
      (records.map (afterSync sampleHost)).length = records.length ∧
      ∀ r ∈ records,
        (afterSync sampleHost r).id = r.id ∧
        (afterSync sampleHost r).studentId = r.studentId ∧
        (afterSync sampleHost r).studentName = r.studentName ∧
        (afterSync sampleHost r).status = r.status ∧
        (afterSync sampleHost r).timestamp = r.timestamp ∧
        (afterSync sampleHost r).submittedAt = r.submittedAt ∧
        (r.source ≠ some "offline" → afterSync sampleHost r = r) :=
  ⟨by decide,
    syncWithGoogleSheets_preserves_events sampleHost onlineAPI unsyncedStore
      (fun _ => .dispatched) (by decide)⟩

/-! ## Dedup key: the key determines the tuple -/

theorem digitChar_ne_underscore : ∀ d, d < 10 → Nat.digitChar d ≠ '_' := by
  decide

theorem toDigitsCore_no_underscore :
    ∀ fuel n acc, '_' ∉ acc → '_' ∉ Nat.toDigitsCore 10 fuel n acc := by
  intro fuel
  induction fuel with
  | zero =>
    intro n acc h
    simpa [Nat.toDigitsCore] using h
  | succ fuel ih =>
    intro n acc h
    have hcons : '_' ∉ Nat.digitChar (n % 10) :: acc := by
      rw [List.mem_cons, not_or]
      exact ⟨fun hc => digitChar_ne_underscore _ (Nat.mod_lt n (by decide)) hc.symm, h⟩
    unfold Nat.toDigitsCore
    simp only
    split
    · exact hcons
    · exact ih _ _ hcons

theorem toString_no_underscore (n : Nat) : '_' ∉ (toString n).data := by
  show '_' ∉ Nat.toDigits 10 n
  exact toDigitsCore_no_underscore _ _ _ (List.not_mem_nil _)

theorem pad_no_underscore (width n : Nat) : '_' ∉ (pad width n).data := by
  unfold pad
  simp only [String.data_append, List.mem_append, not_or]
  refine ⟨?_, toString_no_underscore n⟩
  intro h
  have := List.eq_of_mem_replicate h
  exact absurd this (by decide)

theorem isoYear_no_underscore (y : Int) : '_' ∉ (isoYear y).data := by
  unfold isoYear
  split_ifs
  · exact pad_no_underscore _ _
  · simp only [String.data_append, List.mem_append, not_or]
    exact ⟨by decide, pad_no_underscore _ _⟩
  · simp only [String.data_append, List.mem_append, not_or]
    exact ⟨by decide, pad_no_underscore _ _⟩

theorem isoDate_no_underscore (t : Int) : '_' ∉ (isoDate t).data := by
  unfold isoDate
  simp only [String.data_append, List.mem_append, not_or]
  exact ⟨⟨⟨⟨isoYear_no_underscore _, by decide⟩, pad_no_underscore _ _⟩, by decide⟩,
    pad_no_underscore _ _⟩

theorem append_separator_inj (c : Char) :
    ∀ (a a' b b' : List Char), c ∉ a → c ∉ a' → a ++ c :: b = a' ++ c :: b' →
      a = a' ∧ b = b' := by
  intro a
  induction a with
  | nil =>
    intro a' b b' _ ha' h
    cases a' with
    | nil =>
      simp only [List.nil_append, List.cons.injEq, true_and] at h
      exact ⟨rfl, h⟩
    | cons x xs =>
      simp only [List.nil_append, List.cons_append, List.cons.injEq] at h
      exact absurd (List.mem_cons.mpr (Or.inl h.1)) ha'
  | cons y ys ih =>
    intro a' b b' ha ha' h
    cases a' with
    | nil =>
      simp only [List.nil_append, List.cons_append, List.cons.injEq] at h
      exact absurd (List.mem_cons.mpr (Or.inl h.1.symm)) ha
    | cons x xs =>
      simp only [List.cons_append, List.cons.injEq] at h
      obtain ⟨h1, h2⟩ := ih xs b b' (fun hc => ha (List.mem_cons_of_mem _ hc))
        (fun hc => ha' (List.mem_cons_of_mem _ hc)) h.2
      exact ⟨by rw [h.1, h1], h2⟩

theorem key_inj (date date' sid sid' status status' time time' : String)
    (hd : '_' ∉ date.data) (hd' : '_' ∉ date'.data) (hs : '_' ∉ sid.data)
    (hs' : '_' ∉ sid'.data) (hst : '_' ∉ status.data) (hst' : '_' ∉ status'.data)
    (h : date ++ "_" ++ sid ++ "_" ++ status ++ "_" ++ time =
      date' ++ "_" ++ sid' ++ "_" ++ status' ++ "_" ++ time') :
    date = date' ∧ sid = sid' ∧ status = status' ∧ time = time' := by
  have hdata := congrArg String.data h
  have hsep : "_".data = ['_'] := rfl
  simp only [String.data_append, hsep, List.append_assoc, List.singleton_append] at hdata
  obtain ⟨h1, hrest⟩ := append_separator_inj '_' _ _ _ _ hd hd' hdata
  obtain ⟨h2, hrest⟩ := append_separator_inj '_' _ _ _ _ hs hs' hrest
  obtain ⟨h3, h4⟩ := append_separator_inj '_' _ _ _ _ hst hst' hrest
  exact ⟨String.ext h1, String.ext h2, String.ext h3, String.ext h4⟩

/-- Events whose studentId and status are free of '_' have the same dedup key only
when they have the same dedup tuple. -/
theorem dedupTuple_of_generateUniqueKey (host : Host) (a b : AttendanceRecord)
    (ha : plainFields a = true) (hb : plainFields b = true)
    (h : generateUniqueKey host a = generateUniqueKey host b) :
    dedupTuple host a = dedupTuple host b := by
  simp only [plainFields, Bool.and_eq_true, decide_eq_true_eq] at ha hb
  unfold generateUniqueKey at h
  unfold dedupTuple
  cases hta : a.timestamp with
  | none =>
    cases htb : b.timestamp with
    | none => rfl
    | some tb => simp [hta, htb] at h
  | some ta =>
    cases htb : b.timestamp with
    | none => simp [hta, htb] at h
    | some tb =>
      simp only [hta, htb, Option.some.injEq] at h
      obtain ⟨h1, h2, h3, h4⟩ := key_inj _ _ _ _ _ _ _ _ (isoDate_no_underscore ta)
        (isoDate_no_underscore tb) ha.1 hb.1 ha.2 hb.2 h
      simp only [Option.map_some']
      rw [h1, h2, h3, h4]

/-! ## Reconciler: nothing is lost -/

theorem length_firstPerKey_le {α κ : Type} [DecidableEq κ] (key : α → κ) (l : List α) :
    ∀ seen, (firstPerKey key seen l).length ≤ l.length := by
  induction l with
  | nil =>
    intro seen
    exact Nat.le_refl _
  | cons a rest ih =>
    intro seen
    unfold firstPerKey
    split
    · exact Nat.le_succ_of_le (ih _)
    · exact Nat.succ_le_succ (ih _)

theorem length_remoteFirst_le (host : Host) (R L : List AttendanceRecord) :
    (remoteFirst host R L).length ≤ R.length + L.length := by
  unfold remoteFirst
  rw [List.length_append]
  exact Nat.add_le_add (length_firstPerKey_le _ _ _) (length_firstPerKey_le _ _ _)

theorem reconcile_of_valid (host : Host) (store : LocalStorage) (filters : Filters)
    (R L : List AttendanceRecord)
    (hR : ∀ r ∈ R, r.timestamp ≠ none) (hL : ∀ r ∈ L, r.timestamp ≠ none) :
    reconcile host store filters R L =
      { success := true, data := sortRecords (remoteFirst host R L), source := some "hybrid",
        googleCount := some R.length, localCount := some L.length,
        total := some (sortRecords (remoteFirst host R L)).length, message := none,
        fallbackMode := false } := by
  simp [reconcile, mergeRecords_of_valid host R L hR hL]

/-- C22 (as amended): for every remote list R and local list L whose events all
have valid timestamps, every event of R and of L has an event in the returned
data with the same dedup key, and with the same (calendar date, studentId, status,
minute-truncated time) when the studentId and status of both are free of '_';
every returned event is an element of R or of L; `total` is the length of the
data, `googleCount` and `localCount` are the lengths of R and L, and the data is
not longer than both together. -/
theorem reconcile_nothing_lost (host : Host) (store : LocalStorage) (filters : Filters)
    (R L : List AttendanceRecord)
    (hR : ∀ r ∈ R, r.timestamp ≠ none) (hL : ∀ r ∈ L, r.timestamp ≠ none) :
    (∀ e ∈ R ++ L, ∃ y ∈ (reconcile host store filters R L).data,
      generateUniqueKey host y = generateUniqueKey host e ∧
        (plainFields y = true → plainFields e = true →
          dedupTuple host y = dedupTuple host e)) ∧
    (∀ y ∈ (reconcile host store filters R L).data, y ∈ R ∨ y ∈ L) ∧
    (reconcile host store filters R L).total =
      some (reconcile host store filters R L).data.length ∧
    (reconcile host store filters R L).googleCount = some R.length ∧
    (reconcile host store filters R L).localCount = some L.length ∧
    (reconcile host store filters R L).data.length ≤ R.length + L.length := by
  rw [reconcile_of_valid host store filters R L hR hL]
  refine ⟨?_, ?_, rfl, rfl, rfl, ?_⟩
  · intro e he
    have hkey : generateUniqueKey host e ∈
        (remoteFirst host R L).map (generateUniqueKey host) := by
      rw [mem_keys_remoteFirst, ← List.mem_append, ← List.map_append]
      exact List.mem_map_of_mem _ he
    obtain ⟨y, hy, hyk⟩ := List.mem_map.mp hkey
    exact ⟨y, (sortRecords_perm _).mem_iff.mpr hy, hyk,
      fun hpy hpe => dedupTuple_of_generateUniqueKey host y e hpy hpe hyk⟩
  · intro y hy
    exact mem_of_mem_remoteFirst host R L y ((sortRecords_perm _).mem_iff.mp hy)
  · show (sortRecords (remoteFirst host R L)).length ≤ _
    rw [(sortRecords_perm _).length_eq]
    exact length_remoteFirst_le host R L

/-- Witness of C22: one remote event, and the same swipe stored twice with a
check-out of another student. -/
theorem reconcile_nothing_lost_witness :
    (∀ e ∈ [remoteCheckIn] ++ [offlineCheckIn, repeatedCheckIn, strayCheckOut],
      ∃ y ∈ (reconcile sampleHost emptyStore noFilters [remoteCheckIn]
          [offlineCheckIn, repeatedCheckIn, strayCheckOut]).data,
        generateUniqueKey sampleHost y = generateUniqueKey sampleHost e ∧
          (plainFields y = true → plainFields e = true →
            dedupTuple sampleHost y = dedupTuple sampleHost e)) ∧
    (reconcile sampleHost emptyStore noFilters [remoteCheckIn]
      [offlineCheckIn, repeatedCheckIn, strayCheckOut]).data = [strayCheckOut, remoteCheckIn] ∧
    (∀ e ∈ [remoteCheckIn, offlineCheckIn, repeatedCheckIn, strayCheckOut],
      plainFields e = true) :=
  ⟨(reconcile_nothing_lost sampleHost emptyStore noFilters [remoteCheckIn]
      [offlineCheckIn, repeatedCheckIn, strayCheckOut] (by decide) (by decide)).1,
    by decide, by decide⟩

/-- C22 (as stated) fails: with a record stored without a timestamp the merge
throws, the remote event is not in the returned data and no returned event has
its dedup tuple, and the counts are absent; and two events with valid timestamps
whose tuples differ only in where the '_' falls between studentId and status
share the key, so that the second one is dropped. -/
theorem getAttendanceData_undated_remote_lost :
    remoteCheckIn ∈ googleDataOf sampleHost (storeOf [undatedCheckIn]) (.ok samplePayload)
      noFilters ∧
    (getAttendanceData sampleHost (storeOf [undatedCheckIn]) (.ok samplePayload)
      noFilters).data = [undatedCheckIn] ∧
    (∀ y ∈ (getAttendanceData sampleHost (storeOf [undatedCheckIn]) (.ok samplePayload)
      noFilters).data, dedupTuple sampleHost y ≠ dedupTuple sampleHost remoteCheckIn) ∧
    (getAttendanceData sampleHost (storeOf [undatedCheckIn]) (.ok samplePayload)
      noFilters).googleCount = none ∧
    (reconcile sampleHost emptyStore noFilters []
      [underscoreInId, underscoreInStatus]).data = [underscoreInId] ∧
    dedupTuple sampleHost underscoreInId ≠ dedupTuple sampleHost underscoreInStatus := by
  decide

/-! ## Filters of the reconciled query -/

theorem filterByDate_date (targetDate : String) (records : List AttendanceRecord) :
    ∀ filtered, filterByDate targetDate records = some filtered →
      ∀ x ∈ filtered, recordDate x = some targetDate := by
  induction records with
  | nil =>
    intro filtered h x hx
    simp only [filterByDate, Option.some.injEq] at h
    rw [← h] at hx
    simp at hx
  | cons r rest ih =>
    intro filtered h x hx
    unfold filterByDate at h
    cases hdate : recordDate r with
    | none => simp [hdate] at h
    | some d =>
      cases hrest : filterByDate targetDate rest with
      | none => simp [hdate, hrest] at h
      | some restFiltered =>
        simp only [hdate, hrest, Option.some.injEq] at h
        rw [← h] at hx
        by_cases hd : d = targetDate
        · simp only [hd, if_true, List.mem_cons] at hx
          rcases hx with rfl | hx
          · rw [hdate, hd]
          · exact ih restFiltered hrest x hx
        · simp only [hd, if_false] at hx
          exact ih restFiltered hrest x hx

theorem getD_of_truthy (s : Option String) (h : truthy s = true) : some (s.getD "") = s := by
  cases s with
  | none => simp [truthy] at h
  | some v => rfl

theorem getFromLocalStorage_sound (store : LocalStorage) (filters : Filters) :
    ∀ x ∈ (_getFromLocalStorage store filters).data,
      (truthy filters.date = true → recordDate x = filters.date) ∧
        (truthy filters.studentId = true → some x.studentId = filters.studentId) := by
  intro x hx
  unfold _getFromLocalStorage at hx
  cases hread : readAttendanceData store with
  | none => simp [hread, queryFailure] at hx
  | some records =>
    simp only [hread] at hx
    have hstudent : ∀ l : List AttendanceRecord,
        x ∈ (if truthy filters.studentId = true then
          l.filter (fun record => record.studentId = filters.studentId.getD "") else l) →
        x ∈ l ∧ (truthy filters.studentId = true → some x.studentId = filters.studentId) := by
      intro l hl
      by_cases hs : truthy filters.studentId = true
      · rw [if_pos hs] at hl
        obtain ⟨hmem, hid⟩ := List.mem_filter.mp hl
        refine ⟨hmem, fun _ => ?_⟩
        rw [← getD_of_truthy _ hs]
        simpa using hid
      · rw [if_neg hs] at hl
        exact ⟨hl, fun h => absurd h hs⟩
    by_cases hd : truthy filters.date = true
    · simp only [hd, if_true] at hx
      cases hfilter : filterByDate (filters.date.getD "") records with
      | none => simp [hfilter, queryFailure] at hx
      | some filtered =>
        simp only [hfilter] at hx
        obtain ⟨hmem, hid⟩ := hstudent filtered hx
        refine ⟨fun _ => ?_, hid⟩
        rw [filterByDate_date _ _ filtered hfilter x hmem]
        exact getD_of_truthy _ hd
    · simp only [hd] at hx
      obtain ⟨_, hid⟩ := hstudent records hx
      exact ⟨fun h => absurd h hd, hid⟩

theorem fetchAndConvert_date (host : Host) (outcome : FetchOutcome) (filters : Filters)
    (result : QueryResult) (h : fetchAndConvert host outcome filters = some result)
    (hd : truthy filters.date = true) : ∀ x ∈ result.data, recordDate x = filters.date := by
  unfold fetchAndConvert at h
  cases outcome with
  | transportError => simp at h
  | httpError status => simp at h
  | badJson => simp at h
  | ok googleResult =>
    simp only at h
    split at h
    · simp at h
    · cases hdata : googleResult.data with
      | none => simp [hdata] at h
      | some rows =>
        cases hconvert : convertRows host rows with
        | none => simp [hdata, hconvert] at h
        | some convertedData =>
          simp only [hdata, hconvert, hd, if_true] at h
          cases hfilter : filterByDate (filters.date.getD "") convertedData with
          | none => simp [hfilter] at h
          | some filteredData =>
            simp only [hfilter, Option.some.injEq] at h
            intro x hx
            rw [← h] at hx
            rw [filterByDate_date _ _ filteredData hfilter x hx]
            exact getD_of_truthy _ hd

theorem getFromGoogleScript_date (host : Host) (store : LocalStorage) (outcome : FetchOutcome)
    (filters : Filters) (hd : truthy filters.date = true) :
    ∀ x ∈ (_getFromGoogleScript host store outcome filters).data,
      recordDate x = filters.date := by
  intro x hx
  unfold _getFromGoogleScript at hx
  cases hfetch : fetchAndConvert host outcome filters with
  | some result =>
    rw [hfetch] at hx
    exact fetchAndConvert_date host outcome filters result hfetch hd x hx
  | none =>
    rw [hfetch] at hx
    exact (getFromLocalStorage_sound store filters x hx).1 hd

theorem mem_localDataOf (store : LocalStorage) (filters : Filters) (x : AttendanceRecord)
    (hx : x ∈ localDataOf store filters) : x ∈ (_getFromLocalStorage store filters).data := by
  unfold localDataOf at hx
  simp only at hx
  split at hx
  · exact hx
  · simp at hx

theorem mem_googleDataOf (host : Host) (store : LocalStorage) (outcome : FetchOutcome)
    (filters : Filters) (x : AttendanceRecord)
    (hx : x ∈ googleDataOf host store outcome filters) :
    x ∈ (_getFromGoogleScript host store outcome filters).data := by
  unfold googleDataOf at hx
  simp only at hx
  split at hx
  · exact hx
  · simp at hx

theorem mem_getAttendanceData (host : Host) (store : LocalStorage) (outcome : FetchOutcome)
    (filters : Filters) (x : AttendanceRecord)
    (hx : x ∈ (getAttendanceData host store outcome filters).data) :
    x ∈ googleDataOf host store outcome filters ∨
      x ∈ (_getFromLocalStorage store filters).data := by
  unfold getAttendanceData reconcile at hx
  cases hmerge : mergeRecords host (googleDataOf host store outcome filters)
      (localDataOf store filters) with
  | some merged =>
    rw [hmerge] at hx
    rcases mem_of_mergeRecords host _ _ merged hmerge x hx with h | h
    · exact Or.inl h
    · exact Or.inr (mem_localDataOf store filters x h)
  | none =>
    rw [hmerge] at hx
    exact Or.inr hx

/-- C23, what the code does: for every filter, payload and local collection the
returned events fall on `filter.date` when a date is given; when a studentId is
given, a returned event has that studentId or is one of the remote events, on
which `_getFromGoogleScript` applies no studentId filter: with the filter
`{ studentId: '10102' }` and a remote row of student 10101 the data is that
student's check-in. -/
theorem getAttendanceData_remote_ignores_studentId (host : Host) (store : LocalStorage)
    (outcome : FetchOutcome) (filters : Filters) :
    (truthy filters.date = true →
      ∀ x ∈ (getAttendanceData host store outcome filters).data,
        recordDate x = filters.date) ∧
    (truthy filters.studentId = true →
      ∀ x ∈ (getAttendanceData host store outcome filters).data,
        some x.studentId = filters.studentId ∨
          x ∈ googleDataOf host store outcome filters) ∧
    (getAttendanceData sampleHost emptyStore (.ok samplePayload) onlyStudent10102).data =
      [remoteCheckIn] ∧
    (getAttendanceData sampleHost emptyStore (.ok samplePayload) onlyStudent10102).success =
      true ∧
    remoteCheckIn.studentId = "10101" := by
  refine ⟨?_, ?_, by decide, by decide, rfl⟩
  · intro hd x hx
    rcases mem_getAttendanceData host store outcome filters x hx with h | h
    · exact getFromGoogleScript_date host store outcome filters hd x
        (mem_googleDataOf host store outcome filters x h)
    · exact (getFromLocalStorage_sound store filters x h).1 hd
  · intro hs x hx
    rcases mem_getAttendanceData host store outcome filters x hx with h | h
    · exact Or.inr h
    · exact Or.inl ((getFromLocalStorage_sound store filters x h).2 hs)

end MorningAttendance
